import Mathlib

/-!
Verification development for the Zephyr scripting-language runtime.

The Rust sources are shallowly embedded:

* `ast.rs`       → the inductive types `Ty`, `Pattern`, `Expr`, `Stmt`, ….
  Rust `String` fields are represented by their UTF-8 byte sequences
  (`ZStr := List Nat`); `f64` fields are represented by their IEEE-754
  bit pattern (a `Nat` below `2 ^ 64`), since the codec only ever moves
  those 8 bytes verbatim.
* `bytecode.rs`  → `Encoder.*` become the `enc*` functions producing byte
  lists, `Decoder.*` become the fuel-indexed `read*` functions consuming
  byte lists, plus the top-level `encode` / `decode` / `fnv1a`.
* `bundle.rs`    → `bundleBytes`, `findPayloadStart`, `stripPayload`.
* `interpreter.rs` → values, the store of reference-counted mutable
  containers and environment nodes, and the fuel-indexed evaluator.
* `stdlib.rs`    → only the pure list built-ins that the properties
  touch; the I/O / HTTP / filesystem leaves are external collaborators
  (spec §1) and are not modelled.

Machine integers are modelled as `Nat` / `Int` with explicit bounds and
`% 2 ^ 64` truncation where the Rust code casts.  Rust panics (integer
division/remainder overflow and sundry `unwrap`s) are a distinct
evaluation outcome `Res.pnc`, never caught anywhere, mirroring an
unwinding panic.
-/

namespace Zephyr

/-- Bytes of a Rust `String` (UTF-8).  All identifier and string-literal
payloads in the AST are carried in this form. -/
abbrev ZStr := List Nat

/-- Little-endian encoding of `v` into `w` bytes, as produced by the Rust
`to_le_bytes` calls (the cast truncates, hence the implicit `% 256^w`). -/
def natToLe : Nat → Nat → List Nat
  | 0, _ => []
  | w + 1, v => v % 256 :: natToLe w (v / 256)

/-- Little-endian decoding of a byte list, as in `from_le_bytes`. -/
def leToNat : List Nat → Nat
  | [] => 0
  | b :: bs => b + 256 * leToNat bs

/-- Two's-complement encoding of an `i64` as 8 little-endian bytes
(`i64::to_le_bytes`). -/
def i64ToLe (v : Int) : List Nat := natToLe 8 (v % (2 ^ 64 : Int)).toNat

/-- Decoding 8 little-endian bytes as an `i64` (`i64::from_le_bytes`). -/
def leToI64 (bs : List Nat) : Int :=
  let n := leToNat bs
  if n < 2 ^ 63 then (n : Int) else (n : Int) - 2 ^ 64

-- ═══════════════════════════════════════════════════════════
-- ast.rs — the Zephyr AST
-- ═══════════════════════════════════════════════════════════
/-- `ast::Type` — parse-time, advisory types. -/
inductive Ty where
  | int
  | float
  | bool
  | stringT
  | nil
  | option (t : Ty)
  | result (a b : Ty)
  | list (t : Ty)
  | map (k v : Ty)
  | tuple (ts : List Ty)
  | named (s : ZStr)
  | generic (s : ZStr) (args : List Ty)
  | function (ps : List Ty) (r : Ty)
  | inferred
deriving Repr

/-- `ast::BinOp`. -/
inductive BinOp where
  | add | sub | mul | div | mod
  | eq | notEq | lt | ltEq | gt | gtEq
  | and | or
  | dotDot
deriving Repr, DecidableEq

/-- `ast::UnaryOp`. -/
inductive UnaryOp where
  | neg
  | not
deriving Repr, DecidableEq

/-- `ast::Pattern`. -/
inductive Pattern where
  | wildcard
  | ident (name : ZStr)
  | intP (n : Int)
  | floatP (bits : Nat)
  | boolP (b : Bool)
  | stringLit (s : ZStr)
  | nilP
  | tupleP (ps : List Pattern)
  | listP (ps : List Pattern)
  | structP (name : ZStr) (fields : List (ZStr × Pattern))
  | enumVariant (en vn : ZStr) (fields : List Pattern)
  | someP (p : Pattern)
  | okP (p : Pattern)
  | errP (p : Pattern)
  | orP (a b : Pattern)
  | rangeP (lo hi : Pattern)
deriving Repr

/-- `ast::StructField`. -/
structure StructField where
  name : ZStr
  ty : Ty
  isPub : Bool
deriving Repr

/-- `ast::StructDef`. -/
structure StructDef where
  name : ZStr
  generics : List ZStr
  fields : List StructField
  isPub : Bool
deriving Repr

/-- `ast::EnumVariant` (the schema entry, not the runtime value). -/
structure EnumVariantDef where
  name : ZStr
  fields : List Ty
deriving Repr

/-- `ast::EnumDef`. -/
structure EnumDef where
  name : ZStr
  generics : List ZStr
  variants : List EnumVariantDef
  isPub : Bool
deriving Repr

mutual

/-- `ast::Expr`. -/
inductive Expr where
  | int (n : Int)
  | float (bits : Nat)
  | bool (b : Bool)
  | stringLit (s : ZStr)
  | nilE
  | interp (parts : List StringPart)
  | var (name : ZStr)
  | tuple (elems : List Expr)
  | list (elems : List Expr)
  | mapLit (pairs : List (Expr × Expr))
  | block (stmts : List Stmt) (tail : Option Expr)
  | binOp (l : Expr) (op : BinOp) (r : Expr)
  | unaryOp (op : UnaryOp) (e : Expr)
  | call (callee : Expr) (args : List Expr)
  | methodCall (obj : Expr) (method : ZStr) (args : List Expr)
  | fieldAccess (obj : Expr) (field : ZStr)
  | index (obj idx : Expr)
  | ifE (cond then_ : Expr) (elifs : List (Expr × Expr)) (els : Option Expr)
  | matchE (subject : Expr) (arms : List MatchArm)
  | closure (params : List (ZStr × Option Ty)) (body : Expr)
  | structCreate (name : ZStr) (fields : List (ZStr × Expr))
  | enumVariant (en vn : ZStr) (args : List Expr)
  | range (lo hi : Expr)
  | someE (e : Expr)
  | okE (e : Expr)
  | errE (e : Expr)
  | question (e : Expr)
  | boxE (e : Expr)
  | refE (e : Expr)
  | assign (target value : Expr)
  | awaitE (e : Expr)

/-- `ast::StringPart`. -/
inductive StringPart where
  | literal (s : ZStr)
  | interpolated (e : Expr)

/-- `ast::MatchArm`. -/
inductive MatchArm where
  | mk (pattern : Pattern) (guard : Option Expr) (body : Expr)

/-- `ast::Param`. -/
inductive Param where
  | mk (name : ZStr) (ty : Option Ty) (default : Option Expr)

/-- `ast::FunDef`. -/
inductive FunDef where
  | mk (name : ZStr) (generics : List ZStr) (params : List Param)
       (returnType : Option Ty) (body : List Stmt) (isPub : Bool)

/-- `ast::ImplBlock`. -/
inductive ImplBlock where
  | mk (target : ZStr) (generics : List ZStr) (methods : List FunDef)

/-- `ast::Stmt`. -/
inductive Stmt where
  | letS (name : ZStr) (ty : Option Ty) (value : Expr) (mutable : Bool)
  | exprS (e : Expr)
  | retS (e : Option Expr)
  | brk
  | contin
  | whileS (cond : Expr) (body : List Stmt)
  | forS (v : ZStr) (iter : Expr) (body : List Stmt)
  | funDefS (f : FunDef)
  | structDefS (d : StructDef)
  | enumDefS (d : EnumDef)
  | implBlockS (b : ImplBlock)
  | modDef (name : ZStr) (body : List Stmt)
  | importS (path : List ZStr)
  | typeAlias (name : ZStr) (generics : List ZStr) (ty : Ty)

end

def MatchArm.pattern : MatchArm → Pattern
  | .mk p _ _ => p

def MatchArm.guard : MatchArm → Option Expr
  | .mk _ g _ => g

def MatchArm.body : MatchArm → Expr
  | .mk _ _ b => b

def Param.name : Param → ZStr
  | .mk n _ _ => n

def Param.ty : Param → Option Ty
  | .mk _ t _ => t

def Param.default : Param → Option Expr
  | .mk _ _ d => d

-- ═══════════════════════════════════════════════════════════
-- bytecode.rs — tag constants
-- ═══════════════════════════════════════════════════════════
def MAGIC : Nat := 0x5A504843

def VERSION : Nat := 1

def TAG_EXPR_INT : Nat          := 0x01

def TAG_EXPR_FLOAT : Nat        := 0x02

def TAG_EXPR_BOOL : Nat         := 0x03

def TAG_EXPR_STRING : Nat       := 0x04

def TAG_EXPR_NIL : Nat          := 0x05

def TAG_EXPR_INTERP : Nat       := 0x06

def TAG_EXPR_VAR : Nat          := 0x07

def TAG_EXPR_TUPLE : Nat        := 0x08

def TAG_EXPR_LIST : Nat         := 0x09

def TAG_EXPR_MAPLIT : Nat       := 0x0A

def TAG_EXPR_BLOCK : Nat        := 0x0B

def TAG_EXPR_BINOP : Nat        := 0x0C

def TAG_EXPR_UNARYOP : Nat      := 0x0D

def TAG_EXPR_CALL : Nat         := 0x0E

def TAG_EXPR_METHODCALL : Nat   := 0x0F

def TAG_EXPR_FIELDACCESS : Nat  := 0x10

def TAG_EXPR_INDEX : Nat        := 0x11

def TAG_EXPR_IF : Nat           := 0x12

def TAG_EXPR_MATCH : Nat        := 0x13

def TAG_EXPR_CLOSURE : Nat      := 0x14

def TAG_EXPR_STRUCTCREATE : Nat := 0x15

def TAG_EXPR_ENUMVARIANT : Nat  := 0x16

def TAG_EXPR_RANGE : Nat        := 0x17

def TAG_EXPR_SOME : Nat         := 0x18

def TAG_EXPR_OK : Nat           := 0x19

def TAG_EXPR_ERR : Nat          := 0x1A

def TAG_EXPR_QUESTION : Nat     := 0x1B

def TAG_EXPR_BOX : Nat          := 0x1C

def TAG_EXPR_REF : Nat          := 0x1D

def TAG_EXPR_ASSIGN : Nat       := 0x1E

def TAG_EXPR_AWAIT : Nat        := 0x1F

def TAG_STMT_LET : Nat          := 0x40

def TAG_STMT_EXPR : Nat         := 0x41

def TAG_STMT_RETURN : Nat       := 0x42

def TAG_STMT_BREAK : Nat        := 0x43

def TAG_STMT_CONTINUE : Nat     := 0x44

def TAG_STMT_WHILE : Nat        := 0x45

def TAG_STMT_FOR : Nat          := 0x46

def TAG_STMT_FUNDEF : Nat       := 0x47

def TAG_STMT_STRUCTDEF : Nat    := 0x48

def TAG_STMT_ENUMDEF : Nat      := 0x49

def TAG_STMT_IMPLBLOCK : Nat    := 0x4A

def TAG_STMT_MODDEF : Nat       := 0x4B

def TAG_STMT_IMPORT : Nat       := 0x4C

def TAG_STMT_TYPEALIAS : Nat    := 0x4D

def TAG_TYPE_INT : Nat          := 0x80

def TAG_TYPE_FLOAT : Nat        := 0x81

def TAG_TYPE_BOOL : Nat         := 0x82

def TAG_TYPE_STRING : Nat       := 0x83

def TAG_TYPE_NIL : Nat          := 0x84

def TAG_TYPE_OPTION : Nat       := 0x85

def TAG_TYPE_RESULT : Nat       := 0x86

def TAG_TYPE_LIST : Nat         := 0x87

def TAG_TYPE_MAP : Nat          := 0x88

def TAG_TYPE_TUPLE : Nat        := 0x89

def TAG_TYPE_NAMED : Nat        := 0x8A

def TAG_TYPE_GENERIC : Nat      := 0x8B

def TAG_TYPE_FUNCTION : Nat     := 0x8C

def TAG_TYPE_INFERRED : Nat     := 0x8D

def TAG_BINOP_ADD : Nat   := 0x01

def TAG_BINOP_SUB : Nat   := 0x02

def TAG_BINOP_MUL : Nat   := 0x03

def TAG_BINOP_DIV : Nat   := 0x04

def TAG_BINOP_MOD : Nat   := 0x05

def TAG_BINOP_EQ : Nat    := 0x06

def TAG_BINOP_NEQ : Nat   := 0x07

def TAG_BINOP_LT : Nat    := 0x08

def TAG_BINOP_LTEQ : Nat  := 0x09

def TAG_BINOP_GT : Nat    := 0x0A

def TAG_BINOP_GTEQ : Nat  := 0x0B

def TAG_BINOP_AND : Nat   := 0x0C

def TAG_BINOP_OR : Nat    := 0x0D

def TAG_BINOP_DOTDOT : Nat := 0x0E

def TAG_UNARY_NEG : Nat := 0x01

def TAG_UNARY_NOT : Nat := 0x02

def TAG_PAT_WILDCARD : Nat    := 0xC0

def TAG_PAT_IDENT : Nat       := 0xC1

def TAG_PAT_INT : Nat         := 0xC2

def TAG_PAT_FLOAT : Nat       := 0xC3

def TAG_PAT_BOOL : Nat        := 0xC4

def TAG_PAT_STRING : Nat      := 0xC5

def TAG_PAT_NIL : Nat         := 0xC6

def TAG_PAT_TUPLE : Nat       := 0xC7

def TAG_PAT_LIST : Nat        := 0xC8

def TAG_PAT_STRUCT : Nat      := 0xC9

def TAG_PAT_ENUMVARIANT : Nat := 0xCA

def TAG_PAT_SOME : Nat        := 0xCB

def TAG_PAT_OK : Nat          := 0xCC

def TAG_PAT_ERR : Nat         := 0xCD

def TAG_PAT_OR : Nat          := 0xCE

def TAG_PAT_RANGE : Nat       := 0xCF

def TAG_STRPART_LITERAL : Nat := 0x01

def TAG_STRPART_INTERP : Nat  := 0x02

-- ═══════════════════════════════════════════════════════════
-- bytecode.rs — Encoder primitives
-- ═══════════════════════════════════════════════════════════
/-- `Encoder::write_u32` (the `as u32` cast truncates, which `natToLe`
performs implicitly by extracting the four low bytes). -/
def encU32 (v : Nat) : List Nat := natToLe 4 v

/-- `Encoder::write_u64`. -/
def encU64 (v : Nat) : List Nat := natToLe 8 v

/-- `Encoder::write_i64`. -/
def encI64 (v : Int) : List Nat := i64ToLe v

/-- `Encoder::write_f64` on the float's IEEE-754 bit pattern. -/
def encF64 (bits : Nat) : List Nat := natToLe 8 bits

/-- `Encoder::write_bool`. -/
def encBool (b : Bool) : List Nat := [if b then 1 else 0]

/-- `Encoder::write_str`: u32 byte length followed by the UTF-8 bytes. -/
def encStr (s : ZStr) : List Nat := encU32 s.length ++ s

-- ── Type encoder (`Encoder::write_type`) ──────────────────────────────
mutual

/-- `Encoder::write_type`. -/
def encTy : Ty → List Nat
  | .int => [TAG_TYPE_INT]
  | .float => [TAG_TYPE_FLOAT]
  | .bool => [TAG_TYPE_BOOL]
  | .stringT => [TAG_TYPE_STRING]
  | .nil => [TAG_TYPE_NIL]
  | .inferred => [TAG_TYPE_INFERRED]
  | .option inner => TAG_TYPE_OPTION :: encTy inner
  | .result a b => TAG_TYPE_RESULT :: (encTy a ++ encTy b)
  | .list inner => TAG_TYPE_LIST :: encTy inner
  | .map k v => TAG_TYPE_MAP :: (encTy k ++ encTy v)
  | .tuple ts => TAG_TYPE_TUPLE :: (encU32 ts.length ++ encTyList ts)
  | .named s => TAG_TYPE_NAMED :: encStr s
  | .generic s args =>
      TAG_TYPE_GENERIC :: (encStr s ++ encU32 args.length ++ encTyList args)
  | .function ps r =>
      TAG_TYPE_FUNCTION :: (encU32 ps.length ++ encTyList ps ++ encTy r)

/-- Elementwise body of `write_vec` over types. -/
def encTyList : List Ty → List Nat
  | [] => []
  | t :: ts => encTy t ++ encTyList ts

end

/-- `Encoder::write_opt` over a type. -/
def encOptTy : Option Ty → List Nat
  | none => [0]
  | some t => 1 :: encTy t

-- ═══════════════════════════════════════════════════════════
-- bytecode.rs — Decoder
-- ═══════════════════════════════════════════════════════════
/-- Decoder failures (`io::Error` values constructed in `bytecode.rs`).
`unknownTag space tag` stands for the
`format!("unknown {space} tag: 0x{tag:02X}")` errors and records which tag
byte was rejected; `badUtf8` stands for a `String::from_utf8` failure
(never reached on encoder output, and not exercised by any claim); `oof`
is a modelling artifact marking decoder-fuel exhaustion. -/
inductive DecErr where
  | eof
  | badUtf8
  | unknownTag (space : String) (tag : Nat)
  | oof
deriving Repr, DecidableEq

/-- A decoding step: consumes a prefix of the byte list (the source's
`Decoder { data, pos }` cursor is modelled by the remaining suffix). -/
def Dec (α : Type) : Type := List Nat → Except DecErr (α × List Nat)

def Dec.pure (a : α) : Dec α := fun input => .ok (a, input)

def Dec.bind (m : Dec α) (f : α → Dec β) : Dec β := fun input =>
  match m input with
  | .error e => .error e
  | .ok (a, rest) => f a rest

instance : Monad Dec where
  pure := Dec.pure
  bind := Dec.bind

/-- Abort decoding with the given error. -/
def decFail (e : DecErr) : Dec α := fun _ => .error e

/-- `Decoder::read_u8`. -/
def readU8 : Dec Nat := fun input =>
  match input with
  | [] => .error .eof
  | b :: rest => .ok (b, rest)

/-- `Decoder::read_bytes`. -/
def readBytes (n : Nat) : Dec (List Nat) := fun input =>
  if n ≤ input.length then .ok (input.take n, input.drop n) else .error .eof

/-- `Decoder::read_u16`. -/
def readU16 : Dec Nat := do
  let bs ← readBytes 2
  Dec.pure (leToNat bs)

/-- `Decoder::read_u32`. -/
def readU32 : Dec Nat := do
  let bs ← readBytes 4
  Dec.pure (leToNat bs)

/-- `Decoder::read_u64`. -/
def readU64 : Dec Nat := do
  let bs ← readBytes 8
  Dec.pure (leToNat bs)

/-- `Decoder::read_i64`. -/
def readI64 : Dec Int := do
  let bs ← readBytes 8
  Dec.pure (leToI64 bs)

/-- `Decoder::read_f64` (bit pattern). -/
def readF64 : Dec Nat := do
  let bs ← readBytes 8
  Dec.pure (leToNat bs)

/-- `Decoder::read_bool` (`!= 0`). -/
def readBool : Dec Bool := do
  let b ← readU8
  Dec.pure (decide (b ≠ 0))

/-- `Decoder::read_str`.  `String::from_utf8` always succeeds on bytes
that were produced by `String::as_bytes`; its failure on other byte
sequences is not modelled (no claim depends on it). -/
def readStr : Dec ZStr := do
  let len ← readU32
  readBytes len

/-- `Decoder::read_opt`. -/
def readOptBy (f : Dec α) : Dec (Option α) := do
  let t ← readU8
  if t = 0 then Dec.pure none
  else do
    let x ← f
    Dec.pure (some x)

/-- The counted loop inside `Decoder::read_vec`. -/
def readVecItems (f : Dec α) : Nat → Dec (List α)
  | 0 => Dec.pure []
  | n + 1 => do
      let x ← f
      let xs ← readVecItems f n
      Dec.pure (x :: xs)

/-- `Decoder::read_vec`. -/
def readVecBy (f : Dec α) : Dec (List α) := do
  let n ← readU32
  readVecItems f n

/-- `Decoder::read_type`, indexed by recursion fuel (the Rust recursion
terminates because every recursive call consumes input; the fuel makes
that explicit). -/
def readTy : Nat → Dec Ty
  | 0 => decFail .oof
  | f + 1 => do
      let t ← readU8
      if t = TAG_TYPE_INT then Dec.pure .int
      else if t = TAG_TYPE_FLOAT then Dec.pure .float
      else if t = TAG_TYPE_BOOL then Dec.pure .bool
      else if t = TAG_TYPE_STRING then Dec.pure .stringT
      else if t = TAG_TYPE_NIL then Dec.pure .nil
      else if t = TAG_TYPE_INFERRED then Dec.pure .inferred
      else if t = TAG_TYPE_OPTION then do
        let inner ← readTy f
        Dec.pure (.option inner)
      else if t = TAG_TYPE_RESULT then do
        let a ← readTy f
        let b ← readTy f
        Dec.pure (.result a b)
      else if t = TAG_TYPE_LIST then do
        let inner ← readTy f
        Dec.pure (.list inner)
      else if t = TAG_TYPE_MAP then do
        let k ← readTy f
        let v ← readTy f
        Dec.pure (.map k v)
      else if t = TAG_TYPE_TUPLE then do
        let ts ← readVecBy (readTy f)
        Dec.pure (.tuple ts)
      else if t = TAG_TYPE_NAMED then do
        let s ← readStr
        Dec.pure (.named s)
      else if t = TAG_TYPE_GENERIC then do
        let s ← readStr
        let args ← readVecBy (readTy f)
        Dec.pure (.generic s args)
      else if t = TAG_TYPE_FUNCTION then do
        let ps ← readVecBy (readTy f)
        let r ← readTy f
        Dec.pure (.function ps r)
      else decFail (.unknownTag "type" t)

/-- `Decoder::read_opt` over a type. -/
def readOptTy (f : Nat) : Dec (Option Ty) := readOptBy (readTy f)

-- ── Pattern codec (`write_pattern` / `read_pattern`) ──────────────────
mutual

/-- `Encoder::write_pattern`. -/
def encPattern : Pattern → List Nat
  | .wildcard => [TAG_PAT_WILDCARD]
  | .nilP => [TAG_PAT_NIL]
  | .boolP b => TAG_PAT_BOOL :: encBool b
  | .intP n => TAG_PAT_INT :: encI64 n
  | .floatP bits => TAG_PAT_FLOAT :: encF64 bits
  | .stringLit s => TAG_PAT_STRING :: encStr s
  | .ident name => TAG_PAT_IDENT :: encStr name
  | .tupleP ps => TAG_PAT_TUPLE :: (encU32 ps.length ++ encPatternList ps)
  | .listP ps => TAG_PAT_LIST :: (encU32 ps.length ++ encPatternList ps)
  | .someP inner => TAG_PAT_SOME :: encPattern inner
  | .okP inner => TAG_PAT_OK :: encPattern inner
  | .errP inner => TAG_PAT_ERR :: encPattern inner
  | .orP a b => TAG_PAT_OR :: (encPattern a ++ encPattern b)
  | .rangeP lo hi => TAG_PAT_RANGE :: (encPattern lo ++ encPattern hi)
  | .enumVariant en vn fields =>
      TAG_PAT_ENUMVARIANT ::
        (encStr en ++ encStr vn ++ encU32 fields.length ++ encPatternList fields)
  | .structP name fields =>
      TAG_PAT_STRUCT ::
        (encStr name ++ encU32 fields.length ++ encPatFieldList fields)

/-- Elementwise body of `write_vec` over patterns. -/
def encPatternList : List Pattern → List Nat
  | [] => []
  | p :: ps => encPattern p ++ encPatternList ps

/-- The `(name, pattern)` field loop of the `Pattern::Struct` case. -/
def encPatFieldList : List (ZStr × Pattern) → List Nat
  | [] => []
  | (fname, fpat) :: rest => encStr fname ++ encPattern fpat ++ encPatFieldList rest

end

/-- The counted `(name, pattern)` loop in `read_pattern`'s struct case. -/
def readPatFields (f : Dec Pattern) : Nat → Dec (List (ZStr × Pattern))
  | 0 => Dec.pure []
  | n + 1 => do
      let fname ← readStr
      let fpat ← f
      let rest ← readPatFields f n
      Dec.pure ((fname, fpat) :: rest)

/-- `Decoder::read_pattern`, fuel-indexed. -/
def readPattern : Nat → Dec Pattern
  | 0 => decFail .oof
  | f + 1 => do
      let t ← readU8
      if t = TAG_PAT_WILDCARD then Dec.pure .wildcard
      else if t = TAG_PAT_NIL then Dec.pure .nilP
      else if t = TAG_PAT_BOOL then do
        let b ← readBool
        Dec.pure (.boolP b)
      else if t = TAG_PAT_INT then do
        let n ← readI64
        Dec.pure (.intP n)
      else if t = TAG_PAT_FLOAT then do
        let bits ← readF64
        Dec.pure (.floatP bits)
      else if t = TAG_PAT_STRING then do
        let s ← readStr
        Dec.pure (.stringLit s)
      else if t = TAG_PAT_IDENT then do
        let s ← readStr
        Dec.pure (.ident s)
      else if t = TAG_PAT_TUPLE then do
        let ps ← readVecBy (readPattern f)
        Dec.pure (.tupleP ps)
      else if t = TAG_PAT_LIST then do
        let ps ← readVecBy (readPattern f)
        Dec.pure (.listP ps)
      else if t = TAG_PAT_SOME then do
        let p ← readPattern f
        Dec.pure (.someP p)
      else if t = TAG_PAT_OK then do
        let p ← readPattern f
        Dec.pure (.okP p)
      else if t = TAG_PAT_ERR then do
        let p ← readPattern f
        Dec.pure (.errP p)
      else if t = TAG_PAT_OR then do
        let a ← readPattern f
        let b ← readPattern f
        Dec.pure (.orP a b)
      else if t = TAG_PAT_RANGE then do
        let lo ← readPattern f
        let hi ← readPattern f
        Dec.pure (.rangeP lo hi)
      else if t = TAG_PAT_ENUMVARIANT then do
        let en ← readStr
        let vn ← readStr
        let fields ← readVecBy (readPattern f)
        Dec.pure (.enumVariant en vn fields)
      else if t = TAG_PAT_STRUCT then do
        let name ← readStr
        let count ← readU32
        let fields ← readPatFields (readPattern f) count
        Dec.pure (.structP name fields)
      else decFail (.unknownTag "pattern" t)

-- ── BinOp / UnaryOp codec ─────────────────────────────────────────────
/-- `Encoder::write_binop`. -/
def encBinOp : BinOp → List Nat
  | .add => [TAG_BINOP_ADD]
  | .sub => [TAG_BINOP_SUB]
  | .mul => [TAG_BINOP_MUL]
  | .div => [TAG_BINOP_DIV]
  | .mod => [TAG_BINOP_MOD]
  | .eq => [TAG_BINOP_EQ]
  | .notEq => [TAG_BINOP_NEQ]
  | .lt => [TAG_BINOP_LT]
  | .ltEq => [TAG_BINOP_LTEQ]
  | .gt => [TAG_BINOP_GT]
  | .gtEq => [TAG_BINOP_GTEQ]
  | .and => [TAG_BINOP_AND]
  | .or => [TAG_BINOP_OR]
  | .dotDot => [TAG_BINOP_DOTDOT]

/-- `Encoder::write_unaryop`. -/
def encUnaryOp : UnaryOp → List Nat
  | .neg => [TAG_UNARY_NEG]
  | .not => [TAG_UNARY_NOT]

/-- `Decoder::read_binop`. -/
def readBinOp : Dec BinOp := do
  let t ← readU8
  if t = TAG_BINOP_ADD then Dec.pure .add
  else if t = TAG_BINOP_SUB then Dec.pure .sub
  else if t = TAG_BINOP_MUL then Dec.pure .mul
  else if t = TAG_BINOP_DIV then Dec.pure .div
  else if t = TAG_BINOP_MOD then Dec.pure .mod
  else if t = TAG_BINOP_EQ then Dec.pure .eq
  else if t = TAG_BINOP_NEQ then Dec.pure .notEq
  else if t = TAG_BINOP_LT then Dec.pure .lt
  else if t = TAG_BINOP_LTEQ then Dec.pure .ltEq
  else if t = TAG_BINOP_GT then Dec.pure .gt
  else if t = TAG_BINOP_GTEQ then Dec.pure .gtEq
  else if t = TAG_BINOP_AND then Dec.pure .and
  else if t = TAG_BINOP_OR then Dec.pure .or
  else if t = TAG_BINOP_DOTDOT then Dec.pure .dotDot
  else decFail (.unknownTag "binop" t)

/-- `Decoder::read_unaryop`. -/
def readUnaryOp : Dec UnaryOp := do
  let t ← readU8
  if t = TAG_UNARY_NEG then Dec.pure .neg
  else if t = TAG_UNARY_NOT then Dec.pure .not
  else decFail (.unknownTag "unaryop" t)

-- ── Struct / enum definition codec ────────────────────────────────────
/-- Elementwise body of `write_vec` over strings. -/
def encStrList : List ZStr → List Nat
  | [] => []
  | s :: ss => encStr s ++ encStrList ss

/-- `write_vec` over strings. -/
def encStrVec (xs : List ZStr) : List Nat := encU32 xs.length ++ encStrList xs

/-- `write_vec` over types. -/
def encTyVec (ts : List Ty) : List Nat := encU32 ts.length ++ encTyList ts

/-- The field loop of `Encoder::write_structdef`. -/
def encStructFields : List StructField → List Nat
  | [] => []
  | fd :: rest => encStr fd.name ++ encTy fd.ty ++ encBool fd.isPub ++ encStructFields rest

/-- `Encoder::write_structdef`. -/
def encStructDef (d : StructDef) : List Nat :=
  encStr d.name ++ encStrVec d.generics ++ encU32 d.fields.length ++
    encStructFields d.fields ++ encBool d.isPub

/-- The variant loop of `Encoder::write_enumdef`. -/
def encEnumVariants : List EnumVariantDef → List Nat
  | [] => []
  | v :: rest => encStr v.name ++ encTyVec v.fields ++ encEnumVariants rest

/-- `Encoder::write_enumdef`. -/
def encEnumDef (en : EnumDef) : List Nat :=
  encStr en.name ++ encStrVec en.generics ++ encU32 en.variants.length ++
    encEnumVariants en.variants ++ encBool en.isPub

-- ── Expression / statement encoder ────────────────────────────────────
mutual

/-- `Encoder::write_expr`. -/
def encExpr : Expr → List Nat
  | .int n => TAG_EXPR_INT :: encI64 n
  | .float bits => TAG_EXPR_FLOAT :: encF64 bits
  | .bool b => TAG_EXPR_BOOL :: encBool b
  | .nilE => [TAG_EXPR_NIL]
  | .stringLit s => TAG_EXPR_STRING :: encStr s
  | .interp parts =>
      TAG_EXPR_INTERP :: (encU32 parts.length ++ encStringPartList parts)
  | .var name => TAG_EXPR_VAR :: encStr name
  | .tuple elems => TAG_EXPR_TUPLE :: (encU32 elems.length ++ encExprList elems)
  | .list elems => TAG_EXPR_LIST :: (encU32 elems.length ++ encExprList elems)
  | .mapLit pairs => TAG_EXPR_MAPLIT :: (encU32 pairs.length ++ encExprPairList pairs)
  | .block stmts tail =>
      TAG_EXPR_BLOCK :: (encU32 stmts.length ++ encStmtList stmts ++ encOptExpr tail)
  | .binOp l op r => TAG_EXPR_BINOP :: (encExpr l ++ encBinOp op ++ encExpr r)
  | .unaryOp op inner => TAG_EXPR_UNARYOP :: (encUnaryOp op ++ encExpr inner)
  | .call callee args =>
      TAG_EXPR_CALL :: (encExpr callee ++ encU32 args.length ++ encExprList args)
  | .methodCall obj method args =>
      TAG_EXPR_METHODCALL ::
        (encExpr obj ++ encStr method ++ encU32 args.length ++ encExprList args)
  | .fieldAccess obj field => TAG_EXPR_FIELDACCESS :: (encExpr obj ++ encStr field)
  | .index obj idx => TAG_EXPR_INDEX :: (encExpr obj ++ encExpr idx)
  | .ifE cond then_ elifs els =>
      TAG_EXPR_IF ::
        (encExpr cond ++ encExpr then_ ++ encU32 elifs.length ++
          encExprPairList elifs ++ encOptExpr els)
  | .matchE subj arms =>
      TAG_EXPR_MATCH :: (encExpr subj ++ encU32 arms.length ++ encMatchArmList arms)
  | .closure params body =>
      TAG_EXPR_CLOSURE :: (encU32 params.length ++ encClosureParams params ++ encExpr body)
  | .structCreate name fields =>
      TAG_EXPR_STRUCTCREATE ::
        (encStr name ++ encU32 fields.length ++ encFieldInits fields)
  | .enumVariant en vn args =>
      TAG_EXPR_ENUMVARIANT ::
        (encStr en ++ encStr vn ++ encU32 args.length ++ encExprList args)
  | .range lo hi => TAG_EXPR_RANGE :: (encExpr lo ++ encExpr hi)
  | .someE inner => TAG_EXPR_SOME :: encExpr inner
  | .okE inner => TAG_EXPR_OK :: encExpr inner
  | .errE inner => TAG_EXPR_ERR :: encExpr inner
  | .question inner => TAG_EXPR_QUESTION :: encExpr inner
  | .boxE inner => TAG_EXPR_BOX :: encExpr inner
  | .refE inner => TAG_EXPR_REF :: encExpr inner
  | .assign target value => TAG_EXPR_ASSIGN :: (encExpr target ++ encExpr value)
  | .awaitE inner => TAG_EXPR_AWAIT :: encExpr inner

/-- Elementwise body of `write_vec` over expressions. -/
def encExprList : List Expr → List Nat
  | [] => []
  | e :: es => encExpr e ++ encExprList es

/-- The `(k, v)` pair loops (`MapLit` pairs, `If` elif branches). -/
def encExprPairList : List (Expr × Expr) → List Nat
  | [] => []
  | (a, b) :: rest => encExpr a ++ encExpr b ++ encExprPairList rest

/-- `Encoder::write_opt` over an expression. -/
def encOptExpr : Option Expr → List Nat
  | none => [0]
  | some e => 1 :: encExpr e

/-- `Encoder::write_string_part`. -/
def encStringPart : StringPart → List Nat
  | .literal s => TAG_STRPART_LITERAL :: encStr s
  | .interpolated e => TAG_STRPART_INTERP :: encExpr e

/-- Elementwise body of `write_vec` over string parts. -/
def encStringPartList : List StringPart → List Nat
  | [] => []
  | p :: ps => encStringPart p ++ encStringPartList ps

/-- `Encoder::write_match_arm`. -/
def encMatchArm : MatchArm → List Nat
  | .mk pat guard body => encPattern pat ++ encOptExpr guard ++ encExpr body

/-- Elementwise body of `write_vec` over match arms. -/
def encMatchArmList : List MatchArm → List Nat
  | [] => []
  | a :: as_ => encMatchArm a ++ encMatchArmList as_

/-- `Encoder::write_param`. -/
def encParam : Param → List Nat
  | .mk name ty default =>
      encStr name ++ encOptTy ty ++ encOptExpr default

/-- Elementwise body of `write_vec` over params. -/
def encParamList : List Param → List Nat
  | [] => []
  | p :: ps => encParam p ++ encParamList ps

/-- The `(name, opt type)` parameter loop of the `Closure` case. -/
def encClosureParams : List (ZStr × Option Ty) → List Nat
  | [] => []
  | (name, ty) :: rest => encStr name ++ encOptTy ty ++ encClosureParams rest

/-- The `(name, value)` field loop of the `StructCreate` case. -/
def encFieldInits : List (ZStr × Expr) → List Nat
  | [] => []
  | (fname, fval) :: rest => encStr fname ++ encExpr fval ++ encFieldInits rest

/-- `Encoder::write_stmt`. -/
def encStmt : Stmt → List Nat
  | .letS name ty val mutable =>
      TAG_STMT_LET :: (encStr name ++ encOptTy ty ++ encExpr val ++ encBool mutable)
  | .exprS e => TAG_STMT_EXPR :: encExpr e
  | .retS e => TAG_STMT_RETURN :: encOptExpr e
  | .brk => [TAG_STMT_BREAK]
  | .contin => [TAG_STMT_CONTINUE]
  | .whileS cond body =>
      TAG_STMT_WHILE :: (encExpr cond ++ encU32 body.length ++ encStmtList body)
  | .forS v iter body =>
      TAG_STMT_FOR :: (encStr v ++ encExpr iter ++ encU32 body.length ++ encStmtList body)
  | .funDefS f => TAG_STMT_FUNDEF :: encFunDef f
  | .structDefS d => TAG_STMT_STRUCTDEF :: encStructDef d
  | .enumDefS en => TAG_STMT_ENUMDEF :: encEnumDef en
  | .implBlockS ib => TAG_STMT_IMPLBLOCK :: encImplBlock ib
  | .modDef name stmts =>
      TAG_STMT_MODDEF :: (encStr name ++ encU32 stmts.length ++ encStmtList stmts)
  | .importS path => TAG_STMT_IMPORT :: encStrVec path
  | .typeAlias name generics ty =>
      TAG_STMT_TYPEALIAS :: (encStr name ++ encStrVec generics ++ encTy ty)

/-- Elementwise body of `write_vec` over statements. -/
def encStmtList : List Stmt → List Nat
  | [] => []
  | s :: ss => encStmt s ++ encStmtList ss

/-- `Encoder::write_fundef`. -/
def encFunDef : FunDef → List Nat
  | .mk name generics params returnType body isPub =>
      encStr name ++ encStrVec generics ++ encU32 params.length ++
        encParamList params ++ encOptTy returnType ++ encU32 body.length ++
        encStmtList body ++ encBool isPub

/-- Elementwise body of `write_vec` over function definitions. -/
def encFunDefList : List FunDef → List Nat
  | [] => []
  | f :: fs => encFunDef f ++ encFunDefList fs

/-- `Encoder::write_implblock`. -/
def encImplBlock : ImplBlock → List Nat
  | .mk target generics methods =>
      encStr target ++ encStrVec generics ++ encU32 methods.length ++
        encFunDefList methods

end

-- ── Expression / statement decoder ────────────────────────────────────
/-- A counted loop over pairs (map-literal entries, elif branches,
closure parameters, struct-create fields, struct-def fields …). -/
def readPairs (fa : Dec α) (fb : Dec β) : Nat → Dec (List (α × β))
  | 0 => Dec.pure []
  | n + 1 => do
      let a ← fa
      let b ← fb
      let rest ← readPairs fa fb n
      Dec.pure ((a, b) :: rest)

/-- The counted field loop of `Decoder::read_structdef`. -/
def readStructFields (f : Nat) : Nat → Dec (List StructField)
  | 0 => Dec.pure []
  | n + 1 => do
      let fname ← readStr
      let fty ← readTy f
      let isPub ← readBool
      let rest ← readStructFields f n
      Dec.pure ({ name := fname, ty := fty, isPub := isPub } :: rest)

/-- `Decoder::read_structdef`. -/
def readStructDef (f : Nat) : Dec StructDef := do
  let name ← readStr
  let generics ← readVecBy readStr
  let count ← readU32
  let fields ← readStructFields f count
  let isPub ← readBool
  Dec.pure { name := name, generics := generics, fields := fields, isPub := isPub }

/-- The counted variant loop of `Decoder::read_enumdef`. -/
def readEnumVariants (f : Nat) : Nat → Dec (List EnumVariantDef)
  | 0 => Dec.pure []
  | n + 1 => do
      let vname ← readStr
      let vfields ← readVecBy (readTy f)
      let rest ← readEnumVariants f n
      Dec.pure ({ name := vname, fields := vfields } :: rest)

/-- `Decoder::read_enumdef`. -/
def readEnumDef (f : Nat) : Dec EnumDef := do
  let name ← readStr
  let generics ← readVecBy readStr
  let count ← readU32
  let variants ← readEnumVariants f count
  let isPub ← readBool
  Dec.pure { name := name, generics := generics, variants := variants, isPub := isPub }

mutual

/-- `Decoder::read_expr`, fuel-indexed. -/
def readExpr : Nat → Dec Expr
  | 0 => decFail .oof
  | f + 1 => do
      let t ← readU8
      if t = TAG_EXPR_INT then do
        let n ← readI64
        Dec.pure (.int n)
      else if t = TAG_EXPR_FLOAT then do
        let bits ← readF64
        Dec.pure (.float bits)
      else if t = TAG_EXPR_BOOL then do
        let b ← readBool
        Dec.pure (.bool b)
      else if t = TAG_EXPR_NIL then Dec.pure .nilE
      else if t = TAG_EXPR_STRING then do
        let s ← readStr
        Dec.pure (.stringLit s)
      else if t = TAG_EXPR_INTERP then do
        let parts ← readVecBy (readStringPart f)
        Dec.pure (.interp parts)
      else if t = TAG_EXPR_VAR then do
        let s ← readStr
        Dec.pure (.var s)
      else if t = TAG_EXPR_TUPLE then do
        let es ← readVecBy (readExpr f)
        Dec.pure (.tuple es)
      else if t = TAG_EXPR_LIST then do
        let es ← readVecBy (readExpr f)
        Dec.pure (.list es)
      else if t = TAG_EXPR_MAPLIT then do
        let count ← readU32
        let pairs ← readPairs (readExpr f) (readExpr f) count
        Dec.pure (.mapLit pairs)
      else if t = TAG_EXPR_BLOCK then do
        let stmts ← readVecBy (readStmt f)
        let tail ← readOptBy (readExpr f)
        Dec.pure (.block stmts tail)
      else if t = TAG_EXPR_BINOP then do
        let l ← readExpr f
        let op ← readBinOp
        let r ← readExpr f
        Dec.pure (.binOp l op r)
      else if t = TAG_EXPR_UNARYOP then do
        let op ← readUnaryOp
        let inner ← readExpr f
        Dec.pure (.unaryOp op inner)
      else if t = TAG_EXPR_CALL then do
        let callee ← readExpr f
        let args ← readVecBy (readExpr f)
        Dec.pure (.call callee args)
      else if t = TAG_EXPR_METHODCALL then do
        let obj ← readExpr f
        let method ← readStr
        let args ← readVecBy (readExpr f)
        Dec.pure (.methodCall obj method args)
      else if t = TAG_EXPR_FIELDACCESS then do
        let obj ← readExpr f
        let field ← readStr
        Dec.pure (.fieldAccess obj field)
      else if t = TAG_EXPR_INDEX then do
        let obj ← readExpr f
        let idx ← readExpr f
        Dec.pure (.index obj idx)
      else if t = TAG_EXPR_IF then do
        let cond ← readExpr f
        let then_ ← readExpr f
        let elifCount ← readU32
        let elifs ← readPairs (readExpr f) (readExpr f) elifCount
        let els ← readOptBy (readExpr f)
        Dec.pure (.ifE cond then_ elifs els)
      else if t = TAG_EXPR_MATCH then do
        let subj ← readExpr f
        let arms ← readVecBy (readMatchArm f)
        Dec.pure (.matchE subj arms)
      else if t = TAG_EXPR_CLOSURE then do
        let count ← readU32
        let params ← readPairs readStr (readOptTy f) count
        let body ← readExpr f
        Dec.pure (.closure params body)
      else if t = TAG_EXPR_STRUCTCREATE then do
        let name ← readStr
        let count ← readU32
        let fields ← readPairs readStr (readExpr f) count
        Dec.pure (.structCreate name fields)
      else if t = TAG_EXPR_ENUMVARIANT then do
        let en ← readStr
        let vn ← readStr
        let args ← readVecBy (readExpr f)
        Dec.pure (.enumVariant en vn args)
      else if t = TAG_EXPR_RANGE then do
        let lo ← readExpr f
        let hi ← readExpr f
        Dec.pure (.range lo hi)
      else if t = TAG_EXPR_SOME then do
        let inner ← readExpr f
        Dec.pure (.someE inner)
      else if t = TAG_EXPR_OK then do
        let inner ← readExpr f
        Dec.pure (.okE inner)
      else if t = TAG_EXPR_ERR then do
        let inner ← readExpr f
        Dec.pure (.errE inner)
      else if t = TAG_EXPR_QUESTION then do
        let inner ← readExpr f
        Dec.pure (.question inner)
      else if t = TAG_EXPR_BOX then do
        let inner ← readExpr f
        Dec.pure (.boxE inner)
      else if t = TAG_EXPR_REF then do
        let inner ← readExpr f
        Dec.pure (.refE inner)
      else if t = TAG_EXPR_ASSIGN then do
        let target ← readExpr f
        let value ← readExpr f
        Dec.pure (.assign target value)
      else if t = TAG_EXPR_AWAIT then do
        let inner ← readExpr f
        Dec.pure (.awaitE inner)
      else decFail (.unknownTag "expr" t)

/-- `Decoder::read_string_part`, fuel-indexed. -/
def readStringPart : Nat → Dec StringPart
  | 0 => decFail .oof
  | f + 1 => do
      let t ← readU8
      if t = TAG_STRPART_LITERAL then do
        let s ← readStr
        Dec.pure (.literal s)
      else if t = TAG_STRPART_INTERP then do
        let e ← readExpr f
        Dec.pure (.interpolated e)
      else decFail (.unknownTag "string part" t)

/-- `Decoder::read_match_arm`, fuel-indexed. -/
def readMatchArm : Nat → Dec MatchArm
  | 0 => decFail .oof
  | f + 1 => do
      let pat ← readPattern (f + 1)
      let guard ← readOptBy (readExpr f)
      let body ← readExpr f
      Dec.pure (.mk pat guard body)

/-- `Decoder::read_param`, fuel-indexed. -/
def readParam : Nat → Dec Param
  | 0 => decFail .oof
  | f + 1 => do
      let name ← readStr
      let ty ← readOptTy (f + 1)
      let default ← readOptBy (readExpr f)
      Dec.pure (.mk name ty default)

/-- `Decoder::read_stmt`, fuel-indexed. -/
def readStmt : Nat → Dec Stmt
  | 0 => decFail .oof
  | f + 1 => do
      let t ← readU8
      if t = TAG_STMT_LET then do
        let name ← readStr
        let ty ← readOptTy (f + 1)
        let val ← readExpr f
        let mutable ← readBool
        Dec.pure (.letS name ty val mutable)
      else if t = TAG_STMT_EXPR then do
        let e ← readExpr f
        Dec.pure (.exprS e)
      else if t = TAG_STMT_RETURN then do
        let e ← readOptBy (readExpr f)
        Dec.pure (.retS e)
      else if t = TAG_STMT_BREAK then Dec.pure .brk
      else if t = TAG_STMT_CONTINUE then Dec.pure .contin
      else if t = TAG_STMT_WHILE then do
        let cond ← readExpr f
        let body ← readVecBy (readStmt f)
        Dec.pure (.whileS cond body)
      else if t = TAG_STMT_FOR then do
        let v ← readStr
        let iter ← readExpr f
        let body ← readVecBy (readStmt f)
        Dec.pure (.forS v iter body)
      else if t = TAG_STMT_FUNDEF then do
        let fd ← readFunDef f
        Dec.pure (.funDefS fd)
      else if t = TAG_STMT_STRUCTDEF then do
        let d ← readStructDef (f + 1)
        Dec.pure (.structDefS d)
      else if t = TAG_STMT_ENUMDEF then do
        let d ← readEnumDef (f + 1)
        Dec.pure (.enumDefS d)
      else if t = TAG_STMT_IMPLBLOCK then do
        let b ← readImplBlock f
        Dec.pure (.implBlockS b)
      else if t = TAG_STMT_MODDEF then do
        let name ← readStr
        let stmts ← readVecBy (readStmt f)
        Dec.pure (.modDef name stmts)
      else if t = TAG_STMT_IMPORT then do
        let path ← readVecBy readStr
        Dec.pure (.importS path)
      else if t = TAG_STMT_TYPEALIAS then do
        let name ← readStr
        let generics ← readVecBy readStr
        let ty ← readTy (f + 1)
        Dec.pure (.typeAlias name generics ty)
      else decFail (.unknownTag "stmt" t)

/-- `Decoder::read_fundef`, fuel-indexed. -/
def readFunDef : Nat → Dec FunDef
  | 0 => decFail .oof
  | f + 1 => do
      let name ← readStr
      let generics ← readVecBy readStr
      let params ← readVecBy (readParam f)
      let returnType ← readOptTy (f + 1)
      let body ← readVecBy (readStmt f)
      let isPub ← readBool
      Dec.pure (.mk name generics params returnType body isPub)

/-- `Decoder::read_implblock`, fuel-indexed. -/
def readImplBlock : Nat → Dec ImplBlock
  | 0 => decFail .oof
  | f + 1 => do
      let target ← readStr
      let generics ← readVecBy readStr
      let methods ← readVecBy (readFunDef f)
      Dec.pure (.mk target generics methods)

end

-- ═══════════════════════════════════════════════════════════
-- bytecode.rs — public API (encode / decode / fnv1a)
-- ═══════════════════════════════════════════════════════════
/-- The hash function `bytecode::fnv1a` exactly as written in the source:
offset basis `0xcbf29ce484222325`, per-byte xor, then `wrapping_mul` by the
constant `0x100000000001b3`. -/
def fnv1a (data : List Nat) : Nat :=
  data.foldl (fun hash byte => ((hash ^^^ byte) * 0x100000000001b3) % 2 ^ 64)
    0xcbf29ce484222325

/-- Modelled from the spec: the published FNV-1a 64-bit hash ("8 bytes
source fingerprint (FNV-1a 64-bit over the original source bytes)",
spec §6.2).  FNV-1a 64 is defined by offset basis `0xcbf29ce484222325`
and prime `0x100000001b3`; the body is otherwise the same xor-multiply
loop.  This is the reference the source's `fnv1a` is compared against. -/
def fnv1aSpec (data : List Nat) : Nat :=
  data.foldl (fun hash byte => ((hash ^^^ byte) * 0x100000001b3) % 2 ^ 64)
    0xcbf29ce484222325

/-- `bytecode::encode`: magic, version, source hash, statement count,
then the serialized statements. -/
def encode (stmts : List Stmt) (source : ZStr) : List Nat :=
  natToLe 4 MAGIC ++ natToLe 2 VERSION ++ natToLe 8 (fnv1a source) ++
    natToLe 4 stmts.length ++ encStmtList stmts

/-- Failures of `bytecode::decode` (`Err(String)` in the source; the
variants record which of the format-checking branches produced the
message). -/
inductive DecodeFail where
  | tooShort
  | badMagic (got : Nat)
  | badVersion (got : Nat)
  | body (e : DecErr)
deriving Repr, DecidableEq

/-- `bytecode::decode`: header checks, then `stmt_count` statements read
from byte 18 onward.  The statement reader gets `body.length + 1` fuel,
enough for any input since every decoding step consumes input. -/
def decode (data : List Nat) : Except DecodeFail (List Stmt × Nat) :=
  if data.length < 18 then .error .tooShort
  else
    let magic := leToNat (data.take 4)
    if magic ≠ MAGIC then .error (.badMagic magic)
    else
      let version := leToNat ((data.drop 4).take 2)
      if version ≠ VERSION then .error (.badVersion version)
      else
        let sourceHash := leToNat ((data.drop 6).take 8)
        let stmtCount := leToNat ((data.drop 14).take 4)
        let tail := data.drop 18
        match readVecItems (readStmt (tail.length + 1)) stmtCount tail with
        | .error e => .error (.body e)
        | .ok (stmts, _) => .ok (stmts, sourceHash)

-- ═══════════════════════════════════════════════════════════
-- bundle.rs — self-embedding executable layout
-- ═══════════════════════════════════════════════════════════
/-- The 8-byte sentinel `b"ZPHPAYLD"`. -/
def SENTINEL : List Nat := [0x5A, 0x50, 0x48, 0x50, 0x41, 0x59, 0x4C, 0x44]

/-- `bundle::find_payload_start`: inspect the final 16 bytes; if the
sentinel is there, compute the payload start offset via `checked_sub`. -/
def findPayloadStart (data : List Nat) : Option Nat :=
  if data.length < 16 then none
  else
    let tail := data.drop (data.length - 16)
    if tail.take 8 ≠ SENTINEL then none
    else
      let payloadLen := leToNat (tail.drop 8)
      if 16 + payloadLen ≤ data.length then some (data.length - (16 + payloadLen))
      else none

/-- `bundle::strip_payload`. -/
def stripPayload (data : List Nat) : List Nat :=
  match findPayloadStart data with
  | some offset => data.take offset
  | none => data

/-- The byte-level content of `bundle::write_executable`: the stripped
host (the running interpreter binary), the payload, the sentinel, and the
payload length as a little-endian `u64`.  File-system handling (temp file
plus rename, `chmod`) is outside the byte-level model. -/
def bundleBytes (host payload : List Nat) : List Nat :=
  stripPayload host ++ payload ++ SENTINEL ++ natToLe 8 payload.length

-- ═══════════════════════════════════════════════════════════
-- Assigned tag sets (the named constants of each tag space)
-- ═══════════════════════════════════════════════════════════
def exprTagList : List Nat :=
  [TAG_EXPR_INT, TAG_EXPR_FLOAT, TAG_EXPR_BOOL, TAG_EXPR_STRING, TAG_EXPR_NIL,
   TAG_EXPR_INTERP, TAG_EXPR_VAR, TAG_EXPR_TUPLE, TAG_EXPR_LIST, TAG_EXPR_MAPLIT,
   TAG_EXPR_BLOCK, TAG_EXPR_BINOP, TAG_EXPR_UNARYOP, TAG_EXPR_CALL,
   TAG_EXPR_METHODCALL, TAG_EXPR_FIELDACCESS, TAG_EXPR_INDEX, TAG_EXPR_IF,
   TAG_EXPR_MATCH, TAG_EXPR_CLOSURE, TAG_EXPR_STRUCTCREATE, TAG_EXPR_ENUMVARIANT,
   TAG_EXPR_RANGE, TAG_EXPR_SOME, TAG_EXPR_OK, TAG_EXPR_ERR, TAG_EXPR_QUESTION,
   TAG_EXPR_BOX, TAG_EXPR_REF, TAG_EXPR_ASSIGN, TAG_EXPR_AWAIT]

def stmtTagList : List Nat :=
  [TAG_STMT_LET, TAG_STMT_EXPR, TAG_STMT_RETURN, TAG_STMT_BREAK, TAG_STMT_CONTINUE,
   TAG_STMT_WHILE, TAG_STMT_FOR, TAG_STMT_FUNDEF, TAG_STMT_STRUCTDEF,
   TAG_STMT_ENUMDEF, TAG_STMT_IMPLBLOCK, TAG_STMT_MODDEF, TAG_STMT_IMPORT,
   TAG_STMT_TYPEALIAS]

def typeTagList : List Nat :=
  [TAG_TYPE_INT, TAG_TYPE_FLOAT, TAG_TYPE_BOOL, TAG_TYPE_STRING, TAG_TYPE_NIL,
   TAG_TYPE_INFERRED, TAG_TYPE_OPTION, TAG_TYPE_RESULT, TAG_TYPE_LIST,
   TAG_TYPE_MAP, TAG_TYPE_TUPLE, TAG_TYPE_NAMED, TAG_TYPE_GENERIC, TAG_TYPE_FUNCTION]

def patternTagList : List Nat :=
  [TAG_PAT_WILDCARD, TAG_PAT_IDENT, TAG_PAT_INT, TAG_PAT_FLOAT, TAG_PAT_BOOL,
   TAG_PAT_STRING, TAG_PAT_NIL, TAG_PAT_TUPLE, TAG_PAT_LIST, TAG_PAT_STRUCT,
   TAG_PAT_ENUMVARIANT, TAG_PAT_SOME, TAG_PAT_OK, TAG_PAT_ERR, TAG_PAT_OR,
   TAG_PAT_RANGE]

def binopTagList : List Nat :=
  [TAG_BINOP_ADD, TAG_BINOP_SUB, TAG_BINOP_MUL, TAG_BINOP_DIV, TAG_BINOP_MOD,
   TAG_BINOP_EQ, TAG_BINOP_NEQ, TAG_BINOP_LT, TAG_BINOP_LTEQ, TAG_BINOP_GT,
   TAG_BINOP_GTEQ, TAG_BINOP_AND, TAG_BINOP_OR, TAG_BINOP_DOTDOT]

def unaryTagList : List Nat := [TAG_UNARY_NEG, TAG_UNARY_NOT]

def strPartTagList : List Nat := [TAG_STRPART_LITERAL, TAG_STRPART_INTERP]

-- ═══════════════════════════════════════════════════════════
-- interpreter.rs — values and the store
-- ═══════════════════════════════════════════════════════════
/-- ASCII string literals as UTF-8 byte lists (all fixed message texts in
the interpreter are ASCII, so the code points are the bytes). -/
def ascii (s : String) : ZStr := s.data.map Char.toNat

/-- `interpreter::ZephyrFn`.  The captured `closure_env` is an address
into the store's environment-node heap (the `Rc<RefCell<EnvInner>>`
handle of the source). -/
inductive ZFn where
  | userDefined (name : Option ZStr) (params : List Param) (body : List Stmt)
      (closureEnv : Nat)
  | native (name : ZStr)

/-- `interpreter::Value`.  The `Rc<RefCell<…>>` containers (`List`, `Map`,
`Struct` fields, `Ref`) are store addresses so that aliasing and interior
mutation are observable; floats are IEEE-754 bit patterns. -/
inductive Value where
  | int (n : Int)
  | float (bits : Nat)
  | bool (b : Bool)
  | str (s : ZStr)
  | nil
  | tuple (elems : List Value)
  | list (addr : Nat)
  | map (addr : Nat)
  | strct (name : ZStr) (addr : Nat)
  | enum (tyName variant : ZStr) (fields : List Value)
  | option (o : Option Value)
  | result (r : Value ⊕ Value)
  | func (fn : ZFn)
  | ref (addr : Nat)

-- ── IEEE-754 helpers (bit-exact tests and conversions; no arithmetic) ─
/-- Exponent field of an f64 bit pattern. -/
def f64Exp (bits : Nat) : Nat := (bits / 2 ^ 52) % 2 ^ 11

/-- Mantissa field of an f64 bit pattern. -/
def f64Mant (bits : Nat) : Nat := bits % 2 ^ 52

/-- `f64::is_nan`. -/
def f64IsNaN (bits : Nat) : Bool := f64Exp bits == 0x7FF && f64Mant bits != 0

/-- The pattern is one of the two IEEE zeros. -/
def f64IsZero (bits : Nat) : Bool := bits % 2 ^ 63 == 0

/-- IEEE-754 `==` on f64 (bit-exact: NaN equals nothing, `-0.0 == 0.0`,
anything else compares by bit pattern). -/
def f64Eq (a b : Nat) : Bool :=
  !f64IsNaN a && !f64IsNaN b && (a == b || (f64IsZero a && f64IsZero b))

/-- Bits of `(m as f64)` for a magnitude `m : Nat` (round to nearest,
ties to even — the semantics of Rust's integer-to-float cast). -/
def natToF64 (m : Nat) : Nat :=
  if m = 0 then 0
  else
    let k := Nat.log2 m
    if k ≤ 52 then (1023 + k) * 2 ^ 52 + (m * 2 ^ (52 - k) - 2 ^ 52)
    else
      let sh := k - 52
      let q := m / 2 ^ sh
      let r := m % 2 ^ sh
      let half := 2 ^ (sh - 1)
      let q2 := if half < r ∨ (r = half ∧ q % 2 = 1) then q + 1 else q
      if q2 = 2 ^ 53 then (1023 + k + 1) * 2 ^ 52
      else (1023 + k) * 2 ^ 52 + (q2 - 2 ^ 52)

/-- Bits of `(n as f64)` for an `i64` value (`*a as f64`). -/
def i64ToF64 (n : Int) : Nat :=
  if n < 0 then 2 ^ 63 + natToF64 (-n).toNat else natToF64 n.toNat

/-- Truncated magnitude of a finite f64 (used by the `as i64` cast). -/
def f64TruncMag (bits : Nat) : Nat :=
  let e := f64Exp bits
  let m := f64Mant bits
  if e = 0 then 0
  else if 1075 ≤ e then (2 ^ 52 + m) * 2 ^ (e - 1075)
  else (2 ^ 52 + m) / 2 ^ (1075 - e)

/-- `f as i64`: Rust's saturating float-to-int cast (NaN goes to 0,
the value is truncated toward zero and clamped to the i64 range). -/
def f64ToI64 (bits : Nat) : Int :=
  if f64IsNaN bits then 0
  else
    let mag : Int := f64TruncMag bits
    let v : Int := if bits / 2 ^ 63 = 1 then -mag else mag
    if v < -(2 ^ 63) then -(2 ^ 63)
    else if (2 ^ 63 - 1 : Int) < v then 2 ^ 63 - 1
    else v

/-- `partial_cmp` on two f64 patterns followed by `unwrap_or(Equal)`, as
written in `compare_op` and the `sort` built-in. -/
def f64Cmp (a b : Nat) : Ordering :=
  if f64IsNaN a || f64IsNaN b then .eq
  else if f64IsZero a && f64IsZero b then .eq
  else
    let sa := a / 2 ^ 63
    let sb := b / 2 ^ 63
    if sa ≠ sb then (if sa = 1 then .lt else .gt)
    else if sa = 0 then compare a b
    else compare b a

/-- Sign-bit flip: the exact semantics of f64 negation. -/
def f64Neg (bits : Nat) : Nat :=
  if bits < 2 ^ 63 then bits + 2 ^ 63 else bits - 2 ^ 63

/-- IEEE-754 binary arithmetic (`+ - * / %` on floats) is floating-point
behaviour that this shallow embedding does not model; no claim depends on
a computed float result.  The placeholder keeps `numeric_op` total and
returns the `+0.0` pattern. -/
def f64Arith (_op : BinOp) (_a _b : Nat) : Nat := 0

-- ── `impl PartialEq for Value` ────────────────────────────────────────
mutual

/-- `impl PartialEq for Value` — the `==` of the language.  The match arms
appear in source order; every pair involving `List`, `Map`, `Struct`,
`Enum`, `Function` or `Ref` falls through to the `_ => false` arm. -/
def valueEq : Value → Value → Bool
  | .int a, .int b => a == b
  | .float a, .float b => f64Eq a b
  | .int a, .float b => f64Eq (i64ToF64 a) b
  | .float a, .int b => f64Eq a (i64ToF64 b)
  | .bool a, .bool b => a == b
  | .str a, .str b => a == b
  | .nil, .nil => true
  | .option none, .nil => true
  | .nil, .option none => true
  | .option a, .option b => valueEqOpt a b
  | .tuple a, .tuple b => valueEqList a b
  | _, _ => false

/-- `Option<Box<Value>> == Option<Box<Value>>`. -/
def valueEqOpt : Option Value → Option Value → Bool
  | none, none => true
  | some a, some b => valueEq a b
  | _, _ => false

/-- `Vec<Value> == Vec<Value>` (elementwise, equal lengths). -/
def valueEqList : List Value → List Value → Bool
  | [], [] => true
  | a :: as_, b :: bs => valueEq a b && valueEqList as_ bs
  | _, _ => false

end

/-- `[T]::contains` as used by the list `contains` built-in:
`iter().any(|x| x == item)` under the language's `==`. -/
def listContains (xs : List Value) (item : Value) : Bool :=
  xs.any (fun x => valueEq x item)

/-- `interpreter::is_truthy` (arms in source order; `Float` and the
containers fall through to the catch-all `true`). -/
def isTruthy : Value → Bool
  | .bool b => b
  | .nil => false
  | .option none => false
  | .int 0 => false
  | .str s => !s.isEmpty
  | _ => true

/-- `interpreter::value_type_name`. -/
def valueTypeName : Value → ZStr
  | .int _ => ascii "Int"
  | .float _ => ascii "Float"
  | .bool _ => ascii "Bool"
  | .str _ => ascii "String"
  | .nil => ascii "Nil"
  | .list _ => ascii "List"
  | .map _ => ascii "Map"
  | .tuple _ => ascii "Tuple"
  | .strct n _ => n
  | .enum n _ _ => n
  | .option _ => ascii "Option"
  | .result _ => ascii "Result"
  | .func _ => ascii "Function"
  | .ref _ => ascii "Ref"

-- ── Control-flow signals and the evaluation monad ─────────────────────
/-- `interpreter::Signal`. -/
inductive Signal where
  | ret (v : Value)
  | brk
  | contin
  | error (msg : ZStr)
  | propagateErr (v : Value)

/-- Outcome of one evaluation step.  `ok`/`sig` mirror the source's
`Result<Value, Signal>`; `pnc` is an unwinding Rust panic (caught
nowhere); `oof` is the fuel-exhaustion modelling artifact. -/
inductive Res (α : Type) where
  | ok (v : α)
  | sig (s : Signal)
  | pnc (msg : String)
  | oof

/-- `interpreter::EnvInner`: one environment node — a name-to-cell map
(`HashMap<String, Rc<RefCell<Value>>>`, modelled as an association list)
and an optional parent. -/
structure EnvNode where
  vars : List (ZStr × Nat)
  parent : Option Nat

/-- The mutable heap of the interpreter: binding cells, environment
nodes, the four kinds of shared containers, and the `Interpreter` struct's
definition tables.  `global` is the address of the global environment. -/
structure St where
  cells : List Value
  envs : List EnvNode
  listsH : List (List Value)
  mapsH : List (List (ZStr × Value))
  structsH : List (List (ZStr × Value))
  refsH : List Value
  structDefs : List (ZStr × StructDef)
  enumDefs : List (ZStr × EnumDef)
  implMethods : List (ZStr × List (ZStr × ZFn))
  modules : List (ZStr × Nat)
  global : Nat

/-- The state-plus-signal evaluation monad: the `&mut self` / `Rc`
mutations of the source become explicit state threading, and `?` becomes
monadic bind. -/
def M (α : Type) : Type := St → St × Res α

def M.pure (a : α) : M α := fun st => (st, .ok a)

def M.bind (m : M α) (f : α → M β) : M β := fun st =>
  match m st with
  | (st', .ok a) => f a st'
  | (st', .sig s) => (st', .sig s)
  | (st', .pnc msg) => (st', .pnc msg)
  | (st', .oof) => (st', .oof)

instance : Monad M where
  pure := M.pure
  bind := M.bind

/-- Raise a control signal. -/
def mSig (s : Signal) : M α := fun st => (st, .sig s)

/-- Raise `Signal::Error` (the `Err(Signal::Error(..))` constructions). -/
def mErr (msg : ZStr) : M α := mSig (.error msg)

/-- A Rust panic: unwinds past every handler. -/
def mPnc (msg : String) : M α := fun st => (st, .pnc msg)

/-- Fuel exhaustion (modelling artifact for potentially diverging code). -/
def mOof : M α := fun st => (st, .oof)

/-- Run a computation and reify its `Result` outcome (the
`match self.exec_block(..)` signal-handling sites).  Panics and fuel
exhaustion pass through: Rust code cannot observe them as values. -/
def mTry (m : M α) : M (Res α) := fun st =>
  match m st with
  | (st', .pnc msg) => (st', .pnc msg)
  | (st', .oof) => (st', .oof)
  | (st', r) => (st', .ok r)

-- ── Association lists standing in for `HashMap` ───────────────────────
/-- `HashMap::get`. -/
def alGet (al : List (ZStr × α)) (k : ZStr) : Option α :=
  match al with
  | [] => none
  | (k2, v) :: rest => if k2 = k then some v else alGet rest k

/-- `HashMap::insert` (overwrite an existing key, else append). -/
def alPut (al : List (ZStr × α)) (k : ZStr) (v : α) : List (ZStr × α) :=
  match al with
  | [] => [(k, v)]
  | (k2, v2) :: rest => if k2 = k then (k, v) :: rest else (k2, v2) :: alPut rest k v

/-- `HashMap::remove`, returning the remaining map and whether the key
was present. -/
def alRemove (al : List (ZStr × α)) (k : ZStr) : List (ZStr × α) × Bool :=
  match al with
  | [] => ([], false)
  | (k2, v2) :: rest =>
      if k2 = k then (rest, true)
      else
        let (rest2, found) := alRemove rest k
        ((k2, v2) :: rest2, found)

-- ── Store primitives ──────────────────────────────────────────────────
/-- Allocate a fresh binding cell (`Rc::new(RefCell::new(val))`). -/
def allocCell (v : Value) : M Nat := fun st =>
  ({ st with cells := st.cells ++ [v] }, .ok st.cells.length)

/-- Read a binding cell.  A dangling address cannot arise in an execution
from `initState`; the total model maps it to a panic. -/
def readCell (i : Nat) : M Value := fun st =>
  match st.cells[i]? with
  | some v => (st, .ok v)
  | none => (st, .pnc "dangling cell address")

/-- Overwrite a binding cell (`*cell.borrow_mut() = val`). -/
def writeCell (i : Nat) (v : Value) : M Unit := fun st =>
  ({ st with cells := st.cells.set i v }, .ok ())

/-- `Env::new` / `Env::child`: allocate an environment node. -/
def allocEnv (parent : Option Nat) : M Nat := fun st =>
  ({ st with envs := st.envs ++ [⟨[], parent⟩] }, .ok st.envs.length)

/-- Read an environment node. -/
def readEnv (i : Nat) : M EnvNode := fun st =>
  match st.envs[i]? with
  | some node => (st, .ok node)
  | none => (st, .pnc "dangling environment address")

/-- Replace an environment node. -/
def writeEnv (i : Nat) (node : EnvNode) : M Unit := fun st =>
  ({ st with envs := st.envs.set i node }, .ok ())

/-- Allocate a shared list container. -/
def allocListH (xs : List Value) : M Nat := fun st =>
  ({ st with listsH := st.listsH ++ [xs] }, .ok st.listsH.length)

/-- Borrow a shared list container. -/
def readListH (i : Nat) : M (List Value) := fun st =>
  match st.listsH[i]? with
  | some xs => (st, .ok xs)
  | none => (st, .pnc "dangling list address")

/-- Mutate a shared list container. -/
def writeListH (i : Nat) (xs : List Value) : M Unit := fun st =>
  ({ st with listsH := st.listsH.set i xs }, .ok ())

/-- Allocate a shared map container. -/
def allocMapH (m : List (ZStr × Value)) : M Nat := fun st =>
  ({ st with mapsH := st.mapsH ++ [m] }, .ok st.mapsH.length)

/-- Borrow a shared map container. -/
def readMapH (i : Nat) : M (List (ZStr × Value)) := fun st =>
  match st.mapsH[i]? with
  | some m => (st, .ok m)
  | none => (st, .pnc "dangling map address")

/-- Mutate a shared map container. -/
def writeMapH (i : Nat) (m : List (ZStr × Value)) : M Unit := fun st =>
  ({ st with mapsH := st.mapsH.set i m }, .ok ())

/-- Allocate a shared struct-field container. -/
def allocStructH (m : List (ZStr × Value)) : M Nat := fun st =>
  ({ st with structsH := st.structsH ++ [m] }, .ok st.structsH.length)

/-- Borrow a shared struct-field container. -/
def readStructH (i : Nat) : M (List (ZStr × Value)) := fun st =>
  match st.structsH[i]? with
  | some m => (st, .ok m)
  | none => (st, .pnc "dangling struct address")

/-- Mutate a shared struct-field container. -/
def writeStructH (i : Nat) (m : List (ZStr × Value)) : M Unit := fun st =>
  ({ st with structsH := st.structsH.set i m }, .ok ())

/-- Allocate a `Ref` cell. -/
def allocRefH (v : Value) : M Nat := fun st =>
  ({ st with refsH := st.refsH ++ [v] }, .ok st.refsH.length)

/-- Borrow a `Ref` cell. -/
def readRefH (i : Nat) : M Value := fun st =>
  match st.refsH[i]? with
  | some v => (st, .ok v)
  | none => (st, .pnc "dangling ref address")

-- ── Env operations (`Env::define` / `Env::set` / `Env::get`) ──────────
/-- `Env::define`: always create a fresh cell and bind the name to it in
this node (a `HashMap::insert` of a brand-new `Rc` cell). -/
def envDefine (envAddr : Nat) (name : ZStr) (v : Value) : M Unit := do
  let c ← allocCell v
  let node ← readEnv envAddr
  writeEnv envAddr { node with vars := alPut node.vars name c }

/-- `Env::set`: walk toward the root; mutate the first cell bound to the
name and report `true`, else report `false`.  The fuel bounds the parent
chain (acyclic in every reachable state). -/
def envSet (fuel : Nat) (envAddr : Nat) (name : ZStr) (v : Value) : M Bool :=
  match fuel with
  | 0 => mOof
  | f + 1 => do
      let node ← readEnv envAddr
      match alGet node.vars name with
      | some cell => do
          writeCell cell v
          M.pure true
      | none =>
          match node.parent with
          | some p => envSet f p name v
          | none => M.pure false

/-- `Env::get`: walk toward the root; first hit wins. -/
def envGet (fuel : Nat) (envAddr : Nat) (name : ZStr) : M (Option Value) :=
  match fuel with
  | 0 => mOof
  | f + 1 => do
      let node ← readEnv envAddr
      match alGet node.vars name with
      | some cell => do
          let v ← readCell cell
          M.pure (some v)
      | none =>
          match node.parent with
          | some p => envGet f p name
          | none => M.pure none

-- ── Display (`impl fmt::Display for Value`) ───────────────────────────
/-- Decimal digits of a natural number. -/
def natDec (n : Nat) : ZStr :=
  if h : n < 10 then [48 + n]
  else natDec (n / 10) ++ [48 + n % 10]
termination_by n
decreasing_by exact Nat.div_lt_self (by omega) (by omega)

/-- Decimal rendering of an `i64` (`format!("{}", n)`). -/
def intDec (n : Int) : ZStr :=
  if n < 0 then 45 :: natDec (-n).toNat else natDec n.toNat

/-- Rust renders floats with `{:.1}` / `{}` (shortest round-trip);
float formatting is floating-point behaviour this embedding does not
model, and no claim depends on a formatted float.  The placeholder keeps
`Display` total. -/
def fmtFloat (_bits : Nat) : ZStr := ascii "<float>"

/-- `str::join`-style interleaving. -/
def zstrJoin (sep : ZStr) (parts : List ZStr) : ZStr := List.intercalate sep parts

mutual

/-- `impl fmt::Display for Value` (`format!("{}", v)`), fuel-indexed
because cyclic containers make the source recursion unbounded. -/
def displayV : Nat → Value → M ZStr
  | 0, _ => mOof
  | _ + 1, .int n => M.pure (intDec n)
  | _ + 1, .float bits => M.pure (fmtFloat bits)
  | _ + 1, .bool b => M.pure (ascii (if b then "true" else "false"))
  | _ + 1, .str s => M.pure s
  | _ + 1, .nil => M.pure (ascii "nil")
  | f + 1, .tuple elems => do
      let parts ← displayItems f elems
      M.pure (ascii "(" ++ zstrJoin (ascii ", ") parts ++ ascii ")")
  | f + 1, .list addr => do
      let elems ← readListH addr
      let parts ← displayItems f elems
      M.pure (ascii "[" ++ zstrJoin (ascii ", ") parts ++ ascii "]")
  | f + 1, .map addr => do
      let entries ← readMapH addr
      let parts ← displayPairs f entries
      M.pure (ascii "\x7b" ++ zstrJoin (ascii ", ") parts ++ ascii "\x7d")
  | f + 1, .strct name addr => do
      let fields ← readStructH addr
      let parts ← displayPairs f fields
      M.pure (name ++ ascii " \x7b" ++ zstrJoin (ascii ", ") parts ++ ascii "\x7d")
  | f + 1, .enum _ variant fields =>
      if fields.isEmpty then M.pure variant
      else do
        let parts ← displayItems f fields
        M.pure (variant ++ ascii "(" ++ zstrJoin (ascii ", ") parts ++ ascii ")")
  | f + 1, .option (some v) => do
      let s ← displayV f v
      M.pure (ascii "Some(" ++ s ++ ascii ")")
  | _ + 1, .option none => M.pure (ascii "nil")
  | f + 1, .result (.inl v) => do
      let s ← displayV f v
      M.pure (ascii "Ok(" ++ s ++ ascii ")")
  | f + 1, .result (.inr e) => do
      let s ← displayV f e
      M.pure (ascii "Err(" ++ s ++ ascii ")")
  | _ + 1, .func (.userDefined name _ _ _) =>
      M.pure (ascii "<fun " ++ name.getD (ascii "<closure>") ++ ascii ">")
  | _ + 1, .func (.native n) => M.pure (ascii "<native " ++ n ++ ascii ">")
  | f + 1, .ref addr => do
      let v ← readRefH addr
      let s ← displayV f v
      M.pure (ascii "ref(" ++ s ++ ascii ")")

/-- Display of a sequence of values. -/
def displayItems : Nat → List Value → M (List ZStr)
  | 0, _ => mOof
  | _ + 1, [] => M.pure []
  | f + 1, v :: vs => do
      let s ← displayV f v
      let rest ← displayItems f vs
      M.pure (s :: rest)

/-- Display of `k: v` entries of maps and structs. -/
def displayPairs : Nat → List (ZStr × Value) → M (List ZStr)
  | 0, _ => mOof
  | _ + 1, [] => M.pure []
  | f + 1, (k, v) :: rest => do
      let s ← displayV f v
      let tailParts ← displayPairs f rest
      M.pure ((k ++ ascii ": " ++ s) :: tailParts)

end

-- ── Pattern matcher (`interpreter::match_pattern`) ────────────────────
mutual

/-- `interpreter::match_pattern`: destructure `val` against `pat`,
binding identifiers into the environment node `envAddr` as it goes. -/
def matchPattern (pat : Pattern) (val : Value) (envAddr : Nat) : M Bool :=
  match pat with
  | .wildcard => M.pure true
  | .nilP =>
      M.pure (match val with
        | .nil => true
        | .option none => true
        | _ => false)
  | .boolP b => M.pure (valueEq val (.bool b))
  | .intP n => M.pure (valueEq val (.int n))
  | .floatP bits => M.pure (valueEq val (.float bits))
  | .stringLit s => M.pure (valueEq val (.str s))
  | .ident name => do
      envDefine envAddr name val
      M.pure true
  | .tupleP pats =>
      match val with
      | .tuple elems =>
          if elems.length ≠ pats.length then M.pure false
          else matchPatternList pats elems envAddr
      | _ => M.pure false
  | .listP pats =>
      match val with
      | .list addr => do
          let elems ← readListH addr
          if elems.length ≠ pats.length then M.pure false
          else matchPatternList pats elems envAddr
      | _ => M.pure false
  | .enumVariant en vn fieldPats =>
      match val with
      | .enum en2 vn2 fields =>
          if en2 ≠ en ∨ vn2 ≠ vn then M.pure false
          else if fields.length ≠ fieldPats.length then M.pure false
          else matchPatternList fieldPats fields envAddr
      | _ => M.pure false
  | .someP inner =>
      match val with
      | .option (some v) => matchPattern inner v envAddr
      | _ => M.pure false
  | .okP inner =>
      match val with
      | .result (.inl v) => matchPattern inner v envAddr
      | _ => M.pure false
  | .errP inner =>
      match val with
      | .result (.inr e) => matchPattern inner e envAddr
      | _ => M.pure false
  | .orP a b => do
      let r ← matchPattern a val envAddr
      if r then M.pure true else matchPattern b val envAddr
  | .rangeP lo hi =>
      match lo, hi with
      | .intP lo2, .intP hi2 =>
          match val with
          | .int n => M.pure (decide (lo2 ≤ n ∧ n < hi2))
          | _ => M.pure false
      | _, _ => M.pure false
  | .structP _ _ => M.pure false

/-- The zipped element loop of the tuple/list/enum-variant cases. -/
def matchPatternList (pats : List Pattern) (vals : List Value) (envAddr : Nat) :
    M Bool :=
  match pats, vals with
  | [], _ => M.pure true
  | _ :: _, [] => M.pure true
  | p :: ps, v :: vs => do
      let r ← matchPattern p v envAddr
      if r then matchPatternList ps vs envAddr else M.pure false

end

-- ── Numeric helpers and binary operations ─────────────────────────────
/-- Wrap to the i64 range (release-mode wrapping semantics of `+ - *`). -/
def wrap64 (n : Int) : Int := ((n + 2 ^ 63) % 2 ^ 64) - 2 ^ 63

def i64AddW (a b : Int) : Except String Int := .ok (wrap64 (a + b))

def i64SubW (a b : Int) : Except String Int := .ok (wrap64 (a - b))

def i64MulW (a b : Int) : Except String Int := .ok (wrap64 (a * b))

/-- `a / b` on i64: truncating division; panics on a zero divisor and on
`i64::MIN / -1` (both checked in release builds too). -/
def i64Div (a b : Int) : Except String Int :=
  if b = 0 then .error "attempt to divide by zero"
  else if a = -(2 ^ 63) ∧ b = -1 then .error "attempt to divide with overflow"
  else .ok (Int.tdiv a b)

/-- `a % b` on i64: remainder with the dividend's sign; panics on a zero
divisor and on `i64::MIN % -1`. -/
def i64Rem (a b : Int) : Except String Int :=
  if b = 0 then .error "attempt to calculate the remainder with a divisor of zero"
  else if a = -(2 ^ 63) ∧ b = -1 then
    .error "attempt to calculate the remainder with overflow"
  else .ok (Int.tmod a b)

/-- Byte-lexicographic comparison (Rust `String: Ord`). -/
def zstrCmp : ZStr → ZStr → Ordering
  | [], [] => .eq
  | [], _ :: _ => .lt
  | _ :: _, [] => .gt
  | a :: as_, b :: bs =>
      match compare a b with
      | .eq => zstrCmp as_ bs
      | o => o

/-- `interpreter::numeric_op`.  The integer operation is fallible (its
panics become `Res.pnc`), the float operation is the unmodelled
`f64Arith`. -/
def numericOp (fuel : Nat) (l r : Value) (intOp : Int → Int → Except String Int)
    (floatOp : Nat → Nat → Nat) : M Value :=
  match l, r with
  | .int a, .int b =>
      match intOp a b with
      | .ok n => M.pure (.int n)
      | .error msg => mPnc msg
  | .float a, .float b => M.pure (.float (floatOp a b))
  | .int a, .float b => M.pure (.float (floatOp (i64ToF64 a) b))
  | .float a, .int b => M.pure (.float (floatOp a (i64ToF64 b)))
  | _, _ => do
      let sl ← displayV fuel l
      let sr ← displayV fuel r
      mErr (ascii "Type error in numeric operation: " ++ sl ++ ascii " and " ++ sr)

/-- `interpreter::compare_op`. -/
def compareOp (fuel : Nat) (l r : Value) (pred : Ordering → Bool) : M Value :=
  match l, r with
  | .int a, .int b => M.pure (.bool (pred (compare a b)))
  | .float a, .float b => M.pure (.bool (pred (f64Cmp a b)))
  | .int a, .float b => M.pure (.bool (pred (f64Cmp (i64ToF64 a) b)))
  | .float a, .int b => M.pure (.bool (pred (f64Cmp a (i64ToF64 b))))
  | .str a, .str b => M.pure (.bool (pred (zstrCmp a b)))
  | _, _ => do
      let sl ← displayV fuel l
      let sr ← displayV fuel r
      mErr (ascii "Cannot compare " ++ sl ++ ascii " and " ++ sr)

/-- `str::repeat`. -/
def repeatZStr (s : ZStr) (n : Nat) : ZStr := (List.replicate n s).flatten

/-- `interpreter::eval_binop`.  `l` and `r` are already evaluated; the
only state effects are fresh-list allocation (list `+`) and the display
coercions inside messages and string concatenation. -/
def evalBinop (fuel : Nat) (l : Value) (op : BinOp) (r : Value) : M Value :=
  match op with
  | .add =>
      match l, r with
      | .int a, .int b => M.pure (.int (wrap64 (a + b)))
      | .float a, .float b => M.pure (.float (f64Arith .add a b))
      | .int a, .float b => M.pure (.float (f64Arith .add (i64ToF64 a) b))
      | .float a, .int b => M.pure (.float (f64Arith .add a (i64ToF64 b)))
      | .str a, .str b => M.pure (.str (a ++ b))
      | .str a, b => do
          let sb ← displayV fuel b
          M.pure (.str (a ++ sb))
      | .list a, .list b => do
          let xs ← readListH a
          let ys ← readListH b
          let addr ← allocListH (xs ++ ys)
          M.pure (.list addr)
      | _, _ => do
          let sl ← displayV fuel l
          let sr ← displayV fuel r
          mErr (ascii "Cannot add " ++ sl ++ ascii " and " ++ sr)
  | .sub => numericOp fuel l r i64SubW (f64Arith .sub)
  | .mul =>
      match l, r with
      | .str s, .int n =>
          -- `s.repeat(*n as usize)`: a negative count wraps to a huge
          -- usize, which makes `repeat` panic on capacity overflow.
          let c := ((n % (2 ^ 64 : Int)).toNat)
          if s.length * c < 2 ^ 63 then M.pure (.str (repeatZStr s c))
          else mPnc "capacity overflow"
      | _, _ => numericOp fuel l r i64MulW (f64Arith .mul)
  | .div =>
      match l, r with
      | _, .int 0 => mErr (ascii "Division by zero")
      | _, .float fb =>
          if f64IsZero fb then mErr (ascii "Division by zero")
          else numericOp fuel l r i64Div (f64Arith .div)
      | _, _ => numericOp fuel l r i64Div (f64Arith .div)
  | .mod => numericOp fuel l r i64Rem (f64Arith .mod)
  | .eq => M.pure (.bool (valueEq l r))
  | .notEq => M.pure (.bool (!valueEq l r))
  | .lt => compareOp fuel l r (fun o => o == .lt)
  | .ltEq => compareOp fuel l r (fun o => o != .gt)
  | .gt => compareOp fuel l r (fun o => o == .gt)
  | .gtEq => compareOp fuel l r (fun o => o != .lt)
  | .and => M.pure (.bool (isTruthy l && isTruthy r))
  | .or => if isTruthy l then M.pure l else M.pure r
  | .dotDot => mErr (ascii "Range not valid in this context")

/-- `interpreter::require_int`. -/
def requireInt (fuel : Nat) (v : Value) : M Int :=
  match v with
  | .int n => M.pure n
  | .float bits => M.pure (f64ToI64 bits)
  | other => do
      let s ← displayV fuel other
      mErr (ascii "Expected integer, got " ++ s)

-- ── Small helpers for the evaluator ───────────────────────────────────
def FunDef.name : FunDef → ZStr
  | .mk n _ _ _ _ _ => n

def FunDef.params : FunDef → List Param
  | .mk _ _ p _ _ _ => p

def FunDef.body : FunDef → List Stmt
  | .mk _ _ _ _ b _ => b

def ImplBlock.target : ImplBlock → ZStr
  | .mk t _ _ => t

def ImplBlock.methods : ImplBlock → List FunDef
  | .mk _ _ m => m

/-- `str::chars` on the UTF-8 bytes, each char rendered back as its
bytes (the semantics of string iteration and indexing; exact on the valid
UTF-8 every Rust `String` holds). -/
def utf8Chars : ZStr → List ZStr
  | [] => []
  | b :: rest =>
      if b < 0x80 then [b] :: utf8Chars rest
      else if b < 0xE0 then (b :: rest.take 1) :: utf8Chars (rest.drop 1)
      else if b < 0xF0 then (b :: rest.take 2) :: utf8Chars (rest.drop 2)
      else (b :: rest.take 3) :: utf8Chars (rest.drop 3)
termination_by s => s.length
decreasing_by all_goals (simp [List.length_drop]; try omega)

/-- `field.parse::<usize>()` (digit strings only; overflow not modelled). -/
def zstrParseNat (s : ZStr) : Option Nat :=
  if s ≠ [] ∧ s.all (fun b => 48 ≤ b ∧ b ≤ 57) then
    some (s.foldl (fun acc b => acc * 10 + (b - 48)) 0)
  else none

/-- `(s..e).map(Value::Int).collect()`. -/
def intRangeList (s e : Int) : List Value :=
  (List.range (e - s).toNat).map (fun i => .int (s + i))

/-- The `i as usize` cast of index expressions (usize is 64-bit). -/
def i64AsUsize (i : Int) : Nat := (i % (2 ^ 64 : Int)).toNat

/-- Read the `Interpreter::global` environment address. -/
def getGlobal : M Nat := fun st => (st, .ok st.global)

/-- `self.struct_defs.insert(name, def)`. -/
def putStructDef (d : StructDef) : M Unit := fun st =>
  ({ st with structDefs := alPut st.structDefs d.name d }, .ok ())

/-- `self.enum_defs.insert(name, def)`. -/
def putEnumDef (d : EnumDef) : M Unit := fun st =>
  ({ st with enumDefs := alPut st.enumDefs d.name d }, .ok ())

/-- `self.modules.insert(name, env)`. -/
def putModule (name : ZStr) (envAddr : Nat) : M Unit := fun st =>
  ({ st with modules := alPut st.modules name envAddr }, .ok ())

/-- `self.impl_methods.get(&type_name).cloned()`. -/
def getImplMethods (tn : ZStr) : M (Option (List (ZStr × ZFn))) := fun st =>
  (st, .ok (alGet st.implMethods tn))

/-- The variant-constructor registration loop of `Stmt::EnumDef`: a
zero-arity variant is pre-bound as `Enum::Variant`. -/
def defineEnumVariants (envAddr : Nat) (enumName : ZStr) :
    List EnumVariantDef → M Unit
  | [] => M.pure ()
  | v :: rest => do
      if v.fields.length = 0 then
        envDefine envAddr (enumName ++ ascii "::" ++ v.name)
          (.enum enumName v.name [])
      else M.pure ()
      defineEnumVariants envAddr enumName rest

/-- The method-insertion loop of `Stmt::ImplBlock` (each method captures
the environment where the `impl` executes). -/
def registerImplMethods (target : ZStr) (envAddr : Nat) : List FunDef → M Unit
  | [] => M.pure ()
  | m :: rest => do
      (fun st =>
        let tbl := (alGet st.implMethods target).getD []
        let tbl2 := alPut tbl m.name
          (ZFn.userDefined (some m.name) m.params m.body envAddr)
        ({ st with implMethods := alPut st.implMethods target tbl2 }, Res.ok ()))
      registerImplMethods target envAddr rest

/-- `stdlib::call_native`.  The native table (I/O, math, HTTP, JSON,
process, filesystem) is the system boundary (spec §1, §4.4) and is not
part of the modelled core; the model registers no natives, so only the
dispatcher's catch-all lookup failure is represented. -/
def callNative (name : ZStr) (_args : List Value) : M Value :=
  mErr (ascii "Unknown native function '" ++ name ++ ascii "'")

/-- `stdlib::call_builtin_method`, restricted to the pure list methods
the verified properties touch (`push`, `pop`, `len`, `is_empty`, `first`,
`last`, `contains`); every other built-in method is a leaf contract
(spec §4.4) and maps to the dispatcher's catch-all error. -/
def callBuiltinMethod (obj : Value) (method : ZStr) (args : List Value) : M Value :=
  match obj with
  | .list addr =>
      if method = ascii "push" then
        match args with
        | [] => mErr (ascii "push() requires 1 argument")
        | item :: _ => do
            let xs ← readListH addr
            writeListH addr (xs ++ [item])
            M.pure .nil
      else if method = ascii "pop" then do
        let xs ← readListH addr
        match xs.getLast? with
        | some v => do
            writeListH addr xs.dropLast
            M.pure v
        | none => M.pure .nil
      else if method = ascii "len" then do
        let xs ← readListH addr
        M.pure (.int xs.length)
      else if method = ascii "is_empty" then do
        let xs ← readListH addr
        M.pure (.bool xs.isEmpty)
      else if method = ascii "first" then do
        let xs ← readListH addr
        match xs.head? with
        | some v => M.pure (.option (some v))
        | none => M.pure (.option none)
      else if method = ascii "last" then do
        let xs ← readListH addr
        match xs.getLast? with
        | some v => M.pure (.option (some v))
        | none => M.pure (.option none)
      else if method = ascii "contains" then
        match args with
        | [] => mErr (ascii "contains() requires 1 argument")
        | item :: _ => do
            let xs ← readListH addr
            M.pure (.bool (listContains xs item))
      else
        mErr (ascii "No method '" ++ method ++ ascii "' on type " ++ valueTypeName obj)
  | _ =>
      mErr (ascii "No method '" ++ method ++ ascii "' on type " ++ valueTypeName obj)

/-- `Interpreter::value_to_iter`. -/
def valueToIter (fuel : Nat) (v : Value) : M (List Value) :=
  match v with
  | .list addr => readListH addr
  | .str s => M.pure ((utf8Chars s).map (fun c => Value.str c))
  | other => do
      let d ← displayV fuel other
      mErr (ascii "'" ++ d ++ ascii "' is not iterable")

-- ═══════════════════════════════════════════════════════════
-- interpreter.rs — the evaluator
-- ═══════════════════════════════════════════════════════════
mutual

/-- `Interpreter::eval_expr`, fuel-indexed (every recursive step consumes
one unit).  Error messages that use `{:?}` (Debug) in the source are
approximated with the Display form. -/
def evalExpr : Nat → Expr → Nat → M Value
  | 0, _, _ => mOof
  | f + 1, e, env =>
    match e with
    | .int n => M.pure (.int n)
    | .float bits => M.pure (.float bits)
    | .bool b => M.pure (.bool b)
    | .nilE => M.pure .nil
    | .stringLit s => M.pure (.str s)
    | .interp parts => do
        let s ← evalStringParts f parts env
        M.pure (.str s)
    | .var name => do
        let v ← envGet f env name
        match v with
        | some v2 => M.pure v2
        | none => do
            let g ← getGlobal
            let v3 ← envGet f g name
            match v3 with
            | some v4 => M.pure v4
            | none => mErr (ascii "Undefined variable '" ++ name ++ ascii "'")
    | .tuple elems => do
        let vs ← evalExprList f elems env
        M.pure (.tuple vs)
    | .list elems => do
        let vs ← evalExprList f elems env
        let addr ← allocListH vs
        M.pure (.list addr)
    | .mapLit pairs => do
        let m ← evalMapPairs f pairs env []
        let addr ← allocMapH m
        M.pure (.map addr)
    | .block stmts tail => do
        let blockEnv ← allocEnv (some env)
        execStmtsUnit f stmts blockEnv
        match tail with
        | some te => evalExpr f te blockEnv
        | none => M.pure .nil
    | .binOp l op r => do
        let lv ← evalExpr f l env
        let rv ← evalExpr f r env
        evalBinop f lv op rv
    | .unaryOp op inner => do
        let v ← evalExpr f inner env
        match op with
        | .neg =>
            match v with
            | .int n => M.pure (.int (wrap64 (-n)))
            | .float bits => M.pure (.float (f64Neg bits))
            | other => do
                let s ← displayV f other
                mErr (ascii "Cannot negate " ++ s)
        | .not => M.pure (.bool (!isTruthy v))
    | .assign target value => do
        let v ← evalExpr f value env
        match target with
        | .var name => do
            let okSet ← envSet f env name v
            if okSet then M.pure .nil
            else do
              envDefine env name v
              M.pure .nil
        | .index objExpr idxExpr => do
            let idx ← evalExpr f idxExpr env
            let obj ← evalExpr f objExpr env
            match obj with
            | .list a => do
                let i ← requireInt f idx
                let iu := i64AsUsize i
                let xs ← readListH a
                if iu < xs.length then do
                  writeListH a (xs.set iu v)
                  M.pure .nil
                else mErr (ascii "Index " ++ natDec iu ++ ascii " out of bounds")
            | .map a => do
                let key ← displayV f idx
                let m ← readMapH a
                writeMapH a (alPut m key v)
                M.pure .nil
            | _ => mErr (ascii "Cannot index-assign this value")
        | .fieldAccess objExpr field => do
            let obj ← evalExpr f objExpr env
            match obj with
            | .strct _ a => do
                let m ← readStructH a
                writeStructH a (alPut m field v)
                M.pure .nil
            | _ => mErr (ascii "Cannot assign field on non-struct")
        | _ => mErr (ascii "Invalid assignment target")
    | .call calleeExpr args => do
        let callee ← evalExpr f calleeExpr env
        let argVals ← evalExprList f args env
        callValue f callee argVals env
    | .methodCall objExpr method args => do
        let obj ← evalExpr f objExpr env
        let argVals ← evalExprList f args env
        callMethod f obj method argVals env
    | .fieldAccess objExpr field => do
        let obj ← evalExpr f objExpr env
        match obj with
        | .strct _ a => do
            let m ← readStructH a
            match alGet m field with
            | some v => M.pure v
            | none => mErr (ascii "No field '" ++ field ++ ascii "'")
        | .tuple elems =>
            (match zstrParseNat field with
            | some idx =>
                match elems[idx]? with
                | some v => M.pure v
                | none =>
                    mErr (ascii "Tuple index " ++ natDec idx ++ ascii " out of bounds")
            | none => mErr (ascii "Invalid tuple index '" ++ field ++ ascii "'"))
        | other => do
            let s ← displayV f other
            mErr (ascii "Cannot access field '" ++ field ++ ascii "' on " ++ s)
    | .index objExpr idxExpr => do
        let obj ← evalExpr f objExpr env
        let idx ← evalExpr f idxExpr env
        match obj with
        | .list a => do
            let i ← requireInt f idx
            let iu := i64AsUsize i
            let xs ← readListH a
            match xs[iu]? with
            | some v => M.pure v
            | none => mErr (ascii "Index " ++ natDec iu ++ ascii " out of bounds")
        | .str s => do
            let i ← requireInt f idx
            let iu := i64AsUsize i
            match (utf8Chars s)[iu]? with
            | some c => M.pure (.str c)
            | none => mErr (ascii "String index " ++ natDec iu ++ ascii " out of bounds")
        | .map a => do
            let key ← displayV f idx
            let m ← readMapH a
            match alGet m key with
            | some v => M.pure v
            | none => mErr (ascii "Key '" ++ key ++ ascii "' not found")
        | _ => mErr (ascii "Cannot index this value")
    | .ifE cond then_ elifs els => do
        let cv ← evalExpr f cond env
        if isTruthy cv then evalExpr f then_ env
        else evalElifs f elifs els env
    | .matchE subject arms => do
        let v ← evalExpr f subject env
        evalMatchArms f v arms env
    | .closure params body =>
        M.pure (.func (.userDefined none
          (params.map (fun p => Param.mk p.1 p.2 none))
          [Stmt.retS (some body)] env))
    | .structCreate name fieldExprs => do
        let fields ← evalFieldInits f fieldExprs env []
        let addr ← allocStructH fields
        M.pure (.strct name addr)
    | .enumVariant en vn args => do
        let vs ← evalExprList f args env
        M.pure (.enum en vn vs)
    | .range lo hi => do
        let lv ← evalExpr f lo env
        let s ← requireInt f lv
        let hv ← evalExpr f hi env
        let e2 ← requireInt f hv
        let addr ← allocListH (intRangeList s e2)
        M.pure (.list addr)
    | .someE inner => do
        let v ← evalExpr f inner env
        M.pure (.option (some v))
    | .okE inner => do
        let v ← evalExpr f inner env
        M.pure (.result (.inl v))
    | .errE inner => do
        let v ← evalExpr f inner env
        M.pure (.result (.inr v))
    | .question inner => do
        let v ← evalExpr f inner env
        match v with
        | .result (.inl x) => M.pure x
        | .result (.inr e2) => mSig (.propagateErr e2)
        | .option (some x) => M.pure x
        | .option none => mSig (.propagateErr (.str (ascii "None")))
        | .nil => mSig (.propagateErr (.str (ascii "None")))
        | other => M.pure other
    | .boxE inner => evalExpr f inner env
    | .refE inner => do
        let v ← evalExpr f inner env
        let addr ← allocRefH v
        M.pure (.ref addr)
    | .awaitE inner => evalExpr f inner env

termination_by structural f _e _env => f

/-- Left-to-right evaluation of an expression list (argument and element
lists; the `collect::<Result<Vec<_>,_>>()` sites). -/
def evalExprList : Nat → List Expr → Nat → M (List Value)
  | 0, _, _ => mOof
  | _ + 1, [], _ => M.pure []
  | f + 1, e :: es, env => do
      let v ← evalExpr f e env
      let vs ← evalExprList f es env
      M.pure (v :: vs)

termination_by structural f _es _env => f

/-- The map-literal loop: evaluate key and value, coerce the key to its
display form, insert. -/
def evalMapPairs : Nat → List (Expr × Expr) → Nat → List (ZStr × Value) →
    M (List (ZStr × Value))
  | 0, _, _, _ => mOof
  | _ + 1, [], _, acc => M.pure acc
  | f + 1, (k, v) :: rest, env, acc => do
      let kv ← evalExpr f k env
      let vv ← evalExpr f v env
      let key ← displayV f kv
      evalMapPairs f rest env (alPut acc key vv)

termination_by structural f _ps _env _acc => f

/-- The struct-create field loop (`fields.insert(name, eval(expr)?)`). -/
def evalFieldInits : Nat → List (ZStr × Expr) → Nat → List (ZStr × Value) →
    M (List (ZStr × Value))
  | 0, _, _, _ => mOof
  | _ + 1, [], _, acc => M.pure acc
  | f + 1, (fname, fexpr) :: rest, env, acc => do
      let v ← evalExpr f fexpr env
      evalFieldInits f rest env (alPut acc fname v)

termination_by structural f _ps _env _acc => f

/-- Interpolated-string concatenation, left to right. -/
def evalStringParts : Nat → List StringPart → Nat → M ZStr
  | 0, _, _ => mOof
  | _ + 1, [], _ => M.pure []
  | f + 1, p :: ps, env => do
      let s ← (match p with
        | .literal s => M.pure s
        | .interpolated e => do
            let v ← evalExpr f e env
            displayV f v)
      let rest ← evalStringParts f ps env
      M.pure (s ++ rest)

termination_by structural f _ps _env => f

/-- The elif cascade of the `If` expression, then the optional else. -/
def evalElifs : Nat → List (Expr × Expr) → Option Expr → Nat → M Value
  | 0, _, _, _ => mOof
  | f + 1, [], els, env =>
      (match els with
      | some e => evalExpr f e env
      | none => M.pure .nil)
  | f + 1, (c, b) :: rest, els, env => do
      let cv ← evalExpr f c env
      if isTruthy cv then evalExpr f b env
      else evalElifs f rest els env

termination_by structural f _es _els _env => f

/-- The arm loop of the `Match` expression: each arm gets a fresh child
environment; a matching arm whose guard is truthy (or absent) wins. -/
def evalMatchArms : Nat → Value → List MatchArm → Nat → M Value
  | 0, _, _, _ => mOof
  | _ + 1, _, [], _ => mErr (ascii "Non-exhaustive match")
  | f + 1, v, arm :: rest, env => do
      let matchEnv ← allocEnv (some env)
      let matched ← matchPattern arm.pattern v matchEnv
      if matched then
        match arm.guard with
        | some g => do
            let gv ← evalExpr f g matchEnv
            if isTruthy gv then evalExpr f arm.body matchEnv
            else evalMatchArms f v rest env
        | none => evalExpr f arm.body matchEnv
      else evalMatchArms f v rest env

termination_by structural f _v _arms _env => f

/-- The `while` loop: test, run the body in a fresh child environment,
catch Break/Continue, propagate everything else. -/
def whileLoop : Nat → Expr → List Stmt → Nat → M Value
  | 0, _, _, _ => mOof
  | f + 1, cond, body, env => do
      let cv ← evalExpr f cond env
      if !isTruthy cv then M.pure .nil
      else do
        let loopEnv ← allocEnv (some env)
        let r ← mTry (execBlock f body loopEnv)
        match r with
        | .ok _ => whileLoop f cond body env
        | .sig .brk => M.pure .nil
        | .sig .contin => whileLoop f cond body env
        | .sig s => mSig s
        | .pnc m => mPnc m
        | .oof => mOof

termination_by structural f _c _b _env => f

/-- The `for` loop over pre-computed items. -/
def forItems : Nat → ZStr → List Value → List Stmt → Nat → M Value
  | 0, _, _, _, _ => mOof
  | _ + 1, _, [], _, _ => M.pure .nil
  | f + 1, varName, item :: rest, body, env => do
      let loopEnv ← allocEnv (some env)
      envDefine loopEnv varName item
      let r ← mTry (execBlock f body loopEnv)
      match r with
      | .ok _ => forItems f varName rest body env
      | .sig .brk => M.pure .nil
      | .sig .contin => forItems f varName rest body env
      | .sig s => mSig s
      | .pnc m => mPnc m
      | .oof => mOof

termination_by structural f _v _items _b _env => f

/-- `Interpreter::exec_stmt`. -/
def execStmt : Nat → Stmt → Nat → M Value
  | 0, _, _ => mOof
  | f + 1, s, env =>
    match s with
    | .letS name _ expr _ => do
        let v ← evalExpr f expr env
        envDefine env name v
        M.pure .nil
    | .exprS e => evalExpr f e env
    | .retS e => do
        let v ← (match e with
          | some ex => evalExpr f ex env
          | none => M.pure Value.nil)
        mSig (.ret v)
    | .brk => mSig .brk
    | .contin => mSig .contin
    | .whileS cond body => whileLoop f cond body env
    | .forS v iterExpr body => do
        let iterVal ← evalExpr f iterExpr env
        let items ← valueToIter f iterVal
        forItems f v items body env
    | .funDefS fd => do
        envDefine env fd.name (.func (.userDefined (some fd.name) fd.params fd.body env))
        M.pure .nil
    | .structDefS d => do
        putStructDef d
        M.pure .nil
    | .enumDefS d => do
        putEnumDef d
        defineEnumVariants env d.name d.variants
        M.pure .nil
    | .implBlockS b => do
        registerImplMethods b.target env b.methods
        M.pure .nil
    | .modDef name stmts => do
        let modEnv ← allocEnv (some env)
        let _ ← execBlock f stmts modEnv
        putModule name modEnv
        envDefine env name .nil
        M.pure .nil
    | .importS _ => M.pure .nil
    | .typeAlias _ _ _ => M.pure .nil

termination_by structural f _s _env => f

/-- `Interpreter::exec_block`: run the statements in order, yield the
last statement's value (`Nil` for an empty block). -/
def execBlock : Nat → List Stmt → Nat → M Value
  | 0, _, _ => mOof
  | _ + 1, [], _ => M.pure .nil
  | f + 1, [s], env => execStmt f s env
  | f + 1, s :: rest, env => do
      let _ ← execStmt f s env
      execBlock f rest env

termination_by structural f _ss _env => f

/-- The statement loop of block expressions (values discarded). -/
def execStmtsUnit : Nat → List Stmt → Nat → M Unit
  | 0, _, _ => mOof
  | _ + 1, [], _ => M.pure ()
  | f + 1, s :: rest, env => do
      let _ ← execStmt f s env
      execStmtsUnit f rest env

termination_by structural f _ss _env => f

/-- `Interpreter::call_value`.  A user-defined call frame catches exactly
`Return` (yields its value) and `PropagateErr` (reified as `Err(e)` return
value); every other signal propagates via the catch-all. -/
def callValue : Nat → Value → List Value → Nat → M Value
  | 0, _, _, _ => mOof
  | f + 1, callee, args, env =>
    match callee with
    | .func (.native name) => callNative name args
    | .func (.userDefined _ params body closureEnv) => do
        let callEnv ← allocEnv (some closureEnv)
        bindParams f params args env callEnv
        let r ← mTry (execBlock f body callEnv)
        match r with
        | .ok v => M.pure v
        | .sig (.ret v) => M.pure v
        | .sig (.propagateErr e2) => M.pure (.result (.inr e2))
        | .sig s => mSig s
        | .pnc m => mPnc m
        | .oof => mOof
    | other => do
        let s ← displayV f other
        mErr (ascii "'" ++ s ++ ascii "' is not a function")

termination_by structural f _c _a _env => f

/-- The parameter-binding loop of `call_value`: positional argument if
present, else the default expression evaluated in the caller's
environment, else `Error("Missing argument")`.  (The source indexes
`args[i]` with a running `i`; peeling the argument list is the same
discipline.) -/
def bindParams : Nat → List Param → List Value → Nat → Nat → M Unit
  | 0, _, _, _, _ => mOof
  | _ + 1, [], _, _, _ => M.pure ()
  | f + 1, p :: ps, args, env, callEnv =>
      match args with
      | a :: rest => do
          envDefine callEnv p.name a
          bindParams f ps rest env callEnv
      | [] =>
          match p.default with
          | some d => do
              let v ← evalExpr f d env
              envDefine callEnv p.name v
              bindParams f ps [] env callEnv
          | none => mErr (ascii "Missing argument '" ++ p.name ++ ascii "'")

termination_by structural f _ps _a _env _cenv => f

/-- `Interpreter::call_method`: user `impl` methods first (with the
receiver prepended), then built-in methods. -/
def callMethod : Nat → Value → ZStr → List Value → Nat → M Value
  | 0, _, _, _, _ => mOof
  | f + 1, obj, method, args, env => do
      let tn := valueTypeName obj
      let tbl ← getImplMethods tn
      match tbl with
      | some methods =>
          (match alGet methods method with
          | some fn => callValue f (.func fn) (obj :: args) env
          | none => callBuiltinMethod obj method args)
      | none => callBuiltinMethod obj method args
termination_by structural f _o _m _a _env => f

end

-- ── Top level (`Interpreter::new` / `run`, `main::run_source`) ────────
/-- `Interpreter::new()`: empty tables and a fresh global environment.
The `stdlib::register` natives are handles into the unmodelled native
table and are not installed. -/
def initState : St :=
  { cells := [], envs := [⟨[], none⟩], listsH := [], mapsH := [], structsH := [],
    refsH := [], structDefs := [], enumDefs := [], implMethods := [], modules := [],
    global := 0 }

/-- `Interpreter::run` from the initial state. -/
def runProgram (fuel : Nat) (stmts : List Stmt) : St × Res Value :=
  execBlock fuel stmts initState.global initState

/-- The top-level report of `main::run_source` on the interpreter's
result: `Ok`/`Return` succeed; `Error` is "Runtime error: {msg}";
`PropagateErr` is "Unhandled error: {value}"; a `Break` or `Continue`
that reaches the top level is "break outside loop" / "continue outside
loop". -/
inductive TopOutcome where
  | success
  | runtimeError (msg : ZStr)
  | unhandledError (v : Value)
  | breakOutsideLoop
  | continueOutsideLoop
  | panicked (msg : String)
  | outOfFuel

/-- The final `match interp.run(&ast)` of `main::run_source`. -/
def topOutcome (r : Res Value) : TopOutcome :=
  match r with
  | .ok _ => .success
  | .sig (.ret _) => .success
  | .sig (.error e) => .runtimeError e
  | .sig (.propagateErr v) => .unhandledError v
  | .sig .brk => .breakOutsideLoop
  | .sig .contin => .continueOutsideLoop
  | .pnc m => .panicked m
  | .oof => .outOfFuel

-- ═══════════════════════════════════════════════════════════
-- Interpreter claim support
-- ═══════════════════════════════════════════════════════════
/-- The binding found by walking the environment chain from `addr`
toward the root: the cell of the nearest node that binds `name`. -/
def chainLookup (fuel : Nat) (st : St) (addr : Nat) (name : ZStr) : Option Nat :=
  match fuel with
  | 0 => none
  | f + 1 =>
    match st.envs[addr]? with
    | none => none
    | some node =>
      match alGet node.vars name with
      | some cell => some cell
      | none =>
        match node.parent with
        | some p => chainLookup f st p name
        | none => none

/-- Values the `?` operator forwards unchanged (everything that is not a
`Result`, an `Option`, or `Nil`). -/
def questionOther (v : Value) : Bool :=
  match v with
  | .result _ => false
  | .option _ => false
  | .nil => false
  | _ => true

/-- The values on which `==` always reports `false`: the match of
`impl PartialEq for Value` has no arm for `List`, `Map`, `Struct`,
`Enum`, `Function` or `Ref`. -/
def containerLike (v : Value) : Bool :=
  match v with
  | .list _ => true
  | .map _ => true
  | .strct _ _ => true
  | .enum _ _ _ => true
  | .func _ => true
  | .ref _ => true
  | _ => false

/-- The or-pattern `(x, 1) | (_, y)` matched against `(5, 2)`, with the
arm body reading `x` — the C4 scenario. -/
def leakExpr : Expr :=
  .matchE (.tuple [.int 5, .int 2])
    [.mk (.orP (.tupleP [.ident (ascii "x"), .intP 1])
               (.tupleP [.wildcard, .ident (ascii "y")]))
         none (.var (ascii "x"))]

/-- A function whose body is a bare `break`, called from inside a
`while` loop — the C10 end-to-end scenario. -/
def breakThroughCallProg : List Stmt :=
  [.funDefS (.mk (ascii "f") [] [] none [.brk] false),
   .whileS (.bool true) [.exprS (.call (.var (ascii "f")) [])]]

/-- A concrete two-node chain for the C7 witness: the root binds `x`,
the child binds `y`. -/
def stChain : St :=
  { cells := [.int 1, .int 2],
    envs := [⟨[(ascii "x", 0)], none⟩, ⟨[(ascii "y", 1)], some 0⟩],
    listsH := [], mapsH := [], structsH := [], refsH := [], structDefs := [],
    enumDefs := [], implMethods := [], modules := [], global := 0 }


/-- A program exercising every `Expr`, `Stmt`, `Pattern` and `Type`
constructor, both string parts, both unary operators and every binary
operator — concrete support that the codec round-trips the whole AST
shape (cf. C2). -/
def kitchenSinkProg : List Stmt :=
  [.letS (ascii "a")
      (some (.option (.result (.list (.map .int .float))
        (.tuple [.bool, .stringT, .nil])))) (.int (-42)) true,
   .letS (ascii "b")
      (some (.generic (ascii "Pair")
        [.named (ascii "T"), .function [.int, .inferred] .float]))
      (.float 0x400921FB54442D18) false,
   .exprS (.interp [.literal (ascii "x = "), .interpolated (.var (ascii "a"))]),
   .exprS (.tuple [.bool true, .nilE, .stringLit (ascii "hi")]),
   .exprS (.list [.int 1, .int 2]),
   .exprS (.mapLit [(.stringLit (ascii "k"), .int 1)]),
   .exprS (.block [.letS (ascii "t") none (.int 0) false] (some (.var (ascii "t")))),
   .exprS (.binOp (.int 1) .add (.binOp (.int 2) .mul (.int 3))),
   .exprS (.list [.binOp (.int 1) .sub (.int 2), .binOp (.int 1) .div (.int 2),
      .binOp (.int 1) .mod (.int 2), .binOp (.int 1) .eq (.int 2),
      .binOp (.int 1) .notEq (.int 2), .binOp (.int 1) .lt (.int 2),
      .binOp (.int 1) .ltEq (.int 2), .binOp (.int 1) .gt (.int 2),
      .binOp (.int 1) .gtEq (.int 2), .binOp (.bool true) .and (.bool false),
      .binOp (.bool true) .or (.bool false), .binOp (.int 1) .dotDot (.int 2)]),
   .exprS (.unaryOp .neg (.int 5)),
   .exprS (.unaryOp .not (.bool false)),
   .exprS (.call (.var (ascii "f")) [.int 1]),
   .exprS (.methodCall (.var (ascii "xs")) (ascii "push") [.int 1]),
   .exprS (.fieldAccess (.var (ascii "p")) (ascii "x")),
   .exprS (.index (.var (ascii "xs")) (.int 0)),
   .exprS (.ifE (.bool true) (.int 1) [(.bool false, .int 2)] (some (.int 3))),
   .exprS (.matchE (.var (ascii "v"))
     [.mk .wildcard none (.int 0),
      .mk (.ident (ascii "w")) (some (.bool true)) (.int 1),
      .mk (.intP 3) none (.int 2),
      .mk (.floatP 0x3FF0000000000000) none (.int 3),
      .mk (.boolP true) none (.int 4),
      .mk (.stringLit (ascii "s")) none (.int 5),
      .mk .nilP none (.int 6),
      .mk (.tupleP [.wildcard, .intP 1]) none (.int 7),
      .mk (.listP [.wildcard]) none (.int 8),
      .mk (.structP (ascii "P") [(ascii "x", .wildcard)]) none (.int 9),
      .mk (.enumVariant (ascii "E") (ascii "V") [.wildcard]) none (.int 10),
      .mk (.someP .wildcard) none (.int 11),
      .mk (.okP .wildcard) none (.int 12),
      .mk (.errP .wildcard) none (.int 13),
      .mk (.orP (.intP 1) (.intP 2)) none (.int 14),
      .mk (.rangeP (.intP 0) (.intP 9)) none (.int 15)]),
   .exprS (.closure [(ascii "x", some .int), (ascii "y", none)] (.var (ascii "x"))),
   .exprS (.structCreate (ascii "P") [(ascii "x", .int 1)]),
   .exprS (.enumVariant (ascii "E") (ascii "V") [.int 1]),
   .exprS (.range (.int 0) (.int 3)),
   .exprS (.someE (.int 1)),
   .exprS (.okE (.int 1)),
   .exprS (.errE (.stringLit (ascii "e"))),
   .exprS (.question (.var (ascii "r"))),
   .exprS (.boxE (.int 1)),
   .exprS (.refE (.int 1)),
   .exprS (.assign (.var (ascii "a")) (.int 2)),
   .exprS (.awaitE (.int 1)),
   .retS (some (.int 0)),
   .retS none,
   .brk,
   .contin,
   .whileS (.bool false) [.brk],
   .forS (ascii "i") (.range (.int 0) (.int 3)) [.contin],
   .funDefS (.mk (ascii "add") [ascii "T"]
      [.mk (ascii "x") (some .int) none, .mk (ascii "y") none (some (.int 1))]
      (some .int)
      [.retS (some (.binOp (.var (ascii "x")) .add (.var (ascii "y"))))] true),
   .structDefS ⟨ascii "P", [ascii "T"],
      [⟨ascii "x", .int, true⟩, ⟨ascii "y", .named (ascii "T"), false⟩], true⟩,
   .enumDefS ⟨ascii "E", [], [⟨ascii "V", [.int]⟩, ⟨ascii "W", []⟩], false⟩,
   .implBlockS (.mk (ascii "P") [ascii "T"]
      [.mk (ascii "get") [] [.mk (ascii "self") none none] (some .inferred)
         [.retS (some (.fieldAccess (.var (ascii "self")) (ascii "x")))] false]),
   .modDef (ascii "m") [.letS (ascii "q") none (.int 1) false],
   .importS [ascii "std", ascii "io"],
   .typeAlias (ascii "Alias") [ascii "T"] (.result (.option .bool) .stringT)]


-- ═══════════════════════════════════════════════════════════
-- Well-formedness for the round-trip theorem
-- ═══════════════════════════════════════════════════════════

/-- A string whose `u32` byte-length field does not truncate (every Rust
`String` on a real machine satisfies this). -/
def wfStr (s : ZStr) : Bool := decide (s.length < 2 ^ 32)

/-- An integer literal in the i64 range (every Rust `i64` satisfies it). -/
def wfI64 (n : Int) : Bool := decide (-(2 ^ 63) ≤ n ∧ n < 2 ^ 63)

/-- A float bit pattern of at most 64 bits (every `f64` satisfies it). -/
def wfF64 (bits : Nat) : Bool := decide (bits < 2 ^ 64)

/-- A count that the `as u32` casts of `write_vec` do not truncate. -/
def wfLen (n : Nat) : Bool := decide (n < 2 ^ 32)

/-- A string vector whose count and entries are representable. -/
def wfStrVec (xs : List ZStr) : Bool := wfLen xs.length && xs.all wfStr

mutual

/-- Representability of a type for the codec (no `u32` count or length
truncates). -/
def wfTy : Ty → Bool
  | .int => true
  | .float => true
  | .bool => true
  | .stringT => true
  | .nil => true
  | .inferred => true
  | .option t => wfTy t
  | .result a b => wfTy a && wfTy b
  | .list t => wfTy t
  | .map k v => wfTy k && wfTy v
  | .tuple ts => wfLen ts.length && wfTyList ts
  | .named s => wfStr s
  | .generic s args => wfStr s && wfLen args.length && wfTyList args
  | .function ps r => wfLen ps.length && wfTyList ps && wfTy r

def wfTyList : List Ty → Bool
  | [] => true
  | t :: ts => wfTy t && wfTyList ts

end

/-- Representability of an optional type annotation. -/
def wfOptTy : Option Ty → Bool
  | none => true
  | some t => wfTy t

mutual

/-- Representability of a pattern for the codec (counts, string lengths,
i64/f64 literals). -/
def wfPattern : Pattern → Bool
  | .wildcard => true
  | .nilP => true
  | .boolP _ => true
  | .intP n => wfI64 n
  | .floatP bits => wfF64 bits
  | .stringLit s => wfStr s
  | .ident s => wfStr s
  | .tupleP ps => wfLen ps.length && wfPatternList ps
  | .listP ps => wfLen ps.length && wfPatternList ps
  | .someP p => wfPattern p
  | .okP p => wfPattern p
  | .errP p => wfPattern p
  | .orP a b => wfPattern a && wfPattern b
  | .rangeP lo hi => wfPattern lo && wfPattern hi
  | .enumVariant en vn fields =>
      wfStr en && wfStr vn && wfLen fields.length && wfPatternList fields
  | .structP name fields =>
      wfStr name && wfLen fields.length && wfPatFieldList fields

def wfPatternList : List Pattern → Bool
  | [] => true
  | p :: ps => wfPattern p && wfPatternList ps

def wfPatFieldList : List (ZStr × Pattern) → Bool
  | [] => true
  | (fname, fpat) :: rest => wfStr fname && wfPattern fpat && wfPatFieldList rest

end

/-- Representability of a struct definition. -/
def wfStructDef (d : StructDef) : Bool :=
  wfStr d.name && wfStrVec d.generics && wfLen d.fields.length &&
    d.fields.all (fun fd => wfStr fd.name && wfTy fd.ty)

/-- Representability of an enum definition. -/
def wfEnumDef (en : EnumDef) : Bool :=
  wfStr en.name && wfStrVec en.generics && wfLen en.variants.length &&
    en.variants.all (fun v => wfStr v.name && wfLen v.fields.length && wfTyList v.fields)

mutual

/-- Representability of an expression for the codec. -/
def wfExpr : Expr → Bool
  | .int n => wfI64 n
  | .float bits => wfF64 bits
  | .bool _ => true
  | .nilE => true
  | .stringLit s => wfStr s
  | .interp parts => wfLen parts.length && wfStringPartList parts
  | .var s => wfStr s
  | .tuple elems => wfLen elems.length && wfExprList elems
  | .list elems => wfLen elems.length && wfExprList elems
  | .mapLit pairs => wfLen pairs.length && wfExprPairList pairs
  | .block stmts tail => wfLen stmts.length && wfStmtList stmts && wfOptExpr tail
  | .binOp l _ r => wfExpr l && wfExpr r
  | .unaryOp _ e => wfExpr e
  | .call callee args => wfExpr callee && wfLen args.length && wfExprList args
  | .methodCall obj m args =>
      wfExpr obj && wfStr m && wfLen args.length && wfExprList args
  | .fieldAccess obj fld => wfExpr obj && wfStr fld
  | .index obj idx => wfExpr obj && wfExpr idx
  | .ifE c t elifs els =>
      wfExpr c && wfExpr t && wfLen elifs.length && wfExprPairList elifs &&
        wfOptExpr els
  | .matchE subj arms => wfExpr subj && wfLen arms.length && wfMatchArmList arms
  | .closure params body =>
      wfLen params.length && wfClosureParamList params && wfExpr body
  | .structCreate name fields =>
      wfStr name && wfLen fields.length && wfFieldInitList fields
  | .enumVariant en vn args =>
      wfStr en && wfStr vn && wfLen args.length && wfExprList args
  | .range lo hi => wfExpr lo && wfExpr hi
  | .someE e => wfExpr e
  | .okE e => wfExpr e
  | .errE e => wfExpr e
  | .question e => wfExpr e
  | .boxE e => wfExpr e
  | .refE e => wfExpr e
  | .assign t v => wfExpr t && wfExpr v
  | .awaitE e => wfExpr e

def wfExprList : List Expr → Bool
  | [] => true
  | e :: es => wfExpr e && wfExprList es

def wfExprPairList : List (Expr × Expr) → Bool
  | [] => true
  | (a, b) :: rest => wfExpr a && wfExpr b && wfExprPairList rest

def wfOptExpr : Option Expr → Bool
  | none => true
  | some e => wfExpr e

def wfStringPart : StringPart → Bool
  | .literal s => wfStr s
  | .interpolated e => wfExpr e

def wfStringPartList : List StringPart → Bool
  | [] => true
  | p :: ps => wfStringPart p && wfStringPartList ps

def wfMatchArm : MatchArm → Bool
  | .mk pat guard body => wfPattern pat && wfOptExpr guard && wfExpr body

def wfMatchArmList : List MatchArm → Bool
  | [] => true
  | a :: as_ => wfMatchArm a && wfMatchArmList as_

def wfParam : Param → Bool
  | .mk name ty default => wfStr name && wfOptTy ty && wfOptExpr default

def wfParamList : List Param → Bool
  | [] => true
  | p :: ps => wfParam p && wfParamList ps

def wfClosureParamList : List (ZStr × Option Ty) → Bool
  | [] => true
  | (name, ty) :: rest => wfStr name && wfOptTy ty && wfClosureParamList rest

def wfFieldInitList : List (ZStr × Expr) → Bool
  | [] => true
  | (fname, fval) :: rest => wfStr fname && wfExpr fval && wfFieldInitList rest

def wfStmt : Stmt → Bool
  | .letS name ty v _ => wfStr name && wfOptTy ty && wfExpr v
  | .exprS e => wfExpr e
  | .retS e => wfOptExpr e
  | .brk => true
  | .contin => true
  | .whileS c body => wfExpr c && wfLen body.length && wfStmtList body
  | .forS v it body => wfStr v && wfExpr it && wfLen body.length && wfStmtList body
  | .funDefS fd => wfFunDef fd
  | .structDefS d => wfStructDef d
  | .enumDefS d => wfEnumDef d
  | .implBlockS b => wfImplBlock b
  | .modDef name ss => wfStr name && wfLen ss.length && wfStmtList ss
  | .importS path => wfStrVec path
  | .typeAlias name gs t => wfStr name && wfStrVec gs && wfTy t

def wfStmtList : List Stmt → Bool
  | [] => true
  | s :: ss => wfStmt s && wfStmtList ss

def wfFunDef : FunDef → Bool
  | .mk name generics params returnType body _ =>
      wfStr name && wfStrVec generics && wfLen params.length &&
        wfParamList params && wfOptTy returnType && wfLen body.length &&
        wfStmtList body

def wfFunDefList : List FunDef → Bool
  | [] => true
  | fd :: fds => wfFunDef fd && wfFunDefList fds

def wfImplBlock : ImplBlock → Bool
  | .mk target generics methods =>
      wfStr target && wfStrVec generics && wfLen methods.length &&
        wfFunDefList methods

end

-- ═══════════════════════════════════════════════════════════
-- Theorems
-- ═══════════════════════════════════════════════════════════

theorem natToLe_length (w v : Nat) : (natToLe w v).length = w := by
  induction w generalizing v with
  | zero => rfl
  | succ w ih => simp [natToLe, ih]

theorem leToNat_natToLe (w v : Nat) : leToNat (natToLe w v) = v % 256 ^ w := by
  induction w generalizing v with
  | zero => simp [natToLe, leToNat, Nat.mod_one]
  | succ w ih =>
    simp only [natToLe, leToNat, ih]
    rw [pow_succ']
    exact Nat.mod_mul.symm

theorem leToI64_i64ToLe (v : Int) (h₁ : -(2 ^ 63) ≤ v) (h₂ : v < 2 ^ 63) :
    leToI64 (i64ToLe v) = v := by
  unfold leToI64 i64ToLe
  rw [leToNat_natToLe]
  have hmod : (v % (2 ^ 64 : Int)) = if 0 ≤ v then v else v + 2 ^ 64 := by
    split <;> omega
  by_cases hv : 0 ≤ v
  · simp only [hmod, if_pos hv]
    have : (v.toNat) % 256 ^ 8 = v.toNat := Nat.mod_eq_of_lt (by omega)
    rw [this]
    have : ((v.toNat : Int)) = v := Int.toNat_of_nonneg hv
    simp only [this]
    rw [if_pos]; omega
  · simp only [hmod, if_neg hv]
    have hlt : (v + 2 ^ 64).toNat < 256 ^ 8 := by omega
    rw [Nat.mod_eq_of_lt hlt]
    have hge : ¬ ((v + 2 ^ 64).toNat < 2 ^ 63) := by omega
    rw [if_neg hge]
    omega

-- ── Unknown-tag lemmas, one per tag space ─────────────────────────────
theorem readTy_unknownTag (f t : Nat) (rest : List Nat) (h : t ∉ typeTagList) :
    readTy (f + 1) (t :: rest) = .error (.unknownTag "type" t) := by
  simp only [typeTagList, TAG_TYPE_INT, TAG_TYPE_FLOAT, TAG_TYPE_BOOL, TAG_TYPE_STRING,
    TAG_TYPE_NIL, TAG_TYPE_INFERRED, TAG_TYPE_OPTION, TAG_TYPE_RESULT, TAG_TYPE_LIST,
    TAG_TYPE_MAP, TAG_TYPE_TUPLE, TAG_TYPE_NAMED, TAG_TYPE_GENERIC, TAG_TYPE_FUNCTION,
    List.mem_cons, List.not_mem_nil, or_false, not_or] at h
  simp [readTy, Bind.bind, Dec.bind, readU8, decFail, TAG_TYPE_INT, TAG_TYPE_FLOAT,
    TAG_TYPE_BOOL, TAG_TYPE_STRING, TAG_TYPE_NIL, TAG_TYPE_INFERRED, TAG_TYPE_OPTION,
    TAG_TYPE_RESULT, TAG_TYPE_LIST, TAG_TYPE_MAP, TAG_TYPE_TUPLE, TAG_TYPE_NAMED,
    TAG_TYPE_GENERIC, TAG_TYPE_FUNCTION, h]

theorem readPattern_unknownTag (f t : Nat) (rest : List Nat) (h : t ∉ patternTagList) :
    readPattern (f + 1) (t :: rest) = .error (.unknownTag "pattern" t) := by
  simp only [patternTagList, TAG_PAT_WILDCARD, TAG_PAT_IDENT, TAG_PAT_INT, TAG_PAT_FLOAT,
    TAG_PAT_BOOL, TAG_PAT_STRING, TAG_PAT_NIL, TAG_PAT_TUPLE, TAG_PAT_LIST,
    TAG_PAT_STRUCT, TAG_PAT_ENUMVARIANT, TAG_PAT_SOME, TAG_PAT_OK, TAG_PAT_ERR,
    TAG_PAT_OR, TAG_PAT_RANGE, List.mem_cons, List.not_mem_nil, or_false, not_or] at h
  simp [readPattern, Bind.bind, Dec.bind, readU8, decFail, TAG_PAT_WILDCARD,
    TAG_PAT_IDENT, TAG_PAT_INT, TAG_PAT_FLOAT, TAG_PAT_BOOL, TAG_PAT_STRING,
    TAG_PAT_NIL, TAG_PAT_TUPLE, TAG_PAT_LIST, TAG_PAT_STRUCT, TAG_PAT_ENUMVARIANT,
    TAG_PAT_SOME, TAG_PAT_OK, TAG_PAT_ERR, TAG_PAT_OR, TAG_PAT_RANGE, h]

theorem readBinOp_unknownTag (t : Nat) (rest : List Nat) (h : t ∉ binopTagList) :
    readBinOp (t :: rest) = .error (.unknownTag "binop" t) := by
  simp only [binopTagList, TAG_BINOP_ADD, TAG_BINOP_SUB, TAG_BINOP_MUL, TAG_BINOP_DIV,
    TAG_BINOP_MOD, TAG_BINOP_EQ, TAG_BINOP_NEQ, TAG_BINOP_LT, TAG_BINOP_LTEQ,
    TAG_BINOP_GT, TAG_BINOP_GTEQ, TAG_BINOP_AND, TAG_BINOP_OR, TAG_BINOP_DOTDOT,
    List.mem_cons, List.not_mem_nil, or_false, not_or] at h
  simp [readBinOp, Bind.bind, Dec.bind, readU8, decFail, TAG_BINOP_ADD, TAG_BINOP_SUB,
    TAG_BINOP_MUL, TAG_BINOP_DIV, TAG_BINOP_MOD, TAG_BINOP_EQ, TAG_BINOP_NEQ,
    TAG_BINOP_LT, TAG_BINOP_LTEQ, TAG_BINOP_GT, TAG_BINOP_GTEQ, TAG_BINOP_AND,
    TAG_BINOP_OR, TAG_BINOP_DOTDOT, h]

theorem readUnaryOp_unknownTag (t : Nat) (rest : List Nat) (h : t ∉ unaryTagList) :
    readUnaryOp (t :: rest) = .error (.unknownTag "unaryop" t) := by
  simp only [unaryTagList, TAG_UNARY_NEG, TAG_UNARY_NOT, List.mem_cons,
    List.not_mem_nil, or_false, not_or] at h
  simp [readUnaryOp, Bind.bind, Dec.bind, readU8, decFail, TAG_UNARY_NEG,
    TAG_UNARY_NOT, h]

theorem readStringPart_unknownTag (f t : Nat) (rest : List Nat)
    (h : t ∉ strPartTagList) :
    readStringPart (f + 1) (t :: rest) = .error (.unknownTag "string part" t) := by
  simp only [strPartTagList, TAG_STRPART_LITERAL, TAG_STRPART_INTERP, List.mem_cons,
    List.not_mem_nil, or_false, not_or] at h
  simp [readStringPart, Bind.bind, Dec.bind, readU8, decFail, TAG_STRPART_LITERAL,
    TAG_STRPART_INTERP, h]

theorem readExpr_unknownTag (f t : Nat) (rest : List Nat) (h : t ∉ exprTagList) :
    readExpr (f + 1) (t :: rest) = .error (.unknownTag "expr" t) := by
  simp only [exprTagList, TAG_EXPR_INT, TAG_EXPR_FLOAT, TAG_EXPR_BOOL, TAG_EXPR_STRING,
    TAG_EXPR_NIL, TAG_EXPR_INTERP, TAG_EXPR_VAR, TAG_EXPR_TUPLE, TAG_EXPR_LIST,
    TAG_EXPR_MAPLIT, TAG_EXPR_BLOCK, TAG_EXPR_BINOP, TAG_EXPR_UNARYOP, TAG_EXPR_CALL,
    TAG_EXPR_METHODCALL, TAG_EXPR_FIELDACCESS, TAG_EXPR_INDEX, TAG_EXPR_IF,
    TAG_EXPR_MATCH, TAG_EXPR_CLOSURE, TAG_EXPR_STRUCTCREATE, TAG_EXPR_ENUMVARIANT,
    TAG_EXPR_RANGE, TAG_EXPR_SOME, TAG_EXPR_OK, TAG_EXPR_ERR, TAG_EXPR_QUESTION,
    TAG_EXPR_BOX, TAG_EXPR_REF, TAG_EXPR_ASSIGN, TAG_EXPR_AWAIT,
    List.mem_cons, List.not_mem_nil, or_false, not_or] at h
  simp [readExpr, Bind.bind, Dec.bind, readU8, decFail, TAG_EXPR_INT, TAG_EXPR_FLOAT,
    TAG_EXPR_BOOL, TAG_EXPR_STRING, TAG_EXPR_NIL, TAG_EXPR_INTERP, TAG_EXPR_VAR,
    TAG_EXPR_TUPLE, TAG_EXPR_LIST, TAG_EXPR_MAPLIT, TAG_EXPR_BLOCK, TAG_EXPR_BINOP,
    TAG_EXPR_UNARYOP, TAG_EXPR_CALL, TAG_EXPR_METHODCALL, TAG_EXPR_FIELDACCESS,
    TAG_EXPR_INDEX, TAG_EXPR_IF, TAG_EXPR_MATCH, TAG_EXPR_CLOSURE,
    TAG_EXPR_STRUCTCREATE, TAG_EXPR_ENUMVARIANT, TAG_EXPR_RANGE, TAG_EXPR_SOME,
    TAG_EXPR_OK, TAG_EXPR_ERR, TAG_EXPR_QUESTION, TAG_EXPR_BOX, TAG_EXPR_REF,
    TAG_EXPR_ASSIGN, TAG_EXPR_AWAIT, h]

theorem readStmt_unknownTag (f t : Nat) (rest : List Nat) (h : t ∉ stmtTagList) :
    readStmt (f + 1) (t :: rest) = .error (.unknownTag "stmt" t) := by
  simp only [stmtTagList, TAG_STMT_LET, TAG_STMT_EXPR, TAG_STMT_RETURN, TAG_STMT_BREAK,
    TAG_STMT_CONTINUE, TAG_STMT_WHILE, TAG_STMT_FOR, TAG_STMT_FUNDEF,
    TAG_STMT_STRUCTDEF, TAG_STMT_ENUMDEF, TAG_STMT_IMPLBLOCK, TAG_STMT_MODDEF,
    TAG_STMT_IMPORT, TAG_STMT_TYPEALIAS,
    List.mem_cons, List.not_mem_nil, or_false, not_or] at h
  simp [readStmt, Bind.bind, Dec.bind, readU8, decFail, TAG_STMT_LET, TAG_STMT_EXPR,
    TAG_STMT_RETURN, TAG_STMT_BREAK, TAG_STMT_CONTINUE, TAG_STMT_WHILE, TAG_STMT_FOR,
    TAG_STMT_FUNDEF, TAG_STMT_STRUCTDEF, TAG_STMT_ENUMDEF, TAG_STMT_IMPLBLOCK,
    TAG_STMT_MODDEF, TAG_STMT_IMPORT, TAG_STMT_TYPEALIAS, h]

-- ═══════════════════════════════════════════════════════════
-- Bundler lemmas
-- ═══════════════════════════════════════════════════════════
theorem sentinel_length : SENTINEL.length = 8 := by decide

/-- On a freshly bundled file, the payload scan finds exactly the stripped
host prefix. -/
theorem findPayloadStart_bundle (A P : List Nat) (hP : P.length < 2 ^ 64) :
    findPayloadStart (A ++ P ++ SENTINEL ++ natToLe 8 P.length) = some A.length := by
  have hassoc : A ++ P ++ SENTINEL ++ natToLe 8 P.length
      = (A ++ P) ++ (SENTINEL ++ natToLe 8 P.length) := by
    simp [List.append_assoc]
  rw [hassoc]
  set B := A ++ P with hB
  set T := SENTINEL ++ natToLe 8 P.length with hT
  have hTlen : T.length = 16 := by
    rw [hT]
    simp [sentinel_length, natToLe_length]
  have hBlen : B.length = A.length + P.length := by simp [hB]
  have hdl : (B ++ T).length = B.length + 16 := by simp [hTlen]
  have h1 : (B ++ T).length - 16 = B.length := by omega
  have h2 : (B ++ T).drop B.length = T := List.drop_left _ _
  have h3 : T.take 8 = SENTINEL := by
    rw [hT]
    have := List.take_left SENTINEL (natToLe 8 P.length)
    rwa [sentinel_length] at this
  have h4 : leToNat (T.drop 8) = P.length := by
    rw [hT]
    have hd := List.drop_left SENTINEL (natToLe 8 P.length)
    rw [sentinel_length] at hd
    rw [hd, leToNat_natToLe]
    exact Nat.mod_eq_of_lt (by simpa using hP)
  simp only [findPayloadStart, h1, h2, h3, h4]
  rw [if_neg (by omega), if_neg (by simp), if_pos (by omega)]
  congr 1
  omega

/-- Re-bundling strips exactly the previous payload and trailer. -/
theorem stripPayload_bundleBytes (host P : List Nat) (hP : P.length < 2 ^ 64) :
    stripPayload (bundleBytes host P) = stripPayload host := by
  show stripPayload
      (stripPayload host ++ P ++ SENTINEL ++ natToLe 8 P.length) = stripPayload host
  generalize stripPayload host = A
  have h := findPayloadStart_bundle A P hP
  simp only [stripPayload, h]
  simp only [List.append_assoc]
  exact List.take_left _ _

/-- Claim C5: `bundle(host, P)` ends in the sentinel and the little-endian
payload length, preceded immediately by the payload (itself preceded by the
stripped host); and bundling on top of an already-bundled file fully
displaces the old payload, so `bundle(bundle(host, P), P2) = bundle(host, P2)`. -/

-- ═══════════════════════════════════════════════════════════
-- Decoder/encoder round-trip — primitive readers
-- ═══════════════════════════════════════════════════════════

theorem wfStr_lt {s : ZStr} (h : wfStr s = true) : s.length < 2 ^ 32 :=
  of_decide_eq_true h

theorem wfLen_lt {n : Nat} (h : wfLen n = true) : n < 2 ^ 32 :=
  of_decide_eq_true h

theorem wfI64_bounds {n : Int} (h : wfI64 n = true) :
    -(2 ^ 63) ≤ n ∧ n < 2 ^ 63 :=
  of_decide_eq_true h

theorem wfF64_lt {bits : Nat} (h : wfF64 bits = true) : bits < 2 ^ 64 :=
  of_decide_eq_true h

theorem readBytes_exact (bs rest : List Nat) :
    readBytes bs.length (bs ++ rest) = .ok (bs, rest) := by
  unfold readBytes
  rw [if_pos (by rw [List.length_append]; exact Nat.le_add_right _ _)]
  rw [List.take_left, List.drop_left]

theorem readU32_enc (v : Nat) (hv : v < 2 ^ 32) : ∀ rest,
    readU32 (encU32 v ++ rest) = .ok (v, rest) := by
  intro rest
  have h4 : readBytes 4 (encU32 v ++ rest) = .ok (encU32 v, rest) := by
    have hl : (encU32 v).length = 4 := by simp [encU32, natToLe_length]
    rw [← hl]; exact readBytes_exact _ _
  have h256 : (256 : Nat) ^ 4 = 2 ^ 32 := by norm_num
  simp only [readU32, Bind.bind, Dec.bind, h4, Dec.pure]
  simp [encU32, leToNat_natToLe, h256, Nat.mod_eq_of_lt hv]
  omega

theorem readI64_enc (v : Int) (h₁ : -(2 ^ 63) ≤ v) (h₂ : v < 2 ^ 63) : ∀ rest,
    readI64 (encI64 v ++ rest) = .ok (v, rest) := by
  intro rest
  have h8 : readBytes 8 (encI64 v ++ rest) = .ok (encI64 v, rest) := by
    have hl : (encI64 v).length = 8 := by simp [encI64, i64ToLe, natToLe_length]
    rw [← hl]; exact readBytes_exact _ _
  simp only [readI64, Bind.bind, Dec.bind, h8, Dec.pure]
  simp [encI64, leToI64_i64ToLe v h₁ h₂]

theorem readF64_enc (bits : Nat) (h : bits < 2 ^ 64) : ∀ rest,
    readF64 (encF64 bits ++ rest) = .ok (bits, rest) := by
  intro rest
  have h8 : readBytes 8 (encF64 bits ++ rest) = .ok (encF64 bits, rest) := by
    have hl : (encF64 bits).length = 8 := by simp [encF64, natToLe_length]
    rw [← hl]; exact readBytes_exact _ _
  have h256 : (256 : Nat) ^ 8 = 2 ^ 64 := by norm_num
  simp only [readF64, Bind.bind, Dec.bind, h8, Dec.pure]
  simp [encF64, leToNat_natToLe, h256, Nat.mod_eq_of_lt h]
  omega

theorem readBool_enc (b : Bool) : ∀ rest,
    readBool (encBool b ++ rest) = .ok (b, rest) := by
  intro rest
  cases b <;> simp [readBool, encBool, Bind.bind, Dec.bind, readU8, Dec.pure]

theorem readStr_enc (s : ZStr) (hs : s.length < 2 ^ 32) : ∀ rest,
    readStr (encStr s ++ rest) = .ok (s, rest) := by
  intro rest
  have h1 : readU32 (encU32 s.length ++ (s ++ rest)) = .ok (s.length, s ++ rest) :=
    readU32_enc s.length hs _
  simp [readStr, encStr, Bind.bind, Dec.bind, List.append_assoc, h1, readBytes_exact]

theorem readOptExpr_enc (rd : Dec Expr) (o : Option Expr)
    (hsome : ∀ e, o = some e → ∀ r2, rd (encExpr e ++ r2) = .ok (e, r2)) :
    ∀ rest, readOptBy rd (encOptExpr o ++ rest) = .ok (o, rest) := by
  cases o with
  | none =>
      intro rest
      simp [encOptExpr, readOptBy, Bind.bind, Dec.bind, readU8, Dec.pure]
  | some e =>
      intro rest
      have hx := hsome e rfl rest
      simp [encOptExpr, readOptBy, Bind.bind, Dec.bind, readU8, Dec.pure, hx]

theorem readVecItems_enc (rd : Dec α) (encX : α → List Nat)
    (listEnc : List α → List Nat) (hnil : listEnc [] = [])
    (hcons : ∀ x l, listEnc (x :: l) = encX x ++ listEnc l) :
    ∀ (xs : List α), (∀ x ∈ xs, ∀ r2, rd (encX x ++ r2) = .ok (x, r2)) →
      ∀ rest, readVecItems rd xs.length (listEnc xs ++ rest) = .ok (xs, rest) := by
  intro xs
  induction xs with
  | nil =>
      intro _ rest
      simp [hnil, readVecItems, Dec.pure]
  | cons x l ihl =>
      intro hitem rest
      have hx := hitem x (List.mem_cons_self x l) (listEnc l ++ rest)
      have hrest := ihl (fun y hy r2 => hitem y (List.mem_cons_of_mem x hy) r2) rest
      simp only [hcons, List.append_assoc, List.length_cons]
      simp [readVecItems, Bind.bind, Dec.bind, Dec.pure, hx, hrest]

theorem readVecBy_enc (rd : Dec α) (encX : α → List Nat)
    (listEnc : List α → List Nat) (hnil : listEnc [] = [])
    (hcons : ∀ x l, listEnc (x :: l) = encX x ++ listEnc l)
    (xs : List α) (hlen : xs.length < 2 ^ 32)
    (hitem : ∀ x ∈ xs, ∀ r2, rd (encX x ++ r2) = .ok (x, r2)) :
    ∀ rest, readVecBy rd (encU32 xs.length ++ (listEnc xs ++ rest)) = .ok (xs, rest) := by
  intro rest
  have hn := readU32_enc xs.length hlen (listEnc xs ++ rest)
  have hi := readVecItems_enc rd encX listEnc hnil hcons xs hitem rest
  simp [readVecBy, Bind.bind, Dec.bind, hn, hi]

theorem readPairs_enc (fa : Dec α) (fb : Dec β) (encA : α → List Nat)
    (encB : β → List Nat) (listEnc : List (α × β) → List Nat)
    (hnil : listEnc [] = [])
    (hcons : ∀ a b l, listEnc ((a, b) :: l) = encA a ++ (encB b ++ listEnc l)) :
    ∀ (xs : List (α × β)),
      (∀ p ∈ xs, ∀ r2, fa (encA p.1 ++ r2) = .ok (p.1, r2)) →
      (∀ p ∈ xs, ∀ r2, fb (encB p.2 ++ r2) = .ok (p.2, r2)) →
      ∀ rest, readPairs fa fb xs.length (listEnc xs ++ rest) = .ok (xs, rest) := by
  intro xs
  induction xs with
  | nil =>
      intro _ _ rest
      simp [hnil, readPairs, Dec.pure]
  | cons p l ihl =>
      intro ha hb rest
      obtain ⟨a, b⟩ := p
      have hxa := ha (a, b) (List.mem_cons_self _ l) (encB b ++ (listEnc l ++ rest))
      have hxb := hb (a, b) (List.mem_cons_self _ l) (listEnc l ++ rest)
      have hrest := ihl (fun y hy r2 => ha y (List.mem_cons_of_mem _ hy) r2)
        (fun y hy r2 => hb y (List.mem_cons_of_mem _ hy) r2) rest
      simp only [hcons, List.append_assoc, List.length_cons]
      simp [readPairs, Bind.bind, Dec.bind, Dec.pure, hxa, hxb, hrest]

theorem readBinOp_enc (op : BinOp) : ∀ rest,
    readBinOp (encBinOp op ++ rest) = .ok (op, rest) := by
  intro rest
  cases op <;>
    simp [encBinOp, readBinOp, Bind.bind, Dec.bind, readU8, Dec.pure,
      TAG_BINOP_ADD, TAG_BINOP_SUB, TAG_BINOP_MUL, TAG_BINOP_DIV, TAG_BINOP_MOD,
      TAG_BINOP_EQ, TAG_BINOP_NEQ, TAG_BINOP_LT, TAG_BINOP_LTEQ, TAG_BINOP_GT,
      TAG_BINOP_GTEQ, TAG_BINOP_AND, TAG_BINOP_OR, TAG_BINOP_DOTDOT]

theorem readUnaryOp_enc (op : UnaryOp) : ∀ rest,
    readUnaryOp (encUnaryOp op ++ rest) = .ok (op, rest) := by
  intro rest
  cases op <;>
    simp [encUnaryOp, readUnaryOp, Bind.bind, Dec.bind, readU8, Dec.pure,
      TAG_UNARY_NEG, TAG_UNARY_NOT]

theorem fnv1a_lt (data : List Nat) : fnv1a data < 2 ^ 64 := by
  have hgen : ∀ (l : List Nat) (h : Nat), h < 2 ^ 64 →
      l.foldl (fun hash byte => ((hash ^^^ byte) * 0x100000000001b3) % 2 ^ 64) h
        < 2 ^ 64 := by
    intro l
    induction l with
    | nil => intro h hh; simpa using hh
    | cons b bs ih =>
        intro h hh
        exact ih _ (Nat.mod_lt _ (by norm_num))
  exact hgen data _ (by norm_num)

theorem encStr_length (s : ZStr) : (encStr s).length = 4 + s.length := by
  simp [encStr, encU32, natToLe_length]

theorem encTy_length_pos (t : Ty) : 1 ≤ (encTy t).length := by
  cases t <;> simp [encTy]

theorem encPattern_length_pos (p : Pattern) : 1 ≤ (encPattern p).length := by
  cases p <;> simp [encPattern]

theorem encExpr_length_pos (e : Expr) : 1 ≤ (encExpr e).length := by
  cases e <;> simp [encExpr]

theorem encStmt_length_pos (s : Stmt) : 1 ≤ (encStmt s).length := by
  cases s <;> simp [encStmt]


-- ── Membership facts for the list encoders and wf predicates ──────────

theorem wfTyList_mem {xs : List Ty} (h : wfTyList xs = true) {x : Ty}
    (hx : x ∈ xs) : wfTy x = true := by
  induction xs with
  | nil => cases hx
  | cons a l ihl =>
      simp only [wfTyList, Bool.and_eq_true] at h
      rcases List.mem_cons.mp hx with rfl | hm
      · exact h.1
      · exact ihl h.2 hm

theorem wfPatternList_mem {xs : List Pattern} (h : wfPatternList xs = true)
    {x : Pattern} (hx : x ∈ xs) : wfPattern x = true := by
  induction xs with
  | nil => cases hx
  | cons a l ihl =>
      simp only [wfPatternList, Bool.and_eq_true] at h
      rcases List.mem_cons.mp hx with rfl | hm
      · exact h.1
      · exact ihl h.2 hm

theorem wfPatFieldList_mem {xs : List (ZStr × Pattern)}
    (h : wfPatFieldList xs = true) {p : ZStr × Pattern} (hp : p ∈ xs) :
    wfStr p.1 = true ∧ wfPattern p.2 = true := by
  induction xs with
  | nil => cases hp
  | cons a l ihl =>
      obtain ⟨u, w⟩ := a
      simp only [wfPatFieldList, Bool.and_eq_true] at h
      obtain ⟨⟨h1, h2⟩, h3⟩ := h
      rcases List.mem_cons.mp hp with rfl | hm
      · exact ⟨h1, h2⟩
      · exact ihl h3 hm

theorem wfExprList_mem {xs : List Expr} (h : wfExprList xs = true) {x : Expr}
    (hx : x ∈ xs) : wfExpr x = true := by
  induction xs with
  | nil => cases hx
  | cons a l ihl =>
      simp only [wfExprList, Bool.and_eq_true] at h
      rcases List.mem_cons.mp hx with rfl | hm
      · exact h.1
      · exact ihl h.2 hm

theorem wfExprPairList_mem {xs : List (Expr × Expr)}
    (h : wfExprPairList xs = true) {p : Expr × Expr} (hp : p ∈ xs) :
    wfExpr p.1 = true ∧ wfExpr p.2 = true := by
  induction xs with
  | nil => cases hp
  | cons a l ihl =>
      obtain ⟨u, w⟩ := a
      simp only [wfExprPairList, Bool.and_eq_true] at h
      obtain ⟨⟨h1, h2⟩, h3⟩ := h
      rcases List.mem_cons.mp hp with rfl | hm
      · exact ⟨h1, h2⟩
      · exact ihl h3 hm

theorem wfStringPartList_mem {xs : List StringPart}
    (h : wfStringPartList xs = true) {x : StringPart} (hx : x ∈ xs) :
    wfStringPart x = true := by
  induction xs with
  | nil => cases hx
  | cons a l ihl =>
      simp only [wfStringPartList, Bool.and_eq_true] at h
      rcases List.mem_cons.mp hx with rfl | hm
      · exact h.1
      · exact ihl h.2 hm

theorem wfMatchArmList_mem {xs : List MatchArm} (h : wfMatchArmList xs = true)
    {x : MatchArm} (hx : x ∈ xs) : wfMatchArm x = true := by
  induction xs with
  | nil => cases hx
  | cons a l ihl =>
      simp only [wfMatchArmList, Bool.and_eq_true] at h
      rcases List.mem_cons.mp hx with rfl | hm
      · exact h.1
      · exact ihl h.2 hm

theorem wfParamList_mem {xs : List Param} (h : wfParamList xs = true)
    {x : Param} (hx : x ∈ xs) : wfParam x = true := by
  induction xs with
  | nil => cases hx
  | cons a l ihl =>
      simp only [wfParamList, Bool.and_eq_true] at h
      rcases List.mem_cons.mp hx with rfl | hm
      · exact h.1
      · exact ihl h.2 hm

theorem wfClosureParamList_mem {xs : List (ZStr × Option Ty)}
    (h : wfClosureParamList xs = true) {p : ZStr × Option Ty} (hp : p ∈ xs) :
    wfStr p.1 = true ∧ wfOptTy p.2 = true := by
  induction xs with
  | nil => cases hp
  | cons a l ihl =>
      obtain ⟨u, w⟩ := a
      simp only [wfClosureParamList, Bool.and_eq_true] at h
      obtain ⟨⟨h1, h2⟩, h3⟩ := h
      rcases List.mem_cons.mp hp with rfl | hm
      · exact ⟨h1, h2⟩
      · exact ihl h3 hm

theorem wfFieldInitList_mem {xs : List (ZStr × Expr)}
    (h : wfFieldInitList xs = true) {p : ZStr × Expr} (hp : p ∈ xs) :
    wfStr p.1 = true ∧ wfExpr p.2 = true := by
  induction xs with
  | nil => cases hp
  | cons a l ihl =>
      obtain ⟨u, w⟩ := a
      simp only [wfFieldInitList, Bool.and_eq_true] at h
      obtain ⟨⟨h1, h2⟩, h3⟩ := h
      rcases List.mem_cons.mp hp with rfl | hm
      · exact ⟨h1, h2⟩
      · exact ihl h3 hm

theorem wfStmtList_mem {xs : List Stmt} (h : wfStmtList xs = true) {x : Stmt}
    (hx : x ∈ xs) : wfStmt x = true := by
  induction xs with
  | nil => cases hx
  | cons a l ihl =>
      simp only [wfStmtList, Bool.and_eq_true] at h
      rcases List.mem_cons.mp hx with rfl | hm
      · exact h.1
      · exact ihl h.2 hm

theorem wfFunDefList_mem {xs : List FunDef} (h : wfFunDefList xs = true)
    {x : FunDef} (hx : x ∈ xs) : wfFunDef x = true := by
  induction xs with
  | nil => cases hx
  | cons a l ihl =>
      simp only [wfFunDefList, Bool.and_eq_true] at h
      rcases List.mem_cons.mp hx with rfl | hm
      · exact h.1
      · exact ihl h.2 hm

theorem encTyList_mem_le {xs : List Ty} {x : Ty} (hx : x ∈ xs) :
    (encTy x).length ≤ (encTyList xs).length := by
  induction xs with
  | nil => cases hx
  | cons a l ihl =>
      rcases List.mem_cons.mp hx with rfl | hm
      · simp only [encTyList, List.length_append]; omega
      · have := ihl hm
        simp only [encTyList, List.length_append]; omega

theorem encPatternList_mem_le {xs : List Pattern} {x : Pattern} (hx : x ∈ xs) :
    (encPattern x).length ≤ (encPatternList xs).length := by
  induction xs with
  | nil => cases hx
  | cons a l ihl =>
      rcases List.mem_cons.mp hx with rfl | hm
      · simp only [encPatternList, List.length_append]; omega
      · have := ihl hm
        simp only [encPatternList, List.length_append]; omega

theorem encPatFieldList_mem_le {xs : List (ZStr × Pattern)}
    {p : ZStr × Pattern} (hp : p ∈ xs) :
    (encPattern p.2).length ≤ (encPatFieldList xs).length := by
  induction xs with
  | nil => cases hp
  | cons a l ihl =>
      obtain ⟨u, w⟩ := a
      rcases List.mem_cons.mp hp with rfl | hm
      · simp only [encPatFieldList, List.length_append]; omega
      · have := ihl hm
        simp only [encPatFieldList, List.length_append]; omega

theorem encExprList_mem_le {xs : List Expr} {x : Expr} (hx : x ∈ xs) :
    (encExpr x).length ≤ (encExprList xs).length := by
  induction xs with
  | nil => cases hx
  | cons a l ihl =>
      rcases List.mem_cons.mp hx with rfl | hm
      · simp only [encExprList, List.length_append]; omega
      · have := ihl hm
        simp only [encExprList, List.length_append]; omega

theorem encExprPairList_mem_le {xs : List (Expr × Expr)} {p : Expr × Expr}
    (hp : p ∈ xs) :
    (encExpr p.1).length ≤ (encExprPairList xs).length ∧
      (encExpr p.2).length ≤ (encExprPairList xs).length := by
  induction xs with
  | nil => cases hp
  | cons a l ihl =>
      obtain ⟨u, w⟩ := a
      rcases List.mem_cons.mp hp with rfl | hm
      · constructor <;> (simp only [encExprPairList, List.length_append]; omega)
      · have := ihl hm
        constructor <;> (simp only [encExprPairList, List.length_append]; omega)

theorem encStringPartList_mem_le {xs : List StringPart} {x : StringPart}
    (hx : x ∈ xs) :
    (encStringPart x).length ≤ (encStringPartList xs).length := by
  induction xs with
  | nil => cases hx
  | cons a l ihl =>
      rcases List.mem_cons.mp hx with rfl | hm
      · simp only [encStringPartList, List.length_append]; omega
      · have := ihl hm
        simp only [encStringPartList, List.length_append]; omega

theorem encMatchArmList_mem_le {xs : List MatchArm} {x : MatchArm}
    (hx : x ∈ xs) :
    (encMatchArm x).length ≤ (encMatchArmList xs).length := by
  induction xs with
  | nil => cases hx
  | cons a l ihl =>
      rcases List.mem_cons.mp hx with rfl | hm
      · simp only [encMatchArmList, List.length_append]; omega
      · have := ihl hm
        simp only [encMatchArmList, List.length_append]; omega

theorem encParamList_mem_le {xs : List Param} {x : Param} (hx : x ∈ xs) :
    (encParam x).length ≤ (encParamList xs).length := by
  induction xs with
  | nil => cases hx
  | cons a l ihl =>
      rcases List.mem_cons.mp hx with rfl | hm
      · simp only [encParamList, List.length_append]; omega
      · have := ihl hm
        simp only [encParamList, List.length_append]; omega

theorem encClosureParams_mem_le {xs : List (ZStr × Option Ty)}
    {p : ZStr × Option Ty} (hp : p ∈ xs) :
    (encOptTy p.2).length ≤ (encClosureParams xs).length := by
  induction xs with
  | nil => cases hp
  | cons a l ihl =>
      obtain ⟨u, w⟩ := a
      rcases List.mem_cons.mp hp with rfl | hm
      · simp only [encClosureParams, List.length_append]; omega
      · have := ihl hm
        simp only [encClosureParams, List.length_append]; omega

theorem encFieldInits_mem_le {xs : List (ZStr × Expr)} {p : ZStr × Expr}
    (hp : p ∈ xs) :
    (encExpr p.2).length ≤ (encFieldInits xs).length := by
  induction xs with
  | nil => cases hp
  | cons a l ihl =>
      obtain ⟨u, w⟩ := a
      rcases List.mem_cons.mp hp with rfl | hm
      · simp only [encFieldInits, List.length_append]; omega
      · have := ihl hm
        simp only [encFieldInits, List.length_append]; omega

theorem encStmtList_mem_le {xs : List Stmt} {x : Stmt} (hx : x ∈ xs) :
    (encStmt x).length ≤ (encStmtList xs).length := by
  induction xs with
  | nil => cases hx
  | cons a l ihl =>
      rcases List.mem_cons.mp hx with rfl | hm
      · simp only [encStmtList, List.length_append]; omega
      · have := ihl hm
        simp only [encStmtList, List.length_append]; omega

theorem encFunDefList_mem_le {xs : List FunDef} {x : FunDef} (hx : x ∈ xs) :
    (encFunDef x).length ≤ (encFunDefList xs).length := by
  induction xs with
  | nil => cases hx
  | cons a l ihl =>
      rcases List.mem_cons.mp hx with rfl | hm
      · simp only [encFunDefList, List.length_append]; omega
      · have := ihl hm
        simp only [encFunDefList, List.length_append]; omega

theorem encStructFields_mem_le {xs : List StructField} {fd : StructField}
    (hfd : fd ∈ xs) :
    (encTy fd.ty).length ≤ (encStructFields xs).length := by
  induction xs with
  | nil => cases hfd
  | cons a l ihl =>
      rcases List.mem_cons.mp hfd with rfl | hm
      · simp only [encStructFields, List.length_append]; omega
      · have := ihl hm
        simp only [encStructFields, List.length_append]; omega

theorem encEnumVariants_mem_le {xs : List EnumVariantDef} {v : EnumVariantDef}
    (hv : v ∈ xs) :
    (encTyList v.fields).length ≤ (encEnumVariants xs).length := by
  induction xs with
  | nil => cases hv
  | cons a l ihl =>
      rcases List.mem_cons.mp hv with rfl | hm
      · simp only [encEnumVariants, encTyVec, List.length_append]; omega
      · have := ihl hm
        simp only [encEnumVariants, List.length_append]; omega


-- ── Round-trip for the type codec ─────────────────────────────────────

theorem readTy_enc : ∀ (n : Nat) (t : Ty), sizeOf t ≤ n → wfTy t = true →
    ∀ (f : Nat), (encTy t).length ≤ f → ∀ (rest : List Nat),
      readTy f (encTy t ++ rest) = .ok (t, rest) := by
  intro n
  induction n using Nat.strong_induction_on with
  | _ n ih =>
  intro t hsize hwf f hfuel rest
  cases t with
  | int =>
      cases f with
      | zero => exact absurd hfuel (by simp only [encTy, List.length_cons]; omega)
      | succ f1 =>
          simp [encTy, readTy, Bind.bind, Dec.bind, readU8, Dec.pure, TAG_TYPE_INT, TAG_TYPE_FLOAT, TAG_TYPE_BOOL, TAG_TYPE_STRING, TAG_TYPE_NIL, TAG_TYPE_INFERRED, TAG_TYPE_OPTION, TAG_TYPE_RESULT, TAG_TYPE_LIST, TAG_TYPE_MAP, TAG_TYPE_TUPLE, TAG_TYPE_NAMED, TAG_TYPE_GENERIC, TAG_TYPE_FUNCTION]
  | float =>
      cases f with
      | zero => exact absurd hfuel (by simp only [encTy, List.length_cons]; omega)
      | succ f1 =>
          simp [encTy, readTy, Bind.bind, Dec.bind, readU8, Dec.pure, TAG_TYPE_INT, TAG_TYPE_FLOAT, TAG_TYPE_BOOL, TAG_TYPE_STRING, TAG_TYPE_NIL, TAG_TYPE_INFERRED, TAG_TYPE_OPTION, TAG_TYPE_RESULT, TAG_TYPE_LIST, TAG_TYPE_MAP, TAG_TYPE_TUPLE, TAG_TYPE_NAMED, TAG_TYPE_GENERIC, TAG_TYPE_FUNCTION]
  | bool =>
      cases f with
      | zero => exact absurd hfuel (by simp only [encTy, List.length_cons]; omega)
      | succ f1 =>
          simp [encTy, readTy, Bind.bind, Dec.bind, readU8, Dec.pure, TAG_TYPE_INT, TAG_TYPE_FLOAT, TAG_TYPE_BOOL, TAG_TYPE_STRING, TAG_TYPE_NIL, TAG_TYPE_INFERRED, TAG_TYPE_OPTION, TAG_TYPE_RESULT, TAG_TYPE_LIST, TAG_TYPE_MAP, TAG_TYPE_TUPLE, TAG_TYPE_NAMED, TAG_TYPE_GENERIC, TAG_TYPE_FUNCTION]
  | stringT =>
      cases f with
      | zero => exact absurd hfuel (by simp only [encTy, List.length_cons]; omega)
      | succ f1 =>
          simp [encTy, readTy, Bind.bind, Dec.bind, readU8, Dec.pure, TAG_TYPE_INT, TAG_TYPE_FLOAT, TAG_TYPE_BOOL, TAG_TYPE_STRING, TAG_TYPE_NIL, TAG_TYPE_INFERRED, TAG_TYPE_OPTION, TAG_TYPE_RESULT, TAG_TYPE_LIST, TAG_TYPE_MAP, TAG_TYPE_TUPLE, TAG_TYPE_NAMED, TAG_TYPE_GENERIC, TAG_TYPE_FUNCTION]
  | nil =>
      cases f with
      | zero => exact absurd hfuel (by simp only [encTy, List.length_cons]; omega)
      | succ f1 =>
          simp [encTy, readTy, Bind.bind, Dec.bind, readU8, Dec.pure, TAG_TYPE_INT, TAG_TYPE_FLOAT, TAG_TYPE_BOOL, TAG_TYPE_STRING, TAG_TYPE_NIL, TAG_TYPE_INFERRED, TAG_TYPE_OPTION, TAG_TYPE_RESULT, TAG_TYPE_LIST, TAG_TYPE_MAP, TAG_TYPE_TUPLE, TAG_TYPE_NAMED, TAG_TYPE_GENERIC, TAG_TYPE_FUNCTION]
  | inferred =>
      cases f with
      | zero => exact absurd hfuel (by simp only [encTy, List.length_cons]; omega)
      | succ f1 =>
          simp [encTy, readTy, Bind.bind, Dec.bind, readU8, Dec.pure, TAG_TYPE_INT, TAG_TYPE_FLOAT, TAG_TYPE_BOOL, TAG_TYPE_STRING, TAG_TYPE_NIL, TAG_TYPE_INFERRED, TAG_TYPE_OPTION, TAG_TYPE_RESULT, TAG_TYPE_LIST, TAG_TYPE_MAP, TAG_TYPE_TUPLE, TAG_TYPE_NAMED, TAG_TYPE_GENERIC, TAG_TYPE_FUNCTION]
  | option inner =>
      cases f with
      | zero => exact absurd hfuel (by simp only [encTy, List.length_cons]; omega)
      | succ f1 =>
          have hsz : sizeOf inner < n := by
            have hspec : sizeOf (Ty.option inner) = 1 + sizeOf inner := by simp
            omega
          have hwi : wfTy inner = true := by simpa [wfTy] using hwf
          have hfi : (encTy inner).length ≤ f1 := by
            simp only [encTy, List.length_cons] at hfuel; omega
          have hin : ∀ r2, readTy f1 (encTy inner ++ r2) = .ok (inner, r2) :=
            fun r2 => ih (sizeOf inner) hsz inner (le_refl _) hwi f1 hfi r2
          simp [encTy, readTy, Bind.bind, Dec.bind, readU8, Dec.pure, TAG_TYPE_INT, TAG_TYPE_FLOAT, TAG_TYPE_BOOL, TAG_TYPE_STRING, TAG_TYPE_NIL, TAG_TYPE_INFERRED, TAG_TYPE_OPTION, TAG_TYPE_RESULT, TAG_TYPE_LIST, TAG_TYPE_MAP, TAG_TYPE_TUPLE, TAG_TYPE_NAMED, TAG_TYPE_GENERIC, TAG_TYPE_FUNCTION, hin]
  | result a b =>
      cases f with
      | zero => exact absurd hfuel (by simp only [encTy, List.length_cons]; omega)
      | succ f1 =>
          have hspec : sizeOf (Ty.result a b) = 1 + sizeOf a + sizeOf b := by simp
          have hsa : sizeOf a < n := by omega
          have hsb : sizeOf b < n := by omega
          have hw' := hwf
          simp only [wfTy, Bool.and_eq_true] at hw'
          have hfa : (encTy a).length ≤ f1 := by
            simp only [encTy, List.length_cons, List.length_append] at hfuel; omega
          have hfb : (encTy b).length ≤ f1 := by
            simp only [encTy, List.length_cons, List.length_append] at hfuel; omega
          have ha : ∀ r2, readTy f1 (encTy a ++ r2) = .ok (a, r2) :=
            fun r2 => ih (sizeOf a) hsa a (le_refl _) hw'.1 f1 hfa r2
          have hb : ∀ r2, readTy f1 (encTy b ++ r2) = .ok (b, r2) :=
            fun r2 => ih (sizeOf b) hsb b (le_refl _) hw'.2 f1 hfb r2
          simp [encTy, readTy, Bind.bind, Dec.bind, readU8, Dec.pure, TAG_TYPE_INT, TAG_TYPE_FLOAT, TAG_TYPE_BOOL, TAG_TYPE_STRING, TAG_TYPE_NIL, TAG_TYPE_INFERRED, TAG_TYPE_OPTION, TAG_TYPE_RESULT, TAG_TYPE_LIST, TAG_TYPE_MAP, TAG_TYPE_TUPLE, TAG_TYPE_NAMED, TAG_TYPE_GENERIC, TAG_TYPE_FUNCTION, ha, hb]
  | list inner =>
      cases f with
      | zero => exact absurd hfuel (by simp only [encTy, List.length_cons]; omega)
      | succ f1 =>
          have hsz : sizeOf inner < n := by
            have hspec : sizeOf (Ty.list inner) = 1 + sizeOf inner := by simp
            omega
          have hwi : wfTy inner = true := by simpa [wfTy] using hwf
          have hfi : (encTy inner).length ≤ f1 := by
            simp only [encTy, List.length_cons] at hfuel; omega
          have hin : ∀ r2, readTy f1 (encTy inner ++ r2) = .ok (inner, r2) :=
            fun r2 => ih (sizeOf inner) hsz inner (le_refl _) hwi f1 hfi r2
          simp [encTy, readTy, Bind.bind, Dec.bind, readU8, Dec.pure, TAG_TYPE_INT, TAG_TYPE_FLOAT, TAG_TYPE_BOOL, TAG_TYPE_STRING, TAG_TYPE_NIL, TAG_TYPE_INFERRED, TAG_TYPE_OPTION, TAG_TYPE_RESULT, TAG_TYPE_LIST, TAG_TYPE_MAP, TAG_TYPE_TUPLE, TAG_TYPE_NAMED, TAG_TYPE_GENERIC, TAG_TYPE_FUNCTION, hin]
  | map k v =>
      cases f with
      | zero => exact absurd hfuel (by simp only [encTy, List.length_cons]; omega)
      | succ f1 =>
          have hspec : sizeOf (Ty.map k v) = 1 + sizeOf k + sizeOf v := by simp
          have hsa : sizeOf k < n := by omega
          have hsb : sizeOf v < n := by omega
          have hw' := hwf
          simp only [wfTy, Bool.and_eq_true] at hw'
          have hfa : (encTy k).length ≤ f1 := by
            simp only [encTy, List.length_cons, List.length_append] at hfuel; omega
          have hfb : (encTy v).length ≤ f1 := by
            simp only [encTy, List.length_cons, List.length_append] at hfuel; omega
          have ha : ∀ r2, readTy f1 (encTy k ++ r2) = .ok (k, r2) :=
            fun r2 => ih (sizeOf k) hsa k (le_refl _) hw'.1 f1 hfa r2
          have hb : ∀ r2, readTy f1 (encTy v ++ r2) = .ok (v, r2) :=
            fun r2 => ih (sizeOf v) hsb v (le_refl _) hw'.2 f1 hfb r2
          simp [encTy, readTy, Bind.bind, Dec.bind, readU8, Dec.pure, TAG_TYPE_INT, TAG_TYPE_FLOAT, TAG_TYPE_BOOL, TAG_TYPE_STRING, TAG_TYPE_NIL, TAG_TYPE_INFERRED, TAG_TYPE_OPTION, TAG_TYPE_RESULT, TAG_TYPE_LIST, TAG_TYPE_MAP, TAG_TYPE_TUPLE, TAG_TYPE_NAMED, TAG_TYPE_GENERIC, TAG_TYPE_FUNCTION, ha, hb]
  | tuple ts =>
      cases f with
      | zero => exact absurd hfuel (by simp only [encTy, List.length_cons]; omega)
      | succ f1 =>
          have hw' := hwf
          simp only [wfTy, Bool.and_eq_true] at hw'
          obtain ⟨hl0, hwl⟩ := hw'
          have hfl : (encTyList ts).length ≤ f1 := by
            simp only [encTy, List.length_cons, List.length_append, encU32,
              natToLe_length] at hfuel
            omega
          have hitems : ∀ x ∈ ts, ∀ r2, readTy f1 (encTy x ++ r2) = .ok (x, r2) := by
            intro x hx r2
            have hsx : sizeOf x < n := by
              have h1 : sizeOf x < sizeOf ts := List.sizeOf_lt_of_mem hx
              have h2 : sizeOf (Ty.tuple ts) = 1 + sizeOf ts := by simp
              omega
            exact ih (sizeOf x) hsx x (le_refl _) (wfTyList_mem hwl hx) f1
              (le_trans (encTyList_mem_le hx) hfl) r2
          have hvec := readVecBy_enc (readTy f1) encTy encTyList rfl
            (fun x l => rfl) ts (wfLen_lt hl0) hitems
          simp [encTy, readTy, Bind.bind, Dec.bind, readU8, Dec.pure, TAG_TYPE_INT, TAG_TYPE_FLOAT, TAG_TYPE_BOOL, TAG_TYPE_STRING, TAG_TYPE_NIL, TAG_TYPE_INFERRED, TAG_TYPE_OPTION, TAG_TYPE_RESULT, TAG_TYPE_LIST, TAG_TYPE_MAP, TAG_TYPE_TUPLE, TAG_TYPE_NAMED, TAG_TYPE_GENERIC, TAG_TYPE_FUNCTION, hvec]
  | named s =>
      cases f with
      | zero => exact absurd hfuel (by simp only [encTy, List.length_cons]; omega)
      | succ f1 =>
          have hs : ∀ r2, readStr (encStr s ++ r2) = .ok (s, r2) :=
            readStr_enc s (wfStr_lt (by simpa [wfTy] using hwf))
          simp [encTy, readTy, Bind.bind, Dec.bind, readU8, Dec.pure, TAG_TYPE_INT, TAG_TYPE_FLOAT, TAG_TYPE_BOOL, TAG_TYPE_STRING, TAG_TYPE_NIL, TAG_TYPE_INFERRED, TAG_TYPE_OPTION, TAG_TYPE_RESULT, TAG_TYPE_LIST, TAG_TYPE_MAP, TAG_TYPE_TUPLE, TAG_TYPE_NAMED, TAG_TYPE_GENERIC, TAG_TYPE_FUNCTION, hs]
  | generic s args =>
      cases f with
      | zero => exact absurd hfuel (by simp only [encTy, List.length_cons]; omega)
      | succ f1 =>
          have hw' := hwf
          simp only [wfTy, Bool.and_eq_true] at hw'
          obtain ⟨⟨hws, hl0⟩, hwl⟩ := hw'
          have hs : ∀ r2, readStr (encStr s ++ r2) = .ok (s, r2) :=
            readStr_enc s (wfStr_lt hws)
          have hfl : (encTyList args).length ≤ f1 := by
            simp only [encTy, List.length_cons, List.length_append, encStr_length,
              encU32, natToLe_length] at hfuel
            omega
          have hitems : ∀ x ∈ args, ∀ r2, readTy f1 (encTy x ++ r2) = .ok (x, r2) := by
            intro x hx r2
            have hsx : sizeOf x < n := by
              have h1 : sizeOf x < sizeOf args := List.sizeOf_lt_of_mem hx
              have h2 : sizeOf (Ty.generic s args) = 1 + sizeOf s + sizeOf args := by simp
              omega
            exact ih (sizeOf x) hsx x (le_refl _) (wfTyList_mem hwl hx) f1
              (le_trans (encTyList_mem_le hx) hfl) r2
          have hvec := readVecBy_enc (readTy f1) encTy encTyList rfl
            (fun x l => rfl) args (wfLen_lt hl0) hitems
          simp [encTy, readTy, Bind.bind, Dec.bind, readU8, Dec.pure, TAG_TYPE_INT, TAG_TYPE_FLOAT, TAG_TYPE_BOOL, TAG_TYPE_STRING, TAG_TYPE_NIL, TAG_TYPE_INFERRED, TAG_TYPE_OPTION, TAG_TYPE_RESULT, TAG_TYPE_LIST, TAG_TYPE_MAP, TAG_TYPE_TUPLE, TAG_TYPE_NAMED, TAG_TYPE_GENERIC, TAG_TYPE_FUNCTION, hs, hvec]
  | function ps r =>
      cases f with
      | zero => exact absurd hfuel (by simp only [encTy, List.length_cons]; omega)
      | succ f1 =>
          have hw' := hwf
          simp only [wfTy, Bool.and_eq_true] at hw'
          obtain ⟨⟨hl0, hwl⟩, hwr⟩ := hw'
          have hfl : (encTyList ps).length ≤ f1 := by
            simp only [encTy, List.length_cons, List.length_append, encU32,
              natToLe_length] at hfuel
            omega
          have hfr : (encTy r).length ≤ f1 := by
            simp only [encTy, List.length_cons, List.length_append, encU32,
              natToLe_length] at hfuel
            omega
          have hitems : ∀ x ∈ ps, ∀ r2, readTy f1 (encTy x ++ r2) = .ok (x, r2) := by
            intro x hx r2
            have hsx : sizeOf x < n := by
              have h1 : sizeOf x < sizeOf ps := List.sizeOf_lt_of_mem hx
              have h2 : sizeOf (Ty.function ps r) = 1 + sizeOf ps + sizeOf r := by simp
              omega
            exact ih (sizeOf x) hsx x (le_refl _) (wfTyList_mem hwl hx) f1
              (le_trans (encTyList_mem_le hx) hfl) r2
          have hvec := readVecBy_enc (readTy f1) encTy encTyList rfl
            (fun x l => rfl) ps (wfLen_lt hl0) hitems
          have hsr : sizeOf r < n := by
            have h2 : sizeOf (Ty.function ps r) = 1 + sizeOf ps + sizeOf r := by simp
            omega
          have hr : ∀ r2, readTy f1 (encTy r ++ r2) = .ok (r, r2) :=
            fun r2 => ih (sizeOf r) hsr r (le_refl _) hwr f1 hfr r2
          simp [encTy, readTy, Bind.bind, Dec.bind, readU8, Dec.pure, TAG_TYPE_INT, TAG_TYPE_FLOAT, TAG_TYPE_BOOL, TAG_TYPE_STRING, TAG_TYPE_NIL, TAG_TYPE_INFERRED, TAG_TYPE_OPTION, TAG_TYPE_RESULT, TAG_TYPE_LIST, TAG_TYPE_MAP, TAG_TYPE_TUPLE, TAG_TYPE_NAMED, TAG_TYPE_GENERIC, TAG_TYPE_FUNCTION, hvec, hr]

theorem readOptTy_enc (f : Nat) (o : Option Ty) (hwf : wfOptTy o = true)
    (hf : (encOptTy o).length ≤ f + 1) :
    ∀ rest, readOptTy f (encOptTy o ++ rest) = .ok (o, rest) := by
  cases o with
  | none =>
      intro rest
      simp [encOptTy, readOptTy, readOptBy, Bind.bind, Dec.bind, readU8, Dec.pure]
  | some t =>
      intro rest
      have ht : ∀ r2, readTy f (encTy t ++ r2) = .ok (t, r2) := by
        intro r2
        refine readTy_enc (sizeOf t) t (le_refl _) (by simpa [wfOptTy] using hwf) f ?_ r2
        simp only [encOptTy, List.length_cons] at hf
        omega
      simp [encOptTy, readOptTy, readOptBy, Bind.bind, Dec.bind, readU8, Dec.pure, ht]

theorem readStrVec_enc (xs : List ZStr) (h : wfStrVec xs = true) :
    ∀ rest, readVecBy readStr (encStrVec xs ++ rest) = .ok (xs, rest) := by
  have h' := h
  simp only [wfStrVec, Bool.and_eq_true] at h'
  obtain ⟨hl, ha⟩ := h'
  have hitems : ∀ s ∈ xs, ∀ r2, readStr (encStr s ++ r2) = .ok (s, r2) := by
    intro s hs r2
    have := List.all_eq_true.mp ha s hs
    exact readStr_enc s (wfStr_lt this) r2
  have hv := readVecBy_enc readStr encStr encStrList rfl (fun x l => rfl) xs
    (wfLen_lt hl) hitems
  intro rest
  simpa only [encStrVec, List.append_assoc] using hv rest

theorem readPatFields_enc (rd : Dec Pattern) :
    ∀ (xs : List (ZStr × Pattern)),
      (∀ p ∈ xs, wfStr p.1 = true) →
      (∀ p ∈ xs, ∀ r2, rd (encPattern p.2 ++ r2) = .ok (p.2, r2)) →
      ∀ rest, readPatFields rd xs.length (encPatFieldList xs ++ rest) = .ok (xs, rest) := by
  intro xs
  induction xs with
  | nil =>
      intro _ _ rest
      simp [encPatFieldList, readPatFields, Dec.pure]
  | cons a l ihl =>
      intro hn hp rest
      obtain ⟨u, w⟩ := a
      have hu : ∀ r2, readStr (encStr u ++ r2) = .ok (u, r2) :=
        readStr_enc u (wfStr_lt (hn (u, w) (List.mem_cons_self _ _)))
      have hw := hp (u, w) (List.mem_cons_self _ _)
      have hrest := ihl (fun y hy => hn y (List.mem_cons_of_mem _ hy))
        (fun y hy r2 => hp y (List.mem_cons_of_mem _ hy) r2) rest
      simp only [encPatFieldList, List.append_assoc, List.length_cons]
      simp [readPatFields, Bind.bind, Dec.bind, Dec.pure, hu, hw, hrest]

theorem readStructFields_enc (f : Nat) :
    ∀ (xs : List StructField),
      (∀ fd ∈ xs, wfStr fd.name = true ∧ wfTy fd.ty = true ∧
        (encTy fd.ty).length ≤ f) →
      ∀ rest, readStructFields f xs.length (encStructFields xs ++ rest) = .ok (xs, rest) := by
  intro xs
  induction xs with
  | nil =>
      intro _ rest
      simp [encStructFields, readStructFields, Dec.pure]
  | cons fd l ihl =>
      intro hfd rest
      obtain ⟨hn, hty, hfl⟩ := hfd fd (List.mem_cons_self _ _)
      have hu : ∀ r2, readStr (encStr fd.name ++ r2) = .ok (fd.name, r2) :=
        readStr_enc _ (wfStr_lt hn)
      have ht : ∀ r2, readTy f (encTy fd.ty ++ r2) = .ok (fd.ty, r2) :=
        fun r2 => readTy_enc (sizeOf fd.ty) fd.ty (le_refl _) hty f hfl r2
      have hb := readBool_enc fd.isPub
      have hrest := ihl (fun y hy => hfd y (List.mem_cons_of_mem _ hy)) rest
      simp only [encStructFields, List.append_assoc, List.length_cons]
      simp [readStructFields, Bind.bind, Dec.bind, Dec.pure, hu, ht, hb, hrest]

theorem readStructDef_enc (f : Nat) (d : StructDef) (hwf : wfStructDef d = true)
    (hty : ∀ fd ∈ d.fields, (encTy fd.ty).length ≤ f) :
    ∀ rest, readStructDef f (encStructDef d ++ rest) = .ok (d, rest) := by
  intro rest
  have h' := hwf
  simp only [wfStructDef, Bool.and_eq_true] at h'
  obtain ⟨⟨⟨hn, hg⟩, hc⟩, hfall⟩ := h'
  have hfields : ∀ fd ∈ d.fields, wfStr fd.name = true ∧ wfTy fd.ty = true ∧
      (encTy fd.ty).length ≤ f := by
    intro fd hfd
    have := List.all_eq_true.mp hfall fd hfd
    simp only [Bool.and_eq_true] at this
    exact ⟨this.1, this.2, hty fd hfd⟩
  have h1 := readStr_enc d.name (wfStr_lt hn)
  have h2 := readStrVec_enc d.generics hg
  have h3 := readU32_enc d.fields.length (wfLen_lt hc)
  have h4 := readStructFields_enc f d.fields hfields
  have h5 := readBool_enc d.isPub
  simp only [encStructDef, List.append_assoc]
  simp [readStructDef, Bind.bind, Dec.bind, Dec.pure, h1, h2, h3, h4, h5]

theorem readEnumVariants_enc (f : Nat) :
    ∀ (xs : List EnumVariantDef),
      (∀ v ∈ xs, wfStr v.name = true ∧ wfLen v.fields.length = true ∧
        wfTyList v.fields = true ∧ (∀ t ∈ v.fields, (encTy t).length ≤ f)) →
      ∀ rest, readEnumVariants f xs.length (encEnumVariants xs ++ rest) = .ok (xs, rest) := by
  intro xs
  induction xs with
  | nil =>
      intro _ rest
      simp [encEnumVariants, readEnumVariants, Dec.pure]
  | cons v l ihl =>
      intro hv rest
      obtain ⟨hn, hc, hwl, hft⟩ := hv v (List.mem_cons_self _ _)
      have h1 := readStr_enc v.name (wfStr_lt hn)
      have hitems : ∀ t ∈ v.fields, ∀ r2, readTy f (encTy t ++ r2) = .ok (t, r2) := by
        intro t ht r2
        exact readTy_enc (sizeOf t) t (le_refl _) (wfTyList_mem hwl ht) f (hft t ht) r2
      have h2 := readVecBy_enc (readTy f) encTy encTyList rfl (fun x l => rfl)
        v.fields (wfLen_lt hc) hitems
      have hrest := ihl (fun y hy => hv y (List.mem_cons_of_mem _ hy)) rest
      simp only [encEnumVariants, encTyVec, List.append_assoc, List.length_cons]
      simp [readEnumVariants, Bind.bind, Dec.bind, Dec.pure, h1, h2, hrest]

theorem readEnumDef_enc (f : Nat) (d : EnumDef) (hwf : wfEnumDef d = true)
    (hty : ∀ v ∈ d.variants, ∀ t ∈ v.fields, (encTy t).length ≤ f) :
    ∀ rest, readEnumDef f (encEnumDef d ++ rest) = .ok (d, rest) := by
  intro rest
  have h' := hwf
  simp only [wfEnumDef, Bool.and_eq_true] at h'
  obtain ⟨⟨⟨hn, hg⟩, hc⟩, hvall⟩ := h'
  have hvars : ∀ v ∈ d.variants, wfStr v.name = true ∧ wfLen v.fields.length = true ∧
      wfTyList v.fields = true ∧ (∀ t ∈ v.fields, (encTy t).length ≤ f) := by
    intro v hv
    have := List.all_eq_true.mp hvall v hv
    simp only [Bool.and_eq_true] at this
    exact ⟨this.1.1, this.1.2, this.2, hty v hv⟩
  have h1 := readStr_enc d.name (wfStr_lt hn)
  have h2 := readStrVec_enc d.generics hg
  have h3 := readU32_enc d.variants.length (wfLen_lt hc)
  have h4 := readEnumVariants_enc f d.variants hvars
  have h5 := readBool_enc d.isPub
  simp only [encEnumDef, List.append_assoc]
  simp [readEnumDef, Bind.bind, Dec.bind, Dec.pure, h1, h2, h3, h4, h5]


-- ── Round-trip for the pattern codec ──────────────────────────────────

theorem readPattern_enc : ∀ (n : Nat) (p : Pattern), sizeOf p ≤ n → wfPattern p = true →
    ∀ (f : Nat), (encPattern p).length ≤ f → ∀ (rest : List Nat),
      readPattern f (encPattern p ++ rest) = .ok (p, rest) := by
  intro n
  induction n using Nat.strong_induction_on with
  | _ n ih =>
  intro p hsize hwf f hfuel rest
  cases p with
  | wildcard =>
      cases f with
      | zero => exact absurd hfuel (by simp only [encPattern, List.length_cons]; omega)
      | succ f1 =>
          simp [encPattern, readPattern, Bind.bind, Dec.bind, readU8, Dec.pure, TAG_PAT_WILDCARD, TAG_PAT_NIL, TAG_PAT_BOOL, TAG_PAT_INT, TAG_PAT_FLOAT, TAG_PAT_STRING, TAG_PAT_IDENT, TAG_PAT_TUPLE, TAG_PAT_LIST, TAG_PAT_SOME, TAG_PAT_OK, TAG_PAT_ERR, TAG_PAT_OR, TAG_PAT_RANGE, TAG_PAT_ENUMVARIANT, TAG_PAT_STRUCT]
  | nilP =>
      cases f with
      | zero => exact absurd hfuel (by simp only [encPattern, List.length_cons]; omega)
      | succ f1 =>
          simp [encPattern, readPattern, Bind.bind, Dec.bind, readU8, Dec.pure, TAG_PAT_WILDCARD, TAG_PAT_NIL, TAG_PAT_BOOL, TAG_PAT_INT, TAG_PAT_FLOAT, TAG_PAT_STRING, TAG_PAT_IDENT, TAG_PAT_TUPLE, TAG_PAT_LIST, TAG_PAT_SOME, TAG_PAT_OK, TAG_PAT_ERR, TAG_PAT_OR, TAG_PAT_RANGE, TAG_PAT_ENUMVARIANT, TAG_PAT_STRUCT]
  | boolP b =>
      cases f with
      | zero => exact absurd hfuel (by simp only [encPattern, List.length_cons]; omega)
      | succ f1 =>
          have hb := readBool_enc b
          simp [encPattern, readPattern, Bind.bind, Dec.bind, readU8, Dec.pure, TAG_PAT_WILDCARD, TAG_PAT_NIL, TAG_PAT_BOOL, TAG_PAT_INT, TAG_PAT_FLOAT, TAG_PAT_STRING, TAG_PAT_IDENT, TAG_PAT_TUPLE, TAG_PAT_LIST, TAG_PAT_SOME, TAG_PAT_OK, TAG_PAT_ERR, TAG_PAT_OR, TAG_PAT_RANGE, TAG_PAT_ENUMVARIANT, TAG_PAT_STRUCT, hb]
  | intP v =>
      cases f with
      | zero => exact absurd hfuel (by simp only [encPattern, List.length_cons]; omega)
      | succ f1 =>
          obtain ⟨h1, h2⟩ := wfI64_bounds (by simpa [wfPattern] using hwf)
          have hv := readI64_enc v h1 h2
          simp [encPattern, readPattern, Bind.bind, Dec.bind, readU8, Dec.pure, TAG_PAT_WILDCARD, TAG_PAT_NIL, TAG_PAT_BOOL, TAG_PAT_INT, TAG_PAT_FLOAT, TAG_PAT_STRING, TAG_PAT_IDENT, TAG_PAT_TUPLE, TAG_PAT_LIST, TAG_PAT_SOME, TAG_PAT_OK, TAG_PAT_ERR, TAG_PAT_OR, TAG_PAT_RANGE, TAG_PAT_ENUMVARIANT, TAG_PAT_STRUCT, hv]
  | floatP bits =>
      cases f with
      | zero => exact absurd hfuel (by simp only [encPattern, List.length_cons]; omega)
      | succ f1 =>
          have hv := readF64_enc bits (wfF64_lt (by simpa [wfPattern] using hwf))
          simp [encPattern, readPattern, Bind.bind, Dec.bind, readU8, Dec.pure, TAG_PAT_WILDCARD, TAG_PAT_NIL, TAG_PAT_BOOL, TAG_PAT_INT, TAG_PAT_FLOAT, TAG_PAT_STRING, TAG_PAT_IDENT, TAG_PAT_TUPLE, TAG_PAT_LIST, TAG_PAT_SOME, TAG_PAT_OK, TAG_PAT_ERR, TAG_PAT_OR, TAG_PAT_RANGE, TAG_PAT_ENUMVARIANT, TAG_PAT_STRUCT, hv]
  | stringLit s =>
      cases f with
      | zero => exact absurd hfuel (by simp only [encPattern, List.length_cons]; omega)
      | succ f1 =>
          have hs := readStr_enc s (wfStr_lt (by simpa [wfPattern] using hwf))
          simp [encPattern, readPattern, Bind.bind, Dec.bind, readU8, Dec.pure, TAG_PAT_WILDCARD, TAG_PAT_NIL, TAG_PAT_BOOL, TAG_PAT_INT, TAG_PAT_FLOAT, TAG_PAT_STRING, TAG_PAT_IDENT, TAG_PAT_TUPLE, TAG_PAT_LIST, TAG_PAT_SOME, TAG_PAT_OK, TAG_PAT_ERR, TAG_PAT_OR, TAG_PAT_RANGE, TAG_PAT_ENUMVARIANT, TAG_PAT_STRUCT, hs]
  | ident s =>
      cases f with
      | zero => exact absurd hfuel (by simp only [encPattern, List.length_cons]; omega)
      | succ f1 =>
          have hs := readStr_enc s (wfStr_lt (by simpa [wfPattern] using hwf))
          simp [encPattern, readPattern, Bind.bind, Dec.bind, readU8, Dec.pure, TAG_PAT_WILDCARD, TAG_PAT_NIL, TAG_PAT_BOOL, TAG_PAT_INT, TAG_PAT_FLOAT, TAG_PAT_STRING, TAG_PAT_IDENT, TAG_PAT_TUPLE, TAG_PAT_LIST, TAG_PAT_SOME, TAG_PAT_OK, TAG_PAT_ERR, TAG_PAT_OR, TAG_PAT_RANGE, TAG_PAT_ENUMVARIANT, TAG_PAT_STRUCT, hs]
  | tupleP ps =>
      cases f with
      | zero => exact absurd hfuel (by simp only [encPattern, List.length_cons]; omega)
      | succ f1 =>
          have hw' := hwf
          simp only [wfPattern, Bool.and_eq_true] at hw'
          obtain ⟨hl0, hwl⟩ := hw'
          have hfl : (encPatternList ps).length ≤ f1 := by
            simp only [encPattern, List.length_cons, List.length_append, encU32,
              natToLe_length] at hfuel
            omega
          have hitems : ∀ x ∈ ps, ∀ r2, readPattern f1 (encPattern x ++ r2) = .ok (x, r2) := by
            intro x hx r2
            have hsx : sizeOf x < n := by
              have h1 : sizeOf x < sizeOf ps := List.sizeOf_lt_of_mem hx
              have h2 : sizeOf (Pattern.tupleP ps) = 1 + sizeOf ps := by simp
              omega
            exact ih (sizeOf x) hsx x (le_refl _) (wfPatternList_mem hwl hx) f1
              (le_trans (encPatternList_mem_le hx) hfl) r2
          have hvec := readVecBy_enc (readPattern f1) encPattern encPatternList rfl
            (fun x l => rfl) ps (wfLen_lt hl0) hitems
          simp [encPattern, readPattern, Bind.bind, Dec.bind, readU8, Dec.pure, TAG_PAT_WILDCARD, TAG_PAT_NIL, TAG_PAT_BOOL, TAG_PAT_INT, TAG_PAT_FLOAT, TAG_PAT_STRING, TAG_PAT_IDENT, TAG_PAT_TUPLE, TAG_PAT_LIST, TAG_PAT_SOME, TAG_PAT_OK, TAG_PAT_ERR, TAG_PAT_OR, TAG_PAT_RANGE, TAG_PAT_ENUMVARIANT, TAG_PAT_STRUCT, hvec]
  | listP ps =>
      cases f with
      | zero => exact absurd hfuel (by simp only [encPattern, List.length_cons]; omega)
      | succ f1 =>
          have hw' := hwf
          simp only [wfPattern, Bool.and_eq_true] at hw'
          obtain ⟨hl0, hwl⟩ := hw'
          have hfl : (encPatternList ps).length ≤ f1 := by
            simp only [encPattern, List.length_cons, List.length_append, encU32,
              natToLe_length] at hfuel
            omega
          have hitems : ∀ x ∈ ps, ∀ r2, readPattern f1 (encPattern x ++ r2) = .ok (x, r2) := by
            intro x hx r2
            have hsx : sizeOf x < n := by
              have h1 : sizeOf x < sizeOf ps := List.sizeOf_lt_of_mem hx
              have h2 : sizeOf (Pattern.listP ps) = 1 + sizeOf ps := by simp
              omega
            exact ih (sizeOf x) hsx x (le_refl _) (wfPatternList_mem hwl hx) f1
              (le_trans (encPatternList_mem_le hx) hfl) r2
          have hvec := readVecBy_enc (readPattern f1) encPattern encPatternList rfl
            (fun x l => rfl) ps (wfLen_lt hl0) hitems
          simp [encPattern, readPattern, Bind.bind, Dec.bind, readU8, Dec.pure, TAG_PAT_WILDCARD, TAG_PAT_NIL, TAG_PAT_BOOL, TAG_PAT_INT, TAG_PAT_FLOAT, TAG_PAT_STRING, TAG_PAT_IDENT, TAG_PAT_TUPLE, TAG_PAT_LIST, TAG_PAT_SOME, TAG_PAT_OK, TAG_PAT_ERR, TAG_PAT_OR, TAG_PAT_RANGE, TAG_PAT_ENUMVARIANT, TAG_PAT_STRUCT, hvec]
  | someP inner =>
      cases f with
      | zero => exact absurd hfuel (by simp only [encPattern, List.length_cons]; omega)
      | succ f1 =>
          have hsz : sizeOf inner < n := by
            have hspec : sizeOf (Pattern.someP inner) = 1 + sizeOf inner := by simp
            omega
          have hwi : wfPattern inner = true := by simpa [wfPattern] using hwf
          have hfi : (encPattern inner).length ≤ f1 := by
            simp only [encPattern, List.length_cons] at hfuel; omega
          have hin : ∀ r2, readPattern f1 (encPattern inner ++ r2) = .ok (inner, r2) :=
            fun r2 => ih (sizeOf inner) hsz inner (le_refl _) hwi f1 hfi r2
          simp [encPattern, readPattern, Bind.bind, Dec.bind, readU8, Dec.pure, TAG_PAT_WILDCARD, TAG_PAT_NIL, TAG_PAT_BOOL, TAG_PAT_INT, TAG_PAT_FLOAT, TAG_PAT_STRING, TAG_PAT_IDENT, TAG_PAT_TUPLE, TAG_PAT_LIST, TAG_PAT_SOME, TAG_PAT_OK, TAG_PAT_ERR, TAG_PAT_OR, TAG_PAT_RANGE, TAG_PAT_ENUMVARIANT, TAG_PAT_STRUCT, hin]
  | okP inner =>
      cases f with
      | zero => exact absurd hfuel (by simp only [encPattern, List.length_cons]; omega)
      | succ f1 =>
          have hsz : sizeOf inner < n := by
            have hspec : sizeOf (Pattern.okP inner) = 1 + sizeOf inner := by simp
            omega
          have hwi : wfPattern inner = true := by simpa [wfPattern] using hwf
          have hfi : (encPattern inner).length ≤ f1 := by
            simp only [encPattern, List.length_cons] at hfuel; omega
          have hin : ∀ r2, readPattern f1 (encPattern inner ++ r2) = .ok (inner, r2) :=
            fun r2 => ih (sizeOf inner) hsz inner (le_refl _) hwi f1 hfi r2
          simp [encPattern, readPattern, Bind.bind, Dec.bind, readU8, Dec.pure, TAG_PAT_WILDCARD, TAG_PAT_NIL, TAG_PAT_BOOL, TAG_PAT_INT, TAG_PAT_FLOAT, TAG_PAT_STRING, TAG_PAT_IDENT, TAG_PAT_TUPLE, TAG_PAT_LIST, TAG_PAT_SOME, TAG_PAT_OK, TAG_PAT_ERR, TAG_PAT_OR, TAG_PAT_RANGE, TAG_PAT_ENUMVARIANT, TAG_PAT_STRUCT, hin]
  | errP inner =>
      cases f with
      | zero => exact absurd hfuel (by simp only [encPattern, List.length_cons]; omega)
      | succ f1 =>
          have hsz : sizeOf inner < n := by
            have hspec : sizeOf (Pattern.errP inner) = 1 + sizeOf inner := by simp
            omega
          have hwi : wfPattern inner = true := by simpa [wfPattern] using hwf
          have hfi : (encPattern inner).length ≤ f1 := by
            simp only [encPattern, List.length_cons] at hfuel; omega
          have hin : ∀ r2, readPattern f1 (encPattern inner ++ r2) = .ok (inner, r2) :=
            fun r2 => ih (sizeOf inner) hsz inner (le_refl _) hwi f1 hfi r2
          simp [encPattern, readPattern, Bind.bind, Dec.bind, readU8, Dec.pure, TAG_PAT_WILDCARD, TAG_PAT_NIL, TAG_PAT_BOOL, TAG_PAT_INT, TAG_PAT_FLOAT, TAG_PAT_STRING, TAG_PAT_IDENT, TAG_PAT_TUPLE, TAG_PAT_LIST, TAG_PAT_SOME, TAG_PAT_OK, TAG_PAT_ERR, TAG_PAT_OR, TAG_PAT_RANGE, TAG_PAT_ENUMVARIANT, TAG_PAT_STRUCT, hin]
  | orP a b =>
      cases f with
      | zero => exact absurd hfuel (by simp only [encPattern, List.length_cons]; omega)
      | succ f1 =>
          have hspec : sizeOf (Pattern.orP a b) = 1 + sizeOf a + sizeOf b := by simp
          have hsa : sizeOf a < n := by omega
          have hsb : sizeOf b < n := by omega
          have hw' := hwf
          simp only [wfPattern, Bool.and_eq_true] at hw'
          have hfa : (encPattern a).length ≤ f1 := by
            simp only [encPattern, List.length_cons, List.length_append] at hfuel; omega
          have hfb : (encPattern b).length ≤ f1 := by
            simp only [encPattern, List.length_cons, List.length_append] at hfuel; omega
          have ha : ∀ r2, readPattern f1 (encPattern a ++ r2) = .ok (a, r2) :=
            fun r2 => ih (sizeOf a) hsa a (le_refl _) hw'.1 f1 hfa r2
          have hb : ∀ r2, readPattern f1 (encPattern b ++ r2) = .ok (b, r2) :=
            fun r2 => ih (sizeOf b) hsb b (le_refl _) hw'.2 f1 hfb r2
          simp [encPattern, readPattern, Bind.bind, Dec.bind, readU8, Dec.pure, TAG_PAT_WILDCARD, TAG_PAT_NIL, TAG_PAT_BOOL, TAG_PAT_INT, TAG_PAT_FLOAT, TAG_PAT_STRING, TAG_PAT_IDENT, TAG_PAT_TUPLE, TAG_PAT_LIST, TAG_PAT_SOME, TAG_PAT_OK, TAG_PAT_ERR, TAG_PAT_OR, TAG_PAT_RANGE, TAG_PAT_ENUMVARIANT, TAG_PAT_STRUCT, ha, hb]
  | rangeP lo hi =>
      cases f with
      | zero => exact absurd hfuel (by simp only [encPattern, List.length_cons]; omega)
      | succ f1 =>
          have hspec : sizeOf (Pattern.rangeP lo hi) = 1 + sizeOf lo + sizeOf hi := by simp
          have hsa : sizeOf lo < n := by omega
          have hsb : sizeOf hi < n := by omega
          have hw' := hwf
          simp only [wfPattern, Bool.and_eq_true] at hw'
          have hfa : (encPattern lo).length ≤ f1 := by
            simp only [encPattern, List.length_cons, List.length_append] at hfuel; omega
          have hfb : (encPattern hi).length ≤ f1 := by
            simp only [encPattern, List.length_cons, List.length_append] at hfuel; omega
          have ha : ∀ r2, readPattern f1 (encPattern lo ++ r2) = .ok (lo, r2) :=
            fun r2 => ih (sizeOf lo) hsa lo (le_refl _) hw'.1 f1 hfa r2
          have hb : ∀ r2, readPattern f1 (encPattern hi ++ r2) = .ok (hi, r2) :=
            fun r2 => ih (sizeOf hi) hsb hi (le_refl _) hw'.2 f1 hfb r2
          simp [encPattern, readPattern, Bind.bind, Dec.bind, readU8, Dec.pure, TAG_PAT_WILDCARD, TAG_PAT_NIL, TAG_PAT_BOOL, TAG_PAT_INT, TAG_PAT_FLOAT, TAG_PAT_STRING, TAG_PAT_IDENT, TAG_PAT_TUPLE, TAG_PAT_LIST, TAG_PAT_SOME, TAG_PAT_OK, TAG_PAT_ERR, TAG_PAT_OR, TAG_PAT_RANGE, TAG_PAT_ENUMVARIANT, TAG_PAT_STRUCT, ha, hb]
  | enumVariant en vn fields =>
      cases f with
      | zero => exact absurd hfuel (by simp only [encPattern, List.length_cons]; omega)
      | succ f1 =>
          have hw' := hwf
          simp only [wfPattern, Bool.and_eq_true] at hw'
          obtain ⟨⟨⟨hen, hvn⟩, hl0⟩, hwl⟩ := hw'
          have h1 := readStr_enc en (wfStr_lt hen)
          have h2 := readStr_enc vn (wfStr_lt hvn)
          have hfl : (encPatternList fields).length ≤ f1 := by
            simp only [encPattern, List.length_cons, List.length_append, encU32,
              natToLe_length, encStr_length] at hfuel
            omega
          have hitems : ∀ x ∈ fields, ∀ r2, readPattern f1 (encPattern x ++ r2) = .ok (x, r2) := by
            intro x hx r2
            have hsx : sizeOf x < n := by
              have hm : sizeOf x < sizeOf fields := List.sizeOf_lt_of_mem hx
              have h2s : sizeOf (Pattern.enumVariant en vn fields) =
                  1 + sizeOf en + sizeOf vn + sizeOf fields := by simp
              omega
            exact ih (sizeOf x) hsx x (le_refl _) (wfPatternList_mem hwl hx) f1
              (le_trans (encPatternList_mem_le hx) hfl) r2
          have hvec := readVecBy_enc (readPattern f1) encPattern encPatternList rfl
            (fun x l => rfl) fields (wfLen_lt hl0) hitems
          simp [encPattern, readPattern, Bind.bind, Dec.bind, readU8, Dec.pure, TAG_PAT_WILDCARD, TAG_PAT_NIL, TAG_PAT_BOOL, TAG_PAT_INT, TAG_PAT_FLOAT, TAG_PAT_STRING, TAG_PAT_IDENT, TAG_PAT_TUPLE, TAG_PAT_LIST, TAG_PAT_SOME, TAG_PAT_OK, TAG_PAT_ERR, TAG_PAT_OR, TAG_PAT_RANGE, TAG_PAT_ENUMVARIANT, TAG_PAT_STRUCT,
            h1, h2, hvec]
  | structP name fields =>
      cases f with
      | zero => exact absurd hfuel (by simp only [encPattern, List.length_cons]; omega)
      | succ f1 =>
          have hw' := hwf
          simp only [wfPattern, Bool.and_eq_true] at hw'
          obtain ⟨⟨hn, hl0⟩, hwl⟩ := hw'
          have h1 := readStr_enc name (wfStr_lt hn)
          have h2 := readU32_enc fields.length (wfLen_lt hl0)
          have hfl : (encPatFieldList fields).length ≤ f1 := by
            simp only [encPattern, List.length_cons, List.length_append, encU32,
              natToLe_length, encStr_length] at hfuel
            omega
          have hnames : ∀ q ∈ fields, wfStr q.1 = true :=
            fun q hq => (wfPatFieldList_mem hwl hq).1
          have hpats : ∀ q ∈ fields, ∀ r2, readPattern f1 (encPattern q.2 ++ r2) = .ok (q.2, r2) := by
            intro q hq r2
            obtain ⟨u, w⟩ := q
            have hm : sizeOf (u, w) < sizeOf fields := List.sizeOf_lt_of_mem hq
            have h2s : sizeOf (Pattern.structP name fields) =
                1 + sizeOf name + sizeOf fields := by simp
            have h3s : sizeOf (u, w) = 1 + sizeOf u + sizeOf w := by simp
            have hsw : sizeOf w < n := by omega
            exact ih (sizeOf w) hsw w (le_refl _) (wfPatFieldList_mem hwl hq).2 f1
              (le_trans (encPatFieldList_mem_le hq) hfl) r2
          have hflds := readPatFields_enc (readPattern f1) fields hnames hpats
          simp [encPattern, readPattern, Bind.bind, Dec.bind, readU8, Dec.pure, TAG_PAT_WILDCARD, TAG_PAT_NIL, TAG_PAT_BOOL, TAG_PAT_INT, TAG_PAT_FLOAT, TAG_PAT_STRING, TAG_PAT_IDENT, TAG_PAT_TUPLE, TAG_PAT_LIST, TAG_PAT_SOME, TAG_PAT_OK, TAG_PAT_ERR, TAG_PAT_OR, TAG_PAT_RANGE, TAG_PAT_ENUMVARIANT, TAG_PAT_STRUCT,
            h1, h2, hflds]


-- ── Round-trip for the expression / statement codec ───────────────────

theorem decRoundAux : ∀ (n : Nat),
    (∀ (e : Expr), sizeOf e ≤ n → wfExpr e = true →
      ∀ (f : Nat), (encExpr e).length ≤ f → ∀ (rest : List Nat),
        readExpr f (encExpr e ++ rest) = .ok (e, rest)) ∧
    (∀ (sp : StringPart), sizeOf sp ≤ n → wfStringPart sp = true →
      ∀ (f : Nat), (encStringPart sp).length ≤ f → ∀ (rest : List Nat),
        readStringPart f (encStringPart sp ++ rest) = .ok (sp, rest)) ∧
    (∀ (a : MatchArm), sizeOf a ≤ n → wfMatchArm a = true →
      ∀ (f : Nat), (encMatchArm a).length ≤ f → ∀ (rest : List Nat),
        readMatchArm f (encMatchArm a ++ rest) = .ok (a, rest)) ∧
    (∀ (p : Param), sizeOf p ≤ n → wfParam p = true →
      ∀ (f : Nat), (encParam p).length ≤ f → ∀ (rest : List Nat),
        readParam f (encParam p ++ rest) = .ok (p, rest)) ∧
    (∀ (s : Stmt), sizeOf s ≤ n → wfStmt s = true →
      ∀ (f : Nat), (encStmt s).length ≤ f → ∀ (rest : List Nat),
        readStmt f (encStmt s ++ rest) = .ok (s, rest)) ∧
    (∀ (fd : FunDef), sizeOf fd ≤ n → wfFunDef fd = true →
      ∀ (f : Nat), (encFunDef fd).length ≤ f → ∀ (rest : List Nat),
        readFunDef f (encFunDef fd ++ rest) = .ok (fd, rest)) ∧
    (∀ (ib : ImplBlock), sizeOf ib ≤ n → wfImplBlock ib = true →
      ∀ (f : Nat), (encImplBlock ib).length ≤ f → ∀ (rest : List Nat),
        readImplBlock f (encImplBlock ib ++ rest) = .ok (ib, rest)) := by
  intro n
  induction n using Nat.strong_induction_on with
  | _ n ih =>
  refine ⟨?_, ?_, ?_, ?_, ?_, ?_, ?_⟩
  intro e hsize hwf f hfuel rest
  cases e with
  | int v =>
      cases f with
      | zero => exact absurd hfuel (by simp only [encExpr, List.length_cons, List.length_append, List.length_nil]; omega)
      | succ f1 =>
          obtain ⟨hb1, hb2⟩ := wfI64_bounds (by simpa [wfExpr] using hwf)
          have hv := readI64_enc v hb1 hb2
          simp [encExpr, readExpr, Bind.bind, Dec.bind, readU8, Dec.pure, TAG_EXPR_INT, TAG_EXPR_FLOAT, TAG_EXPR_BOOL, TAG_EXPR_NIL, TAG_EXPR_STRING, TAG_EXPR_INTERP, TAG_EXPR_VAR, TAG_EXPR_TUPLE, TAG_EXPR_LIST, TAG_EXPR_MAPLIT, TAG_EXPR_BLOCK, TAG_EXPR_BINOP, TAG_EXPR_UNARYOP, TAG_EXPR_CALL, TAG_EXPR_METHODCALL, TAG_EXPR_FIELDACCESS, TAG_EXPR_INDEX, TAG_EXPR_IF, TAG_EXPR_MATCH, TAG_EXPR_CLOSURE, TAG_EXPR_STRUCTCREATE, TAG_EXPR_ENUMVARIANT, TAG_EXPR_RANGE, TAG_EXPR_SOME, TAG_EXPR_OK, TAG_EXPR_ERR, TAG_EXPR_QUESTION, TAG_EXPR_BOX, TAG_EXPR_REF, TAG_EXPR_ASSIGN, TAG_EXPR_AWAIT, hv]
  | float bits =>
      cases f with
      | zero => exact absurd hfuel (by simp only [encExpr, List.length_cons, List.length_append, List.length_nil]; omega)
      | succ f1 =>
          have hv := readF64_enc bits (wfF64_lt (by simpa [wfExpr] using hwf))
          simp [encExpr, readExpr, Bind.bind, Dec.bind, readU8, Dec.pure, TAG_EXPR_INT, TAG_EXPR_FLOAT, TAG_EXPR_BOOL, TAG_EXPR_NIL, TAG_EXPR_STRING, TAG_EXPR_INTERP, TAG_EXPR_VAR, TAG_EXPR_TUPLE, TAG_EXPR_LIST, TAG_EXPR_MAPLIT, TAG_EXPR_BLOCK, TAG_EXPR_BINOP, TAG_EXPR_UNARYOP, TAG_EXPR_CALL, TAG_EXPR_METHODCALL, TAG_EXPR_FIELDACCESS, TAG_EXPR_INDEX, TAG_EXPR_IF, TAG_EXPR_MATCH, TAG_EXPR_CLOSURE, TAG_EXPR_STRUCTCREATE, TAG_EXPR_ENUMVARIANT, TAG_EXPR_RANGE, TAG_EXPR_SOME, TAG_EXPR_OK, TAG_EXPR_ERR, TAG_EXPR_QUESTION, TAG_EXPR_BOX, TAG_EXPR_REF, TAG_EXPR_ASSIGN, TAG_EXPR_AWAIT, hv]
  | bool b =>
      cases f with
      | zero => exact absurd hfuel (by simp only [encExpr, List.length_cons, List.length_append, List.length_nil]; omega)
      | succ f1 =>
          have hb := readBool_enc b
          simp [encExpr, readExpr, Bind.bind, Dec.bind, readU8, Dec.pure, TAG_EXPR_INT, TAG_EXPR_FLOAT, TAG_EXPR_BOOL, TAG_EXPR_NIL, TAG_EXPR_STRING, TAG_EXPR_INTERP, TAG_EXPR_VAR, TAG_EXPR_TUPLE, TAG_EXPR_LIST, TAG_EXPR_MAPLIT, TAG_EXPR_BLOCK, TAG_EXPR_BINOP, TAG_EXPR_UNARYOP, TAG_EXPR_CALL, TAG_EXPR_METHODCALL, TAG_EXPR_FIELDACCESS, TAG_EXPR_INDEX, TAG_EXPR_IF, TAG_EXPR_MATCH, TAG_EXPR_CLOSURE, TAG_EXPR_STRUCTCREATE, TAG_EXPR_ENUMVARIANT, TAG_EXPR_RANGE, TAG_EXPR_SOME, TAG_EXPR_OK, TAG_EXPR_ERR, TAG_EXPR_QUESTION, TAG_EXPR_BOX, TAG_EXPR_REF, TAG_EXPR_ASSIGN, TAG_EXPR_AWAIT, hb]
  | stringLit s =>
      cases f with
      | zero => exact absurd hfuel (by simp only [encExpr, List.length_cons, List.length_append, List.length_nil]; omega)
      | succ f1 =>
          have hs := readStr_enc s (wfStr_lt (by simpa [wfExpr] using hwf))
          simp [encExpr, readExpr, Bind.bind, Dec.bind, readU8, Dec.pure, TAG_EXPR_INT, TAG_EXPR_FLOAT, TAG_EXPR_BOOL, TAG_EXPR_NIL, TAG_EXPR_STRING, TAG_EXPR_INTERP, TAG_EXPR_VAR, TAG_EXPR_TUPLE, TAG_EXPR_LIST, TAG_EXPR_MAPLIT, TAG_EXPR_BLOCK, TAG_EXPR_BINOP, TAG_EXPR_UNARYOP, TAG_EXPR_CALL, TAG_EXPR_METHODCALL, TAG_EXPR_FIELDACCESS, TAG_EXPR_INDEX, TAG_EXPR_IF, TAG_EXPR_MATCH, TAG_EXPR_CLOSURE, TAG_EXPR_STRUCTCREATE, TAG_EXPR_ENUMVARIANT, TAG_EXPR_RANGE, TAG_EXPR_SOME, TAG_EXPR_OK, TAG_EXPR_ERR, TAG_EXPR_QUESTION, TAG_EXPR_BOX, TAG_EXPR_REF, TAG_EXPR_ASSIGN, TAG_EXPR_AWAIT, hs]
  | nilE =>
      cases f with
      | zero => exact absurd hfuel (by simp only [encExpr, List.length_cons, List.length_append, List.length_nil]; omega)
      | succ f1 =>
          simp [encExpr, readExpr, Bind.bind, Dec.bind, readU8, Dec.pure, TAG_EXPR_INT, TAG_EXPR_FLOAT, TAG_EXPR_BOOL, TAG_EXPR_NIL, TAG_EXPR_STRING, TAG_EXPR_INTERP, TAG_EXPR_VAR, TAG_EXPR_TUPLE, TAG_EXPR_LIST, TAG_EXPR_MAPLIT, TAG_EXPR_BLOCK, TAG_EXPR_BINOP, TAG_EXPR_UNARYOP, TAG_EXPR_CALL, TAG_EXPR_METHODCALL, TAG_EXPR_FIELDACCESS, TAG_EXPR_INDEX, TAG_EXPR_IF, TAG_EXPR_MATCH, TAG_EXPR_CLOSURE, TAG_EXPR_STRUCTCREATE, TAG_EXPR_ENUMVARIANT, TAG_EXPR_RANGE, TAG_EXPR_SOME, TAG_EXPR_OK, TAG_EXPR_ERR, TAG_EXPR_QUESTION, TAG_EXPR_BOX, TAG_EXPR_REF, TAG_EXPR_ASSIGN, TAG_EXPR_AWAIT]
  | interp parts =>
      cases f with
      | zero => exact absurd hfuel (by simp only [encExpr, List.length_cons, List.length_append, List.length_nil]; omega)
      | succ f1 =>
          have hw' := hwf
          simp only [wfExpr, Bool.and_eq_true] at hw'
          obtain ⟨hl0, hwl⟩ := hw'
          have hfu := hfuel
          simp only [encExpr, List.length_cons, List.length_append, List.length_nil, encStr_length, encU32, natToLe_length,
            encBool] at hfu
          have hfl_parts : (encStringPartList parts).length ≤ f1 := by omega
          have hitems_parts : ∀ x ∈ parts, ∀ r2, readStringPart f1 (encStringPart x ++ r2) = .ok (x, r2) := by
            intro x hx r2
            have h1m : sizeOf x < sizeOf parts := List.sizeOf_lt_of_mem hx
            have h2m : sizeOf (Expr.interp parts) = 1 + sizeOf parts := by simp
            have hsx : sizeOf x < n := by omega
            exact (ih (sizeOf x) hsx).2.1 x (le_refl _) (wfStringPartList_mem hwl hx) f1
              (le_trans (encStringPartList_mem_le hx) hfl_parts) r2
          have hvec_parts := readVecBy_enc (readStringPart f1) encStringPart encStringPartList rfl
            (fun x l => rfl) parts (wfLen_lt hl0) hitems_parts
          simp [encExpr, readExpr, Bind.bind, Dec.bind, readU8, Dec.pure, TAG_EXPR_INT, TAG_EXPR_FLOAT, TAG_EXPR_BOOL, TAG_EXPR_NIL, TAG_EXPR_STRING, TAG_EXPR_INTERP, TAG_EXPR_VAR, TAG_EXPR_TUPLE, TAG_EXPR_LIST, TAG_EXPR_MAPLIT, TAG_EXPR_BLOCK, TAG_EXPR_BINOP, TAG_EXPR_UNARYOP, TAG_EXPR_CALL, TAG_EXPR_METHODCALL, TAG_EXPR_FIELDACCESS, TAG_EXPR_INDEX, TAG_EXPR_IF, TAG_EXPR_MATCH, TAG_EXPR_CLOSURE, TAG_EXPR_STRUCTCREATE, TAG_EXPR_ENUMVARIANT, TAG_EXPR_RANGE, TAG_EXPR_SOME, TAG_EXPR_OK, TAG_EXPR_ERR, TAG_EXPR_QUESTION, TAG_EXPR_BOX, TAG_EXPR_REF, TAG_EXPR_ASSIGN, TAG_EXPR_AWAIT, hvec_parts]
  | var s =>
      cases f with
      | zero => exact absurd hfuel (by simp only [encExpr, List.length_cons, List.length_append, List.length_nil]; omega)
      | succ f1 =>
          have hs := readStr_enc s (wfStr_lt (by simpa [wfExpr] using hwf))
          simp [encExpr, readExpr, Bind.bind, Dec.bind, readU8, Dec.pure, TAG_EXPR_INT, TAG_EXPR_FLOAT, TAG_EXPR_BOOL, TAG_EXPR_NIL, TAG_EXPR_STRING, TAG_EXPR_INTERP, TAG_EXPR_VAR, TAG_EXPR_TUPLE, TAG_EXPR_LIST, TAG_EXPR_MAPLIT, TAG_EXPR_BLOCK, TAG_EXPR_BINOP, TAG_EXPR_UNARYOP, TAG_EXPR_CALL, TAG_EXPR_METHODCALL, TAG_EXPR_FIELDACCESS, TAG_EXPR_INDEX, TAG_EXPR_IF, TAG_EXPR_MATCH, TAG_EXPR_CLOSURE, TAG_EXPR_STRUCTCREATE, TAG_EXPR_ENUMVARIANT, TAG_EXPR_RANGE, TAG_EXPR_SOME, TAG_EXPR_OK, TAG_EXPR_ERR, TAG_EXPR_QUESTION, TAG_EXPR_BOX, TAG_EXPR_REF, TAG_EXPR_ASSIGN, TAG_EXPR_AWAIT, hs]
  | tuple elems =>
      cases f with
      | zero => exact absurd hfuel (by simp only [encExpr, List.length_cons, List.length_append, List.length_nil]; omega)
      | succ f1 =>
          have hw' := hwf
          simp only [wfExpr, Bool.and_eq_true] at hw'
          obtain ⟨hl0, hwl⟩ := hw'
          have hfu := hfuel
          simp only [encExpr, List.length_cons, List.length_append, List.length_nil, encStr_length, encU32, natToLe_length,
            encBool] at hfu
          have hfl_elems : (encExprList elems).length ≤ f1 := by omega
          have hitems_elems : ∀ x ∈ elems, ∀ r2, readExpr f1 (encExpr x ++ r2) = .ok (x, r2) := by
            intro x hx r2
            have h1m : sizeOf x < sizeOf elems := List.sizeOf_lt_of_mem hx
            have h2m : sizeOf (Expr.tuple elems) = 1 + sizeOf elems := by simp
            have hsx : sizeOf x < n := by omega
            exact (ih (sizeOf x) hsx).1 x (le_refl _) (wfExprList_mem hwl hx) f1
              (le_trans (encExprList_mem_le hx) hfl_elems) r2
          have hvec_elems := readVecBy_enc (readExpr f1) encExpr encExprList rfl
            (fun x l => rfl) elems (wfLen_lt hl0) hitems_elems
          simp [encExpr, readExpr, Bind.bind, Dec.bind, readU8, Dec.pure, TAG_EXPR_INT, TAG_EXPR_FLOAT, TAG_EXPR_BOOL, TAG_EXPR_NIL, TAG_EXPR_STRING, TAG_EXPR_INTERP, TAG_EXPR_VAR, TAG_EXPR_TUPLE, TAG_EXPR_LIST, TAG_EXPR_MAPLIT, TAG_EXPR_BLOCK, TAG_EXPR_BINOP, TAG_EXPR_UNARYOP, TAG_EXPR_CALL, TAG_EXPR_METHODCALL, TAG_EXPR_FIELDACCESS, TAG_EXPR_INDEX, TAG_EXPR_IF, TAG_EXPR_MATCH, TAG_EXPR_CLOSURE, TAG_EXPR_STRUCTCREATE, TAG_EXPR_ENUMVARIANT, TAG_EXPR_RANGE, TAG_EXPR_SOME, TAG_EXPR_OK, TAG_EXPR_ERR, TAG_EXPR_QUESTION, TAG_EXPR_BOX, TAG_EXPR_REF, TAG_EXPR_ASSIGN, TAG_EXPR_AWAIT, hvec_elems]
  | list elems =>
      cases f with
      | zero => exact absurd hfuel (by simp only [encExpr, List.length_cons, List.length_append, List.length_nil]; omega)
      | succ f1 =>
          have hw' := hwf
          simp only [wfExpr, Bool.and_eq_true] at hw'
          obtain ⟨hl0, hwl⟩ := hw'
          have hfu := hfuel
          simp only [encExpr, List.length_cons, List.length_append, List.length_nil, encStr_length, encU32, natToLe_length,
            encBool] at hfu
          have hfl_elems : (encExprList elems).length ≤ f1 := by omega
          have hitems_elems : ∀ x ∈ elems, ∀ r2, readExpr f1 (encExpr x ++ r2) = .ok (x, r2) := by
            intro x hx r2
            have h1m : sizeOf x < sizeOf elems := List.sizeOf_lt_of_mem hx
            have h2m : sizeOf (Expr.list elems) = 1 + sizeOf elems := by simp
            have hsx : sizeOf x < n := by omega
            exact (ih (sizeOf x) hsx).1 x (le_refl _) (wfExprList_mem hwl hx) f1
              (le_trans (encExprList_mem_le hx) hfl_elems) r2
          have hvec_elems := readVecBy_enc (readExpr f1) encExpr encExprList rfl
            (fun x l => rfl) elems (wfLen_lt hl0) hitems_elems
          simp [encExpr, readExpr, Bind.bind, Dec.bind, readU8, Dec.pure, TAG_EXPR_INT, TAG_EXPR_FLOAT, TAG_EXPR_BOOL, TAG_EXPR_NIL, TAG_EXPR_STRING, TAG_EXPR_INTERP, TAG_EXPR_VAR, TAG_EXPR_TUPLE, TAG_EXPR_LIST, TAG_EXPR_MAPLIT, TAG_EXPR_BLOCK, TAG_EXPR_BINOP, TAG_EXPR_UNARYOP, TAG_EXPR_CALL, TAG_EXPR_METHODCALL, TAG_EXPR_FIELDACCESS, TAG_EXPR_INDEX, TAG_EXPR_IF, TAG_EXPR_MATCH, TAG_EXPR_CLOSURE, TAG_EXPR_STRUCTCREATE, TAG_EXPR_ENUMVARIANT, TAG_EXPR_RANGE, TAG_EXPR_SOME, TAG_EXPR_OK, TAG_EXPR_ERR, TAG_EXPR_QUESTION, TAG_EXPR_BOX, TAG_EXPR_REF, TAG_EXPR_ASSIGN, TAG_EXPR_AWAIT, hvec_elems]
  | mapLit pairs =>
      cases f with
      | zero => exact absurd hfuel (by simp only [encExpr, List.length_cons, List.length_append, List.length_nil]; omega)
      | succ f1 =>
          have hw' := hwf
          simp only [wfExpr, Bool.and_eq_true] at hw'
          obtain ⟨hl0, hwp⟩ := hw'
          have hfu := hfuel
          simp only [encExpr, List.length_cons, List.length_append, List.length_nil, encStr_length, encU32, natToLe_length,
            encBool] at hfu
          have hfl_pairs : (encExprPairList pairs).length ≤ f1 := by omega
          have hfa_pairs : ∀ q ∈ pairs, ∀ r2, readExpr f1 (encExpr q.1 ++ r2) = .ok (q.1, r2) := by
            intro q hq r2
            obtain ⟨u, w⟩ := q
            have h1m : sizeOf (u, w) < sizeOf pairs := List.sizeOf_lt_of_mem hq
            have h2m : sizeOf (Expr.mapLit pairs) = 1 + sizeOf pairs := by simp
            have h3m : sizeOf (u, w) = 1 + sizeOf u + sizeOf w := by simp
            have hs_u : sizeOf u < n := by omega
            exact (ih (sizeOf u) hs_u).1 u (le_refl _) (wfExprPairList_mem hwp hq).1 f1
              (le_trans (encExprPairList_mem_le hq).1 hfl_pairs) r2
          have hfb_pairs : ∀ q ∈ pairs, ∀ r2, readExpr f1 (encExpr q.2 ++ r2) = .ok (q.2, r2) := by
            intro q hq r2
            obtain ⟨u, w⟩ := q
            have h1m : sizeOf (u, w) < sizeOf pairs := List.sizeOf_lt_of_mem hq
            have h2m : sizeOf (Expr.mapLit pairs) = 1 + sizeOf pairs := by simp
            have h3m : sizeOf (u, w) = 1 + sizeOf u + sizeOf w := by simp
            have hs_w : sizeOf w < n := by omega
            exact (ih (sizeOf w) hs_w).1 w (le_refl _) (wfExprPairList_mem hwp hq).2 f1
              (le_trans (encExprPairList_mem_le hq).2 hfl_pairs) r2
          have hpp_pairs := readPairs_enc (readExpr f1) (readExpr f1) encExpr encExpr
            encExprPairList rfl (fun a b l => by simp [encExprPairList]) pairs hfa_pairs hfb_pairs
          have hcnt_pairs := readU32_enc pairs.length (wfLen_lt hl0)
          simp [encExpr, readExpr, Bind.bind, Dec.bind, readU8, Dec.pure, TAG_EXPR_INT, TAG_EXPR_FLOAT, TAG_EXPR_BOOL, TAG_EXPR_NIL, TAG_EXPR_STRING, TAG_EXPR_INTERP, TAG_EXPR_VAR, TAG_EXPR_TUPLE, TAG_EXPR_LIST, TAG_EXPR_MAPLIT, TAG_EXPR_BLOCK, TAG_EXPR_BINOP, TAG_EXPR_UNARYOP, TAG_EXPR_CALL, TAG_EXPR_METHODCALL, TAG_EXPR_FIELDACCESS, TAG_EXPR_INDEX, TAG_EXPR_IF, TAG_EXPR_MATCH, TAG_EXPR_CLOSURE, TAG_EXPR_STRUCTCREATE, TAG_EXPR_ENUMVARIANT, TAG_EXPR_RANGE, TAG_EXPR_SOME, TAG_EXPR_OK, TAG_EXPR_ERR, TAG_EXPR_QUESTION, TAG_EXPR_BOX, TAG_EXPR_REF, TAG_EXPR_ASSIGN, TAG_EXPR_AWAIT, hcnt_pairs, hpp_pairs]
  | block stmts tail =>
      cases f with
      | zero => exact absurd hfuel (by simp only [encExpr, List.length_cons, List.length_append, List.length_nil]; omega)
      | succ f1 =>
          have hw' := hwf
          simp only [wfExpr, Bool.and_eq_true] at hw'
          obtain ⟨⟨hl0, hws⟩, hwt⟩ := hw'
          have hfu := hfuel
          simp only [encExpr, List.length_cons, List.length_append, List.length_nil, encStr_length, encU32, natToLe_length,
            encBool] at hfu
          have hfl_stmts : (encStmtList stmts).length ≤ f1 := by omega
          have hitems_stmts : ∀ x ∈ stmts, ∀ r2, readStmt f1 (encStmt x ++ r2) = .ok (x, r2) := by
            intro x hx r2
            have h1m : sizeOf x < sizeOf stmts := List.sizeOf_lt_of_mem hx
            have h2m : sizeOf (Expr.block stmts tail) = 1 + sizeOf stmts + sizeOf tail := by simp
            have hsx : sizeOf x < n := by omega
            exact (ih (sizeOf x) hsx).2.2.2.2.1 x (le_refl _) (wfStmtList_mem hws hx) f1
              (le_trans (encStmtList_mem_le hx) hfl_stmts) r2
          have hvec_stmts := readVecBy_enc (readStmt f1) encStmt encStmtList rfl
            (fun x l => rfl) stmts (wfLen_lt hl0) hitems_stmts
          have hopt_tail : ∀ r2, readOptBy (readExpr f1) (encOptExpr tail ++ r2) = .ok (tail, r2) := by
            refine readOptExpr_enc (readExpr f1) tail ?_
            intro e1 he1 r2
            subst he1
            have hw1 : wfExpr e1 = true := by simpa [wfOptExpr] using hwt
            have h2m : sizeOf (some e1 : Option Expr) = 1 + sizeOf e1 := by simp
            have h1m : sizeOf (Expr.block stmts (some e1)) = 1 + sizeOf stmts + sizeOf (some e1) := by simp
            have hs1 : sizeOf e1 < n := by omega
            simp only [encOptExpr, List.length_cons] at hfu
            have hf1 : (encExpr e1).length ≤ f1 := by omega
            exact (ih (sizeOf e1) hs1).1 e1 (le_refl _) hw1 f1 hf1 r2
          simp [encExpr, readExpr, Bind.bind, Dec.bind, readU8, Dec.pure, TAG_EXPR_INT, TAG_EXPR_FLOAT, TAG_EXPR_BOOL, TAG_EXPR_NIL, TAG_EXPR_STRING, TAG_EXPR_INTERP, TAG_EXPR_VAR, TAG_EXPR_TUPLE, TAG_EXPR_LIST, TAG_EXPR_MAPLIT, TAG_EXPR_BLOCK, TAG_EXPR_BINOP, TAG_EXPR_UNARYOP, TAG_EXPR_CALL, TAG_EXPR_METHODCALL, TAG_EXPR_FIELDACCESS, TAG_EXPR_INDEX, TAG_EXPR_IF, TAG_EXPR_MATCH, TAG_EXPR_CLOSURE, TAG_EXPR_STRUCTCREATE, TAG_EXPR_ENUMVARIANT, TAG_EXPR_RANGE, TAG_EXPR_SOME, TAG_EXPR_OK, TAG_EXPR_ERR, TAG_EXPR_QUESTION, TAG_EXPR_BOX, TAG_EXPR_REF, TAG_EXPR_ASSIGN, TAG_EXPR_AWAIT, hvec_stmts, hopt_tail]
  | binOp l op r =>
      cases f with
      | zero => exact absurd hfuel (by simp only [encExpr, List.length_cons, List.length_append, List.length_nil]; omega)
      | succ f1 =>
          have hw' := hwf
          simp only [wfExpr, Bool.and_eq_true] at hw'
          obtain ⟨hwl, hwr⟩ := hw'
          have hfu := hfuel
          simp only [encExpr, List.length_cons, List.length_append, List.length_nil, encStr_length, encU32, natToLe_length,
            encBool] at hfu
          have hs_l : sizeOf l < n := by
            have hsp : sizeOf (Expr.binOp l op r) = 1 + sizeOf l + sizeOf op + sizeOf r := by simp
            omega
          have hf_l : (encExpr l).length ≤ f1 := by omega
          have h_l : ∀ r2, readExpr f1 (encExpr l ++ r2) = .ok (l, r2) :=
            fun r2 => (ih (sizeOf l) hs_l).1 l (le_refl _) hwl f1 hf_l r2
          have hs_r : sizeOf r < n := by
            have hsp : sizeOf (Expr.binOp l op r) = 1 + sizeOf l + sizeOf op + sizeOf r := by simp
            omega
          have hf_r : (encExpr r).length ≤ f1 := by omega
          have h_r : ∀ r2, readExpr f1 (encExpr r ++ r2) = .ok (r, r2) :=
            fun r2 => (ih (sizeOf r) hs_r).1 r (le_refl _) hwr f1 hf_r r2
          have hop := readBinOp_enc op
          simp [encExpr, readExpr, Bind.bind, Dec.bind, readU8, Dec.pure, TAG_EXPR_INT, TAG_EXPR_FLOAT, TAG_EXPR_BOOL, TAG_EXPR_NIL, TAG_EXPR_STRING, TAG_EXPR_INTERP, TAG_EXPR_VAR, TAG_EXPR_TUPLE, TAG_EXPR_LIST, TAG_EXPR_MAPLIT, TAG_EXPR_BLOCK, TAG_EXPR_BINOP, TAG_EXPR_UNARYOP, TAG_EXPR_CALL, TAG_EXPR_METHODCALL, TAG_EXPR_FIELDACCESS, TAG_EXPR_INDEX, TAG_EXPR_IF, TAG_EXPR_MATCH, TAG_EXPR_CLOSURE, TAG_EXPR_STRUCTCREATE, TAG_EXPR_ENUMVARIANT, TAG_EXPR_RANGE, TAG_EXPR_SOME, TAG_EXPR_OK, TAG_EXPR_ERR, TAG_EXPR_QUESTION, TAG_EXPR_BOX, TAG_EXPR_REF, TAG_EXPR_ASSIGN, TAG_EXPR_AWAIT, h_l, hop, h_r]
  | unaryOp op e =>
      cases f with
      | zero => exact absurd hfuel (by simp only [encExpr, List.length_cons, List.length_append, List.length_nil]; omega)
      | succ f1 =>
          have hwe : wfExpr e = true := by simpa [wfExpr] using hwf
          have hfu := hfuel
          simp only [encExpr, List.length_cons, List.length_append, List.length_nil, encStr_length, encU32, natToLe_length,
            encBool] at hfu
          have hs_e : sizeOf e < n := by
            have hsp : sizeOf (Expr.unaryOp op e) = 1 + sizeOf op + sizeOf e := by simp
            omega
          have hf_e : (encExpr e).length ≤ f1 := by omega
          have h_e : ∀ r2, readExpr f1 (encExpr e ++ r2) = .ok (e, r2) :=
            fun r2 => (ih (sizeOf e) hs_e).1 e (le_refl _) hwe f1 hf_e r2
          have hop := readUnaryOp_enc op
          simp [encExpr, readExpr, Bind.bind, Dec.bind, readU8, Dec.pure, TAG_EXPR_INT, TAG_EXPR_FLOAT, TAG_EXPR_BOOL, TAG_EXPR_NIL, TAG_EXPR_STRING, TAG_EXPR_INTERP, TAG_EXPR_VAR, TAG_EXPR_TUPLE, TAG_EXPR_LIST, TAG_EXPR_MAPLIT, TAG_EXPR_BLOCK, TAG_EXPR_BINOP, TAG_EXPR_UNARYOP, TAG_EXPR_CALL, TAG_EXPR_METHODCALL, TAG_EXPR_FIELDACCESS, TAG_EXPR_INDEX, TAG_EXPR_IF, TAG_EXPR_MATCH, TAG_EXPR_CLOSURE, TAG_EXPR_STRUCTCREATE, TAG_EXPR_ENUMVARIANT, TAG_EXPR_RANGE, TAG_EXPR_SOME, TAG_EXPR_OK, TAG_EXPR_ERR, TAG_EXPR_QUESTION, TAG_EXPR_BOX, TAG_EXPR_REF, TAG_EXPR_ASSIGN, TAG_EXPR_AWAIT, hop, h_e]
  | call callee args =>
      cases f with
      | zero => exact absurd hfuel (by simp only [encExpr, List.length_cons, List.length_append, List.length_nil]; omega)
      | succ f1 =>
          have hw' := hwf
          simp only [wfExpr, Bool.and_eq_true] at hw'
          obtain ⟨⟨hwc, hl0⟩, hwl⟩ := hw'
          have hfu := hfuel
          simp only [encExpr, List.length_cons, List.length_append, List.length_nil, encStr_length, encU32, natToLe_length,
            encBool] at hfu
          have hs_callee : sizeOf callee < n := by
            have hsp : sizeOf (Expr.call callee args) = 1 + sizeOf callee + sizeOf args := by simp
            omega
          have hf_callee : (encExpr callee).length ≤ f1 := by omega
          have h_callee : ∀ r2, readExpr f1 (encExpr callee ++ r2) = .ok (callee, r2) :=
            fun r2 => (ih (sizeOf callee) hs_callee).1 callee (le_refl _) hwc f1 hf_callee r2
          have hfl_args : (encExprList args).length ≤ f1 := by omega
          have hitems_args : ∀ x ∈ args, ∀ r2, readExpr f1 (encExpr x ++ r2) = .ok (x, r2) := by
            intro x hx r2
            have h1m : sizeOf x < sizeOf args := List.sizeOf_lt_of_mem hx
            have h2m : sizeOf (Expr.call callee args) = 1 + sizeOf callee + sizeOf args := by simp
            have hsx : sizeOf x < n := by omega
            exact (ih (sizeOf x) hsx).1 x (le_refl _) (wfExprList_mem hwl hx) f1
              (le_trans (encExprList_mem_le hx) hfl_args) r2
          have hvec_args := readVecBy_enc (readExpr f1) encExpr encExprList rfl
            (fun x l => rfl) args (wfLen_lt hl0) hitems_args
          simp [encExpr, readExpr, Bind.bind, Dec.bind, readU8, Dec.pure, TAG_EXPR_INT, TAG_EXPR_FLOAT, TAG_EXPR_BOOL, TAG_EXPR_NIL, TAG_EXPR_STRING, TAG_EXPR_INTERP, TAG_EXPR_VAR, TAG_EXPR_TUPLE, TAG_EXPR_LIST, TAG_EXPR_MAPLIT, TAG_EXPR_BLOCK, TAG_EXPR_BINOP, TAG_EXPR_UNARYOP, TAG_EXPR_CALL, TAG_EXPR_METHODCALL, TAG_EXPR_FIELDACCESS, TAG_EXPR_INDEX, TAG_EXPR_IF, TAG_EXPR_MATCH, TAG_EXPR_CLOSURE, TAG_EXPR_STRUCTCREATE, TAG_EXPR_ENUMVARIANT, TAG_EXPR_RANGE, TAG_EXPR_SOME, TAG_EXPR_OK, TAG_EXPR_ERR, TAG_EXPR_QUESTION, TAG_EXPR_BOX, TAG_EXPR_REF, TAG_EXPR_ASSIGN, TAG_EXPR_AWAIT, h_callee, hvec_args]
  | methodCall obj m args =>
      cases f with
      | zero => exact absurd hfuel (by simp only [encExpr, List.length_cons, List.length_append, List.length_nil]; omega)
      | succ f1 =>
          have hw' := hwf
          simp only [wfExpr, Bool.and_eq_true] at hw'
          obtain ⟨⟨⟨hwo, hwm⟩, hl0⟩, hwl⟩ := hw'
          have hfu := hfuel
          simp only [encExpr, List.length_cons, List.length_append, List.length_nil, encStr_length, encU32, natToLe_length,
            encBool] at hfu
          have hs_obj : sizeOf obj < n := by
            have hsp : sizeOf (Expr.methodCall obj m args) = 1 + sizeOf obj + sizeOf m + sizeOf args := by simp
            omega
          have hf_obj : (encExpr obj).length ≤ f1 := by omega
          have h_obj : ∀ r2, readExpr f1 (encExpr obj ++ r2) = .ok (obj, r2) :=
            fun r2 => (ih (sizeOf obj) hs_obj).1 obj (le_refl _) hwo f1 hf_obj r2
          have hm := readStr_enc m (wfStr_lt hwm)
          have hfl_args : (encExprList args).length ≤ f1 := by omega
          have hitems_args : ∀ x ∈ args, ∀ r2, readExpr f1 (encExpr x ++ r2) = .ok (x, r2) := by
            intro x hx r2
            have h1m : sizeOf x < sizeOf args := List.sizeOf_lt_of_mem hx
            have h2m : sizeOf (Expr.methodCall obj m args) = 1 + sizeOf obj + sizeOf m + sizeOf args := by simp
            have hsx : sizeOf x < n := by omega
            exact (ih (sizeOf x) hsx).1 x (le_refl _) (wfExprList_mem hwl hx) f1
              (le_trans (encExprList_mem_le hx) hfl_args) r2
          have hvec_args := readVecBy_enc (readExpr f1) encExpr encExprList rfl
            (fun x l => rfl) args (wfLen_lt hl0) hitems_args
          simp [encExpr, readExpr, Bind.bind, Dec.bind, readU8, Dec.pure, TAG_EXPR_INT, TAG_EXPR_FLOAT, TAG_EXPR_BOOL, TAG_EXPR_NIL, TAG_EXPR_STRING, TAG_EXPR_INTERP, TAG_EXPR_VAR, TAG_EXPR_TUPLE, TAG_EXPR_LIST, TAG_EXPR_MAPLIT, TAG_EXPR_BLOCK, TAG_EXPR_BINOP, TAG_EXPR_UNARYOP, TAG_EXPR_CALL, TAG_EXPR_METHODCALL, TAG_EXPR_FIELDACCESS, TAG_EXPR_INDEX, TAG_EXPR_IF, TAG_EXPR_MATCH, TAG_EXPR_CLOSURE, TAG_EXPR_STRUCTCREATE, TAG_EXPR_ENUMVARIANT, TAG_EXPR_RANGE, TAG_EXPR_SOME, TAG_EXPR_OK, TAG_EXPR_ERR, TAG_EXPR_QUESTION, TAG_EXPR_BOX, TAG_EXPR_REF, TAG_EXPR_ASSIGN, TAG_EXPR_AWAIT, h_obj, hm, hvec_args]
  | fieldAccess obj fld =>
      cases f with
      | zero => exact absurd hfuel (by simp only [encExpr, List.length_cons, List.length_append, List.length_nil]; omega)
      | succ f1 =>
          have hw' := hwf
          simp only [wfExpr, Bool.and_eq_true] at hw'
          obtain ⟨hwo, hwn⟩ := hw'
          have hfu := hfuel
          simp only [encExpr, List.length_cons, List.length_append, List.length_nil, encStr_length, encU32, natToLe_length,
            encBool] at hfu
          have hs_obj : sizeOf obj < n := by
            have hsp : sizeOf (Expr.fieldAccess obj fld) = 1 + sizeOf obj + sizeOf fld := by simp
            omega
          have hf_obj : (encExpr obj).length ≤ f1 := by omega
          have h_obj : ∀ r2, readExpr f1 (encExpr obj ++ r2) = .ok (obj, r2) :=
            fun r2 => (ih (sizeOf obj) hs_obj).1 obj (le_refl _) hwo f1 hf_obj r2
          have hn := readStr_enc fld (wfStr_lt hwn)
          simp [encExpr, readExpr, Bind.bind, Dec.bind, readU8, Dec.pure, TAG_EXPR_INT, TAG_EXPR_FLOAT, TAG_EXPR_BOOL, TAG_EXPR_NIL, TAG_EXPR_STRING, TAG_EXPR_INTERP, TAG_EXPR_VAR, TAG_EXPR_TUPLE, TAG_EXPR_LIST, TAG_EXPR_MAPLIT, TAG_EXPR_BLOCK, TAG_EXPR_BINOP, TAG_EXPR_UNARYOP, TAG_EXPR_CALL, TAG_EXPR_METHODCALL, TAG_EXPR_FIELDACCESS, TAG_EXPR_INDEX, TAG_EXPR_IF, TAG_EXPR_MATCH, TAG_EXPR_CLOSURE, TAG_EXPR_STRUCTCREATE, TAG_EXPR_ENUMVARIANT, TAG_EXPR_RANGE, TAG_EXPR_SOME, TAG_EXPR_OK, TAG_EXPR_ERR, TAG_EXPR_QUESTION, TAG_EXPR_BOX, TAG_EXPR_REF, TAG_EXPR_ASSIGN, TAG_EXPR_AWAIT, h_obj, hn]
  | index obj idx =>
      cases f with
      | zero => exact absurd hfuel (by simp only [encExpr, List.length_cons, List.length_append, List.length_nil]; omega)
      | succ f1 =>
          have hw' := hwf
          simp only [wfExpr, Bool.and_eq_true] at hw'
          obtain ⟨hwo, hwi⟩ := hw'
          have hfu := hfuel
          simp only [encExpr, List.length_cons, List.length_append, List.length_nil, encStr_length, encU32, natToLe_length,
            encBool] at hfu
          have hs_obj : sizeOf obj < n := by
            have hsp : sizeOf (Expr.index obj idx) = 1 + sizeOf obj + sizeOf idx := by simp
            omega
          have hf_obj : (encExpr obj).length ≤ f1 := by omega
          have h_obj : ∀ r2, readExpr f1 (encExpr obj ++ r2) = .ok (obj, r2) :=
            fun r2 => (ih (sizeOf obj) hs_obj).1 obj (le_refl _) hwo f1 hf_obj r2
          have hs_idx : sizeOf idx < n := by
            have hsp : sizeOf (Expr.index obj idx) = 1 + sizeOf obj + sizeOf idx := by simp
            omega
          have hf_idx : (encExpr idx).length ≤ f1 := by omega
          have h_idx : ∀ r2, readExpr f1 (encExpr idx ++ r2) = .ok (idx, r2) :=
            fun r2 => (ih (sizeOf idx) hs_idx).1 idx (le_refl _) hwi f1 hf_idx r2
          simp [encExpr, readExpr, Bind.bind, Dec.bind, readU8, Dec.pure, TAG_EXPR_INT, TAG_EXPR_FLOAT, TAG_EXPR_BOOL, TAG_EXPR_NIL, TAG_EXPR_STRING, TAG_EXPR_INTERP, TAG_EXPR_VAR, TAG_EXPR_TUPLE, TAG_EXPR_LIST, TAG_EXPR_MAPLIT, TAG_EXPR_BLOCK, TAG_EXPR_BINOP, TAG_EXPR_UNARYOP, TAG_EXPR_CALL, TAG_EXPR_METHODCALL, TAG_EXPR_FIELDACCESS, TAG_EXPR_INDEX, TAG_EXPR_IF, TAG_EXPR_MATCH, TAG_EXPR_CLOSURE, TAG_EXPR_STRUCTCREATE, TAG_EXPR_ENUMVARIANT, TAG_EXPR_RANGE, TAG_EXPR_SOME, TAG_EXPR_OK, TAG_EXPR_ERR, TAG_EXPR_QUESTION, TAG_EXPR_BOX, TAG_EXPR_REF, TAG_EXPR_ASSIGN, TAG_EXPR_AWAIT, h_obj, h_idx]
  | ifE cond thenB elifs els =>
      cases f with
      | zero => exact absurd hfuel (by simp only [encExpr, List.length_cons, List.length_append, List.length_nil]; omega)
      | succ f1 =>
          have hw' := hwf
          simp only [wfExpr, Bool.and_eq_true] at hw'
          obtain ⟨⟨⟨⟨hwc, hwt2⟩, hl0⟩, hwp⟩, hwe⟩ := hw'
          have hfu := hfuel
          simp only [encExpr, List.length_cons, List.length_append, List.length_nil, encStr_length, encU32, natToLe_length,
            encBool] at hfu
          have hs_cond : sizeOf cond < n := by
            have hsp : sizeOf (Expr.ifE cond thenB elifs els) = 1 + sizeOf cond + sizeOf thenB + sizeOf elifs + sizeOf els := by simp
            omega
          have hf_cond : (encExpr cond).length ≤ f1 := by omega
          have h_cond : ∀ r2, readExpr f1 (encExpr cond ++ r2) = .ok (cond, r2) :=
            fun r2 => (ih (sizeOf cond) hs_cond).1 cond (le_refl _) hwc f1 hf_cond r2
          have hs_thenB : sizeOf thenB < n := by
            have hsp : sizeOf (Expr.ifE cond thenB elifs els) = 1 + sizeOf cond + sizeOf thenB + sizeOf elifs + sizeOf els := by simp
            omega
          have hf_thenB : (encExpr thenB).length ≤ f1 := by omega
          have h_thenB : ∀ r2, readExpr f1 (encExpr thenB ++ r2) = .ok (thenB, r2) :=
            fun r2 => (ih (sizeOf thenB) hs_thenB).1 thenB (le_refl _) hwt2 f1 hf_thenB r2
          have hfl_elifs : (encExprPairList elifs).length ≤ f1 := by omega
          have hfa_elifs : ∀ q ∈ elifs, ∀ r2, readExpr f1 (encExpr q.1 ++ r2) = .ok (q.1, r2) := by
            intro q hq r2
            obtain ⟨u, w⟩ := q
            have h1m : sizeOf (u, w) < sizeOf elifs := List.sizeOf_lt_of_mem hq
            have h2m : sizeOf (Expr.ifE cond thenB elifs els) = 1 + sizeOf cond + sizeOf thenB + sizeOf elifs + sizeOf els := by simp
            have h3m : sizeOf (u, w) = 1 + sizeOf u + sizeOf w := by simp
            have hs_u : sizeOf u < n := by omega
            exact (ih (sizeOf u) hs_u).1 u (le_refl _) (wfExprPairList_mem hwp hq).1 f1
              (le_trans (encExprPairList_mem_le hq).1 hfl_elifs) r2
          have hfb_elifs : ∀ q ∈ elifs, ∀ r2, readExpr f1 (encExpr q.2 ++ r2) = .ok (q.2, r2) := by
            intro q hq r2
            obtain ⟨u, w⟩ := q
            have h1m : sizeOf (u, w) < sizeOf elifs := List.sizeOf_lt_of_mem hq
            have h2m : sizeOf (Expr.ifE cond thenB elifs els) = 1 + sizeOf cond + sizeOf thenB + sizeOf elifs + sizeOf els := by simp
            have h3m : sizeOf (u, w) = 1 + sizeOf u + sizeOf w := by simp
            have hs_w : sizeOf w < n := by omega
            exact (ih (sizeOf w) hs_w).1 w (le_refl _) (wfExprPairList_mem hwp hq).2 f1
              (le_trans (encExprPairList_mem_le hq).2 hfl_elifs) r2
          have hpp_elifs := readPairs_enc (readExpr f1) (readExpr f1) encExpr encExpr
            encExprPairList rfl (fun a b l => by simp [encExprPairList]) elifs hfa_elifs hfb_elifs
          have hcnt_elifs := readU32_enc elifs.length (wfLen_lt hl0)
          have hopt_els : ∀ r2, readOptBy (readExpr f1) (encOptExpr els ++ r2) = .ok (els, r2) := by
            refine readOptExpr_enc (readExpr f1) els ?_
            intro e1 he1 r2
            subst he1
            have hw1 : wfExpr e1 = true := by simpa [wfOptExpr] using hwe
            have h2m : sizeOf (some e1 : Option Expr) = 1 + sizeOf e1 := by simp
            have h1m : sizeOf (Expr.ifE cond thenB elifs (some e1)) = 1 + sizeOf cond + sizeOf thenB + sizeOf elifs + sizeOf (some e1) := by simp
            have hs1 : sizeOf e1 < n := by omega
            simp only [encOptExpr, List.length_cons] at hfu
            have hf1 : (encExpr e1).length ≤ f1 := by omega
            exact (ih (sizeOf e1) hs1).1 e1 (le_refl _) hw1 f1 hf1 r2
          simp [encExpr, readExpr, Bind.bind, Dec.bind, readU8, Dec.pure, TAG_EXPR_INT, TAG_EXPR_FLOAT, TAG_EXPR_BOOL, TAG_EXPR_NIL, TAG_EXPR_STRING, TAG_EXPR_INTERP, TAG_EXPR_VAR, TAG_EXPR_TUPLE, TAG_EXPR_LIST, TAG_EXPR_MAPLIT, TAG_EXPR_BLOCK, TAG_EXPR_BINOP, TAG_EXPR_UNARYOP, TAG_EXPR_CALL, TAG_EXPR_METHODCALL, TAG_EXPR_FIELDACCESS, TAG_EXPR_INDEX, TAG_EXPR_IF, TAG_EXPR_MATCH, TAG_EXPR_CLOSURE, TAG_EXPR_STRUCTCREATE, TAG_EXPR_ENUMVARIANT, TAG_EXPR_RANGE, TAG_EXPR_SOME, TAG_EXPR_OK, TAG_EXPR_ERR, TAG_EXPR_QUESTION, TAG_EXPR_BOX, TAG_EXPR_REF, TAG_EXPR_ASSIGN, TAG_EXPR_AWAIT, h_cond, h_thenB, hcnt_elifs, hpp_elifs, hopt_els]
  | matchE subj arms =>
      cases f with
      | zero => exact absurd hfuel (by simp only [encExpr, List.length_cons, List.length_append, List.length_nil]; omega)
      | succ f1 =>
          have hw' := hwf
          simp only [wfExpr, Bool.and_eq_true] at hw'
          obtain ⟨⟨hws, hl0⟩, hwa⟩ := hw'
          have hfu := hfuel
          simp only [encExpr, List.length_cons, List.length_append, List.length_nil, encStr_length, encU32, natToLe_length,
            encBool] at hfu
          have hs_subj : sizeOf subj < n := by
            have hsp : sizeOf (Expr.matchE subj arms) = 1 + sizeOf subj + sizeOf arms := by simp
            omega
          have hf_subj : (encExpr subj).length ≤ f1 := by omega
          have h_subj : ∀ r2, readExpr f1 (encExpr subj ++ r2) = .ok (subj, r2) :=
            fun r2 => (ih (sizeOf subj) hs_subj).1 subj (le_refl _) hws f1 hf_subj r2
          have hfl_arms : (encMatchArmList arms).length ≤ f1 := by omega
          have hitems_arms : ∀ x ∈ arms, ∀ r2, readMatchArm f1 (encMatchArm x ++ r2) = .ok (x, r2) := by
            intro x hx r2
            have h1m : sizeOf x < sizeOf arms := List.sizeOf_lt_of_mem hx
            have h2m : sizeOf (Expr.matchE subj arms) = 1 + sizeOf subj + sizeOf arms := by simp
            have hsx : sizeOf x < n := by omega
            exact (ih (sizeOf x) hsx).2.2.1 x (le_refl _) (wfMatchArmList_mem hwa hx) f1
              (le_trans (encMatchArmList_mem_le hx) hfl_arms) r2
          have hvec_arms := readVecBy_enc (readMatchArm f1) encMatchArm encMatchArmList rfl
            (fun x l => rfl) arms (wfLen_lt hl0) hitems_arms
          simp [encExpr, readExpr, Bind.bind, Dec.bind, readU8, Dec.pure, TAG_EXPR_INT, TAG_EXPR_FLOAT, TAG_EXPR_BOOL, TAG_EXPR_NIL, TAG_EXPR_STRING, TAG_EXPR_INTERP, TAG_EXPR_VAR, TAG_EXPR_TUPLE, TAG_EXPR_LIST, TAG_EXPR_MAPLIT, TAG_EXPR_BLOCK, TAG_EXPR_BINOP, TAG_EXPR_UNARYOP, TAG_EXPR_CALL, TAG_EXPR_METHODCALL, TAG_EXPR_FIELDACCESS, TAG_EXPR_INDEX, TAG_EXPR_IF, TAG_EXPR_MATCH, TAG_EXPR_CLOSURE, TAG_EXPR_STRUCTCREATE, TAG_EXPR_ENUMVARIANT, TAG_EXPR_RANGE, TAG_EXPR_SOME, TAG_EXPR_OK, TAG_EXPR_ERR, TAG_EXPR_QUESTION, TAG_EXPR_BOX, TAG_EXPR_REF, TAG_EXPR_ASSIGN, TAG_EXPR_AWAIT, h_subj, hvec_arms]
  | closure params body =>
      cases f with
      | zero => exact absurd hfuel (by simp only [encExpr, List.length_cons, List.length_append, List.length_nil]; omega)
      | succ f1 =>
          have hw' := hwf
          simp only [wfExpr, Bool.and_eq_true] at hw'
          obtain ⟨⟨hl0, hwp⟩, hwb⟩ := hw'
          have hfu := hfuel
          simp only [encExpr, List.length_cons, List.length_append, List.length_nil, encStr_length, encU32, natToLe_length,
            encBool] at hfu
          have hfl_params : (encClosureParams params).length ≤ f1 := by omega
          have ha_params : ∀ q ∈ params, ∀ r2, readStr (encStr q.1 ++ r2) = .ok (q.1, r2) := by
            intro q hq r2
            exact readStr_enc q.1 (wfStr_lt (wfClosureParamList_mem hwp hq).1) r2
          have hb_params : ∀ q ∈ params, ∀ r2, readOptTy f1 (encOptTy q.2 ++ r2) = .ok (q.2, r2) := by
            intro q hq r2
            have hmq := encClosureParams_mem_le hq
            exact readOptTy_enc f1 q.2 (wfClosureParamList_mem hwp hq).2 (by omega) r2
          have hpp_params := readPairs_enc readStr (readOptTy f1) encStr encOptTy
            encClosureParams rfl (fun a b l => by simp [encClosureParams]) params
            ha_params hb_params
          have hcnt_params := readU32_enc params.length (wfLen_lt hl0)
          have hs_body : sizeOf body < n := by
            have hsp : sizeOf (Expr.closure params body) = 1 + sizeOf params + sizeOf body := by simp
            omega
          have hf_body : (encExpr body).length ≤ f1 := by omega
          have h_body : ∀ r2, readExpr f1 (encExpr body ++ r2) = .ok (body, r2) :=
            fun r2 => (ih (sizeOf body) hs_body).1 body (le_refl _) hwb f1 hf_body r2
          simp [encExpr, readExpr, Bind.bind, Dec.bind, readU8, Dec.pure, TAG_EXPR_INT, TAG_EXPR_FLOAT, TAG_EXPR_BOOL, TAG_EXPR_NIL, TAG_EXPR_STRING, TAG_EXPR_INTERP, TAG_EXPR_VAR, TAG_EXPR_TUPLE, TAG_EXPR_LIST, TAG_EXPR_MAPLIT, TAG_EXPR_BLOCK, TAG_EXPR_BINOP, TAG_EXPR_UNARYOP, TAG_EXPR_CALL, TAG_EXPR_METHODCALL, TAG_EXPR_FIELDACCESS, TAG_EXPR_INDEX, TAG_EXPR_IF, TAG_EXPR_MATCH, TAG_EXPR_CLOSURE, TAG_EXPR_STRUCTCREATE, TAG_EXPR_ENUMVARIANT, TAG_EXPR_RANGE, TAG_EXPR_SOME, TAG_EXPR_OK, TAG_EXPR_ERR, TAG_EXPR_QUESTION, TAG_EXPR_BOX, TAG_EXPR_REF, TAG_EXPR_ASSIGN, TAG_EXPR_AWAIT, hcnt_params, hpp_params, h_body]
  | structCreate nm fields =>
      cases f with
      | zero => exact absurd hfuel (by simp only [encExpr, List.length_cons, List.length_append, List.length_nil]; omega)
      | succ f1 =>
          have hw' := hwf
          simp only [wfExpr, Bool.and_eq_true] at hw'
          obtain ⟨⟨hwn, hl0⟩, hwfi⟩ := hw'
          have hfu := hfuel
          simp only [encExpr, List.length_cons, List.length_append, List.length_nil, encStr_length, encU32, natToLe_length,
            encBool] at hfu
          have hn := readStr_enc nm (wfStr_lt hwn)
          have hcnt := readU32_enc fields.length (wfLen_lt hl0)
          have hfl_fields : (encFieldInits fields).length ≤ f1 := by omega
          have ha_fields : ∀ q ∈ fields, ∀ r2, readStr (encStr q.1 ++ r2) = .ok (q.1, r2) := by
            intro q hq r2
            exact readStr_enc q.1 (wfStr_lt (wfFieldInitList_mem hwfi hq).1) r2
          have hb_fields : ∀ q ∈ fields, ∀ r2, readExpr f1 (encExpr q.2 ++ r2) = .ok (q.2, r2) := by
            intro q hq r2
            obtain ⟨u, w⟩ := q
            have h1m : sizeOf (u, w) < sizeOf fields := List.sizeOf_lt_of_mem hq
            have h2m : sizeOf (Expr.structCreate nm fields) = 1 + sizeOf nm + sizeOf fields := by simp
            have h3m : sizeOf (u, w) = 1 + sizeOf u + sizeOf w := by simp
            have hsw : sizeOf w < n := by omega
            exact (ih (sizeOf w) hsw).1 w (le_refl _) (wfFieldInitList_mem hwfi hq).2 f1
              (le_trans (encFieldInits_mem_le hq) hfl_fields) r2
          have hpp_fields := readPairs_enc readStr (readExpr f1) encStr encExpr
            encFieldInits rfl (fun a b l => by simp [encFieldInits]) fields
            ha_fields hb_fields
          simp [encExpr, readExpr, Bind.bind, Dec.bind, readU8, Dec.pure, TAG_EXPR_INT, TAG_EXPR_FLOAT, TAG_EXPR_BOOL, TAG_EXPR_NIL, TAG_EXPR_STRING, TAG_EXPR_INTERP, TAG_EXPR_VAR, TAG_EXPR_TUPLE, TAG_EXPR_LIST, TAG_EXPR_MAPLIT, TAG_EXPR_BLOCK, TAG_EXPR_BINOP, TAG_EXPR_UNARYOP, TAG_EXPR_CALL, TAG_EXPR_METHODCALL, TAG_EXPR_FIELDACCESS, TAG_EXPR_INDEX, TAG_EXPR_IF, TAG_EXPR_MATCH, TAG_EXPR_CLOSURE, TAG_EXPR_STRUCTCREATE, TAG_EXPR_ENUMVARIANT, TAG_EXPR_RANGE, TAG_EXPR_SOME, TAG_EXPR_OK, TAG_EXPR_ERR, TAG_EXPR_QUESTION, TAG_EXPR_BOX, TAG_EXPR_REF, TAG_EXPR_ASSIGN, TAG_EXPR_AWAIT, hn, hcnt, hpp_fields]
  | enumVariant en vn args =>
      cases f with
      | zero => exact absurd hfuel (by simp only [encExpr, List.length_cons, List.length_append, List.length_nil]; omega)
      | succ f1 =>
          have hw' := hwf
          simp only [wfExpr, Bool.and_eq_true] at hw'
          obtain ⟨⟨⟨hwe1, hwe2⟩, hl0⟩, hwl⟩ := hw'
          have hfu := hfuel
          simp only [encExpr, List.length_cons, List.length_append, List.length_nil, encStr_length, encU32, natToLe_length,
            encBool] at hfu
          have h1 := readStr_enc en (wfStr_lt hwe1)
          have h2 := readStr_enc vn (wfStr_lt hwe2)
          have hfl_args : (encExprList args).length ≤ f1 := by omega
          have hitems_args : ∀ x ∈ args, ∀ r2, readExpr f1 (encExpr x ++ r2) = .ok (x, r2) := by
            intro x hx r2
            have h1m : sizeOf x < sizeOf args := List.sizeOf_lt_of_mem hx
            have h2m : sizeOf (Expr.enumVariant en vn args) = 1 + sizeOf en + sizeOf vn + sizeOf args := by simp
            have hsx : sizeOf x < n := by omega
            exact (ih (sizeOf x) hsx).1 x (le_refl _) (wfExprList_mem hwl hx) f1
              (le_trans (encExprList_mem_le hx) hfl_args) r2
          have hvec_args := readVecBy_enc (readExpr f1) encExpr encExprList rfl
            (fun x l => rfl) args (wfLen_lt hl0) hitems_args
          simp [encExpr, readExpr, Bind.bind, Dec.bind, readU8, Dec.pure, TAG_EXPR_INT, TAG_EXPR_FLOAT, TAG_EXPR_BOOL, TAG_EXPR_NIL, TAG_EXPR_STRING, TAG_EXPR_INTERP, TAG_EXPR_VAR, TAG_EXPR_TUPLE, TAG_EXPR_LIST, TAG_EXPR_MAPLIT, TAG_EXPR_BLOCK, TAG_EXPR_BINOP, TAG_EXPR_UNARYOP, TAG_EXPR_CALL, TAG_EXPR_METHODCALL, TAG_EXPR_FIELDACCESS, TAG_EXPR_INDEX, TAG_EXPR_IF, TAG_EXPR_MATCH, TAG_EXPR_CLOSURE, TAG_EXPR_STRUCTCREATE, TAG_EXPR_ENUMVARIANT, TAG_EXPR_RANGE, TAG_EXPR_SOME, TAG_EXPR_OK, TAG_EXPR_ERR, TAG_EXPR_QUESTION, TAG_EXPR_BOX, TAG_EXPR_REF, TAG_EXPR_ASSIGN, TAG_EXPR_AWAIT, h1, h2, hvec_args]
  | range lo hi =>
      cases f with
      | zero => exact absurd hfuel (by simp only [encExpr, List.length_cons, List.length_append, List.length_nil]; omega)
      | succ f1 =>
          have hw' := hwf
          simp only [wfExpr, Bool.and_eq_true] at hw'
          obtain ⟨hwa, hwb⟩ := hw'
          have hfu := hfuel
          simp only [encExpr, List.length_cons, List.length_append, List.length_nil, encStr_length, encU32, natToLe_length,
            encBool] at hfu
          have hs_lo : sizeOf lo < n := by
            have hsp : sizeOf (Expr.range lo hi) = 1 + sizeOf lo + sizeOf hi := by simp
            omega
          have hf_lo : (encExpr lo).length ≤ f1 := by omega
          have h_lo : ∀ r2, readExpr f1 (encExpr lo ++ r2) = .ok (lo, r2) :=
            fun r2 => (ih (sizeOf lo) hs_lo).1 lo (le_refl _) hwa f1 hf_lo r2
          have hs_hi : sizeOf hi < n := by
            have hsp : sizeOf (Expr.range lo hi) = 1 + sizeOf lo + sizeOf hi := by simp
            omega
          have hf_hi : (encExpr hi).length ≤ f1 := by omega
          have h_hi : ∀ r2, readExpr f1 (encExpr hi ++ r2) = .ok (hi, r2) :=
            fun r2 => (ih (sizeOf hi) hs_hi).1 hi (le_refl _) hwb f1 hf_hi r2
          simp [encExpr, readExpr, Bind.bind, Dec.bind, readU8, Dec.pure, TAG_EXPR_INT, TAG_EXPR_FLOAT, TAG_EXPR_BOOL, TAG_EXPR_NIL, TAG_EXPR_STRING, TAG_EXPR_INTERP, TAG_EXPR_VAR, TAG_EXPR_TUPLE, TAG_EXPR_LIST, TAG_EXPR_MAPLIT, TAG_EXPR_BLOCK, TAG_EXPR_BINOP, TAG_EXPR_UNARYOP, TAG_EXPR_CALL, TAG_EXPR_METHODCALL, TAG_EXPR_FIELDACCESS, TAG_EXPR_INDEX, TAG_EXPR_IF, TAG_EXPR_MATCH, TAG_EXPR_CLOSURE, TAG_EXPR_STRUCTCREATE, TAG_EXPR_ENUMVARIANT, TAG_EXPR_RANGE, TAG_EXPR_SOME, TAG_EXPR_OK, TAG_EXPR_ERR, TAG_EXPR_QUESTION, TAG_EXPR_BOX, TAG_EXPR_REF, TAG_EXPR_ASSIGN, TAG_EXPR_AWAIT, h_lo, h_hi]
  | someE e =>
      cases f with
      | zero => exact absurd hfuel (by simp only [encExpr, List.length_cons, List.length_append, List.length_nil]; omega)
      | succ f1 =>
          have hwe : wfExpr e = true := by simpa [wfExpr] using hwf
          have hfu := hfuel
          simp only [encExpr, List.length_cons, List.length_append, List.length_nil, encStr_length, encU32, natToLe_length,
            encBool] at hfu
          have hs_e : sizeOf e < n := by
            have hsp : sizeOf (Expr.someE e) = 1 + sizeOf e := by simp
            omega
          have hf_e : (encExpr e).length ≤ f1 := by omega
          have h_e : ∀ r2, readExpr f1 (encExpr e ++ r2) = .ok (e, r2) :=
            fun r2 => (ih (sizeOf e) hs_e).1 e (le_refl _) hwe f1 hf_e r2
          simp [encExpr, readExpr, Bind.bind, Dec.bind, readU8, Dec.pure, TAG_EXPR_INT, TAG_EXPR_FLOAT, TAG_EXPR_BOOL, TAG_EXPR_NIL, TAG_EXPR_STRING, TAG_EXPR_INTERP, TAG_EXPR_VAR, TAG_EXPR_TUPLE, TAG_EXPR_LIST, TAG_EXPR_MAPLIT, TAG_EXPR_BLOCK, TAG_EXPR_BINOP, TAG_EXPR_UNARYOP, TAG_EXPR_CALL, TAG_EXPR_METHODCALL, TAG_EXPR_FIELDACCESS, TAG_EXPR_INDEX, TAG_EXPR_IF, TAG_EXPR_MATCH, TAG_EXPR_CLOSURE, TAG_EXPR_STRUCTCREATE, TAG_EXPR_ENUMVARIANT, TAG_EXPR_RANGE, TAG_EXPR_SOME, TAG_EXPR_OK, TAG_EXPR_ERR, TAG_EXPR_QUESTION, TAG_EXPR_BOX, TAG_EXPR_REF, TAG_EXPR_ASSIGN, TAG_EXPR_AWAIT, h_e]
  | okE e =>
      cases f with
      | zero => exact absurd hfuel (by simp only [encExpr, List.length_cons, List.length_append, List.length_nil]; omega)
      | succ f1 =>
          have hwe : wfExpr e = true := by simpa [wfExpr] using hwf
          have hfu := hfuel
          simp only [encExpr, List.length_cons, List.length_append, List.length_nil, encStr_length, encU32, natToLe_length,
            encBool] at hfu
          have hs_e : sizeOf e < n := by
            have hsp : sizeOf (Expr.okE e) = 1 + sizeOf e := by simp
            omega
          have hf_e : (encExpr e).length ≤ f1 := by omega
          have h_e : ∀ r2, readExpr f1 (encExpr e ++ r2) = .ok (e, r2) :=
            fun r2 => (ih (sizeOf e) hs_e).1 e (le_refl _) hwe f1 hf_e r2
          simp [encExpr, readExpr, Bind.bind, Dec.bind, readU8, Dec.pure, TAG_EXPR_INT, TAG_EXPR_FLOAT, TAG_EXPR_BOOL, TAG_EXPR_NIL, TAG_EXPR_STRING, TAG_EXPR_INTERP, TAG_EXPR_VAR, TAG_EXPR_TUPLE, TAG_EXPR_LIST, TAG_EXPR_MAPLIT, TAG_EXPR_BLOCK, TAG_EXPR_BINOP, TAG_EXPR_UNARYOP, TAG_EXPR_CALL, TAG_EXPR_METHODCALL, TAG_EXPR_FIELDACCESS, TAG_EXPR_INDEX, TAG_EXPR_IF, TAG_EXPR_MATCH, TAG_EXPR_CLOSURE, TAG_EXPR_STRUCTCREATE, TAG_EXPR_ENUMVARIANT, TAG_EXPR_RANGE, TAG_EXPR_SOME, TAG_EXPR_OK, TAG_EXPR_ERR, TAG_EXPR_QUESTION, TAG_EXPR_BOX, TAG_EXPR_REF, TAG_EXPR_ASSIGN, TAG_EXPR_AWAIT, h_e]
  | errE e =>
      cases f with
      | zero => exact absurd hfuel (by simp only [encExpr, List.length_cons, List.length_append, List.length_nil]; omega)
      | succ f1 =>
          have hwe : wfExpr e = true := by simpa [wfExpr] using hwf
          have hfu := hfuel
          simp only [encExpr, List.length_cons, List.length_append, List.length_nil, encStr_length, encU32, natToLe_length,
            encBool] at hfu
          have hs_e : sizeOf e < n := by
            have hsp : sizeOf (Expr.errE e) = 1 + sizeOf e := by simp
            omega
          have hf_e : (encExpr e).length ≤ f1 := by omega
          have h_e : ∀ r2, readExpr f1 (encExpr e ++ r2) = .ok (e, r2) :=
            fun r2 => (ih (sizeOf e) hs_e).1 e (le_refl _) hwe f1 hf_e r2
          simp [encExpr, readExpr, Bind.bind, Dec.bind, readU8, Dec.pure, TAG_EXPR_INT, TAG_EXPR_FLOAT, TAG_EXPR_BOOL, TAG_EXPR_NIL, TAG_EXPR_STRING, TAG_EXPR_INTERP, TAG_EXPR_VAR, TAG_EXPR_TUPLE, TAG_EXPR_LIST, TAG_EXPR_MAPLIT, TAG_EXPR_BLOCK, TAG_EXPR_BINOP, TAG_EXPR_UNARYOP, TAG_EXPR_CALL, TAG_EXPR_METHODCALL, TAG_EXPR_FIELDACCESS, TAG_EXPR_INDEX, TAG_EXPR_IF, TAG_EXPR_MATCH, TAG_EXPR_CLOSURE, TAG_EXPR_STRUCTCREATE, TAG_EXPR_ENUMVARIANT, TAG_EXPR_RANGE, TAG_EXPR_SOME, TAG_EXPR_OK, TAG_EXPR_ERR, TAG_EXPR_QUESTION, TAG_EXPR_BOX, TAG_EXPR_REF, TAG_EXPR_ASSIGN, TAG_EXPR_AWAIT, h_e]
  | question e =>
      cases f with
      | zero => exact absurd hfuel (by simp only [encExpr, List.length_cons, List.length_append, List.length_nil]; omega)
      | succ f1 =>
          have hwe : wfExpr e = true := by simpa [wfExpr] using hwf
          have hfu := hfuel
          simp only [encExpr, List.length_cons, List.length_append, List.length_nil, encStr_length, encU32, natToLe_length,
            encBool] at hfu
          have hs_e : sizeOf e < n := by
            have hsp : sizeOf (Expr.question e) = 1 + sizeOf e := by simp
            omega
          have hf_e : (encExpr e).length ≤ f1 := by omega
          have h_e : ∀ r2, readExpr f1 (encExpr e ++ r2) = .ok (e, r2) :=
            fun r2 => (ih (sizeOf e) hs_e).1 e (le_refl _) hwe f1 hf_e r2
          simp [encExpr, readExpr, Bind.bind, Dec.bind, readU8, Dec.pure, TAG_EXPR_INT, TAG_EXPR_FLOAT, TAG_EXPR_BOOL, TAG_EXPR_NIL, TAG_EXPR_STRING, TAG_EXPR_INTERP, TAG_EXPR_VAR, TAG_EXPR_TUPLE, TAG_EXPR_LIST, TAG_EXPR_MAPLIT, TAG_EXPR_BLOCK, TAG_EXPR_BINOP, TAG_EXPR_UNARYOP, TAG_EXPR_CALL, TAG_EXPR_METHODCALL, TAG_EXPR_FIELDACCESS, TAG_EXPR_INDEX, TAG_EXPR_IF, TAG_EXPR_MATCH, TAG_EXPR_CLOSURE, TAG_EXPR_STRUCTCREATE, TAG_EXPR_ENUMVARIANT, TAG_EXPR_RANGE, TAG_EXPR_SOME, TAG_EXPR_OK, TAG_EXPR_ERR, TAG_EXPR_QUESTION, TAG_EXPR_BOX, TAG_EXPR_REF, TAG_EXPR_ASSIGN, TAG_EXPR_AWAIT, h_e]
  | boxE e =>
      cases f with
      | zero => exact absurd hfuel (by simp only [encExpr, List.length_cons, List.length_append, List.length_nil]; omega)
      | succ f1 =>
          have hwe : wfExpr e = true := by simpa [wfExpr] using hwf
          have hfu := hfuel
          simp only [encExpr, List.length_cons, List.length_append, List.length_nil, encStr_length, encU32, natToLe_length,
            encBool] at hfu
          have hs_e : sizeOf e < n := by
            have hsp : sizeOf (Expr.boxE e) = 1 + sizeOf e := by simp
            omega
          have hf_e : (encExpr e).length ≤ f1 := by omega
          have h_e : ∀ r2, readExpr f1 (encExpr e ++ r2) = .ok (e, r2) :=
            fun r2 => (ih (sizeOf e) hs_e).1 e (le_refl _) hwe f1 hf_e r2
          simp [encExpr, readExpr, Bind.bind, Dec.bind, readU8, Dec.pure, TAG_EXPR_INT, TAG_EXPR_FLOAT, TAG_EXPR_BOOL, TAG_EXPR_NIL, TAG_EXPR_STRING, TAG_EXPR_INTERP, TAG_EXPR_VAR, TAG_EXPR_TUPLE, TAG_EXPR_LIST, TAG_EXPR_MAPLIT, TAG_EXPR_BLOCK, TAG_EXPR_BINOP, TAG_EXPR_UNARYOP, TAG_EXPR_CALL, TAG_EXPR_METHODCALL, TAG_EXPR_FIELDACCESS, TAG_EXPR_INDEX, TAG_EXPR_IF, TAG_EXPR_MATCH, TAG_EXPR_CLOSURE, TAG_EXPR_STRUCTCREATE, TAG_EXPR_ENUMVARIANT, TAG_EXPR_RANGE, TAG_EXPR_SOME, TAG_EXPR_OK, TAG_EXPR_ERR, TAG_EXPR_QUESTION, TAG_EXPR_BOX, TAG_EXPR_REF, TAG_EXPR_ASSIGN, TAG_EXPR_AWAIT, h_e]
  | refE e =>
      cases f with
      | zero => exact absurd hfuel (by simp only [encExpr, List.length_cons, List.length_append, List.length_nil]; omega)
      | succ f1 =>
          have hwe : wfExpr e = true := by simpa [wfExpr] using hwf
          have hfu := hfuel
          simp only [encExpr, List.length_cons, List.length_append, List.length_nil, encStr_length, encU32, natToLe_length,
            encBool] at hfu
          have hs_e : sizeOf e < n := by
            have hsp : sizeOf (Expr.refE e) = 1 + sizeOf e := by simp
            omega
          have hf_e : (encExpr e).length ≤ f1 := by omega
          have h_e : ∀ r2, readExpr f1 (encExpr e ++ r2) = .ok (e, r2) :=
            fun r2 => (ih (sizeOf e) hs_e).1 e (le_refl _) hwe f1 hf_e r2
          simp [encExpr, readExpr, Bind.bind, Dec.bind, readU8, Dec.pure, TAG_EXPR_INT, TAG_EXPR_FLOAT, TAG_EXPR_BOOL, TAG_EXPR_NIL, TAG_EXPR_STRING, TAG_EXPR_INTERP, TAG_EXPR_VAR, TAG_EXPR_TUPLE, TAG_EXPR_LIST, TAG_EXPR_MAPLIT, TAG_EXPR_BLOCK, TAG_EXPR_BINOP, TAG_EXPR_UNARYOP, TAG_EXPR_CALL, TAG_EXPR_METHODCALL, TAG_EXPR_FIELDACCESS, TAG_EXPR_INDEX, TAG_EXPR_IF, TAG_EXPR_MATCH, TAG_EXPR_CLOSURE, TAG_EXPR_STRUCTCREATE, TAG_EXPR_ENUMVARIANT, TAG_EXPR_RANGE, TAG_EXPR_SOME, TAG_EXPR_OK, TAG_EXPR_ERR, TAG_EXPR_QUESTION, TAG_EXPR_BOX, TAG_EXPR_REF, TAG_EXPR_ASSIGN, TAG_EXPR_AWAIT, h_e]
  | assign target value =>
      cases f with
      | zero => exact absurd hfuel (by simp only [encExpr, List.length_cons, List.length_append, List.length_nil]; omega)
      | succ f1 =>
          have hw' := hwf
          simp only [wfExpr, Bool.and_eq_true] at hw'
          obtain ⟨hwa, hwb⟩ := hw'
          have hfu := hfuel
          simp only [encExpr, List.length_cons, List.length_append, List.length_nil, encStr_length, encU32, natToLe_length,
            encBool] at hfu
          have hs_target : sizeOf target < n := by
            have hsp : sizeOf (Expr.assign target value) = 1 + sizeOf target + sizeOf value := by simp
            omega
          have hf_target : (encExpr target).length ≤ f1 := by omega
          have h_target : ∀ r2, readExpr f1 (encExpr target ++ r2) = .ok (target, r2) :=
            fun r2 => (ih (sizeOf target) hs_target).1 target (le_refl _) hwa f1 hf_target r2
          have hs_value : sizeOf value < n := by
            have hsp : sizeOf (Expr.assign target value) = 1 + sizeOf target + sizeOf value := by simp
            omega
          have hf_value : (encExpr value).length ≤ f1 := by omega
          have h_value : ∀ r2, readExpr f1 (encExpr value ++ r2) = .ok (value, r2) :=
            fun r2 => (ih (sizeOf value) hs_value).1 value (le_refl _) hwb f1 hf_value r2
          simp [encExpr, readExpr, Bind.bind, Dec.bind, readU8, Dec.pure, TAG_EXPR_INT, TAG_EXPR_FLOAT, TAG_EXPR_BOOL, TAG_EXPR_NIL, TAG_EXPR_STRING, TAG_EXPR_INTERP, TAG_EXPR_VAR, TAG_EXPR_TUPLE, TAG_EXPR_LIST, TAG_EXPR_MAPLIT, TAG_EXPR_BLOCK, TAG_EXPR_BINOP, TAG_EXPR_UNARYOP, TAG_EXPR_CALL, TAG_EXPR_METHODCALL, TAG_EXPR_FIELDACCESS, TAG_EXPR_INDEX, TAG_EXPR_IF, TAG_EXPR_MATCH, TAG_EXPR_CLOSURE, TAG_EXPR_STRUCTCREATE, TAG_EXPR_ENUMVARIANT, TAG_EXPR_RANGE, TAG_EXPR_SOME, TAG_EXPR_OK, TAG_EXPR_ERR, TAG_EXPR_QUESTION, TAG_EXPR_BOX, TAG_EXPR_REF, TAG_EXPR_ASSIGN, TAG_EXPR_AWAIT, h_target, h_value]
  | awaitE e =>
      cases f with
      | zero => exact absurd hfuel (by simp only [encExpr, List.length_cons, List.length_append, List.length_nil]; omega)
      | succ f1 =>
          have hwe : wfExpr e = true := by simpa [wfExpr] using hwf
          have hfu := hfuel
          simp only [encExpr, List.length_cons, List.length_append, List.length_nil, encStr_length, encU32, natToLe_length,
            encBool] at hfu
          have hs_e : sizeOf e < n := by
            have hsp : sizeOf (Expr.awaitE e) = 1 + sizeOf e := by simp
            omega
          have hf_e : (encExpr e).length ≤ f1 := by omega
          have h_e : ∀ r2, readExpr f1 (encExpr e ++ r2) = .ok (e, r2) :=
            fun r2 => (ih (sizeOf e) hs_e).1 e (le_refl _) hwe f1 hf_e r2
          simp [encExpr, readExpr, Bind.bind, Dec.bind, readU8, Dec.pure, TAG_EXPR_INT, TAG_EXPR_FLOAT, TAG_EXPR_BOOL, TAG_EXPR_NIL, TAG_EXPR_STRING, TAG_EXPR_INTERP, TAG_EXPR_VAR, TAG_EXPR_TUPLE, TAG_EXPR_LIST, TAG_EXPR_MAPLIT, TAG_EXPR_BLOCK, TAG_EXPR_BINOP, TAG_EXPR_UNARYOP, TAG_EXPR_CALL, TAG_EXPR_METHODCALL, TAG_EXPR_FIELDACCESS, TAG_EXPR_INDEX, TAG_EXPR_IF, TAG_EXPR_MATCH, TAG_EXPR_CLOSURE, TAG_EXPR_STRUCTCREATE, TAG_EXPR_ENUMVARIANT, TAG_EXPR_RANGE, TAG_EXPR_SOME, TAG_EXPR_OK, TAG_EXPR_ERR, TAG_EXPR_QUESTION, TAG_EXPR_BOX, TAG_EXPR_REF, TAG_EXPR_ASSIGN, TAG_EXPR_AWAIT, h_e]
  intro sp hsize hwf f hfuel rest
  cases sp with
  | literal s =>
      cases f with
      | zero => exact absurd hfuel (by simp only [encStringPart, List.length_cons, List.length_append, List.length_nil]; omega)
      | succ f1 =>
          have hs := readStr_enc s (wfStr_lt (by simpa [wfStringPart] using hwf))
          simp [encStringPart, readStringPart, Bind.bind, Dec.bind, readU8, Dec.pure, TAG_STRPART_LITERAL, TAG_STRPART_INTERP, hs]
  | interpolated e =>
      cases f with
      | zero => exact absurd hfuel (by simp only [encStringPart, List.length_cons, List.length_append, List.length_nil]; omega)
      | succ f1 =>
          have hwe : wfExpr e = true := by simpa [wfStringPart] using hwf
          have hfu := hfuel
          simp only [encStringPart, List.length_cons, List.length_append, List.length_nil, encStr_length, encU32, natToLe_length,
            encBool] at hfu
          have hs_e : sizeOf e < n := by
            have hsp : sizeOf (StringPart.interpolated e) = 1 + sizeOf e := by simp
            omega
          have hf_e : (encExpr e).length ≤ f1 := by omega
          have h_e : ∀ r2, readExpr f1 (encExpr e ++ r2) = .ok (e, r2) :=
            fun r2 => (ih (sizeOf e) hs_e).1 e (le_refl _) hwe f1 hf_e r2
          simp [encStringPart, readStringPart, Bind.bind, Dec.bind, readU8, Dec.pure, TAG_STRPART_LITERAL, TAG_STRPART_INTERP, h_e]
  intro a hsize hwf f hfuel rest
  cases a with
  | mk pat guard body =>
      cases f with
      | zero =>
          refine absurd hfuel ?_
          simp only [encMatchArm, List.length_append]
          have := encPattern_length_pos pat
          omega
      | succ f1 =>
          have hw' := hwf
          simp only [wfMatchArm, Bool.and_eq_true] at hw'
          obtain ⟨⟨hwp, hwg⟩, hwb⟩ := hw'
          have hfu := hfuel
          simp only [encMatchArm, List.length_append] at hfu
          have hpos := encPattern_length_pos pat
          have hpat : ∀ r2, readPattern (f1 + 1) (encPattern pat ++ r2) = .ok (pat, r2) :=
            fun r2 => readPattern_enc (sizeOf pat) pat (le_refl _) hwp (f1 + 1) (by omega) r2
          have hopt_guard : ∀ r2, readOptBy (readExpr f1) (encOptExpr guard ++ r2) = .ok (guard, r2) := by
            refine readOptExpr_enc (readExpr f1) guard ?_
            intro e1 he1 r2
            subst he1
            have hw1 : wfExpr e1 = true := by simpa [wfOptExpr] using hwg
            have h2m : sizeOf (some e1 : Option Expr) = 1 + sizeOf e1 := by simp
            have h1m : sizeOf (MatchArm.mk pat (some e1) body) = 1 + sizeOf pat + sizeOf (some e1) + sizeOf body := by simp
            have hs1 : sizeOf e1 < n := by omega
            simp only [encOptExpr, List.length_cons] at hfu
            have hf1 : (encExpr e1).length ≤ f1 := by omega
            exact (ih (sizeOf e1) hs1).1 e1 (le_refl _) hw1 f1 hf1 r2
          have hs_body : sizeOf body < n := by
            have hsp : sizeOf (MatchArm.mk pat guard body) = 1 + sizeOf pat + sizeOf guard + sizeOf body := by simp
            omega
          have hf_body : (encExpr body).length ≤ f1 := by omega
          have h_body : ∀ r2, readExpr f1 (encExpr body ++ r2) = .ok (body, r2) :=
            fun r2 => (ih (sizeOf body) hs_body).1 body (le_refl _) hwb f1 hf_body r2
          simp [encMatchArm, readMatchArm, Bind.bind, Dec.bind, readU8, Dec.pure, hpat, hopt_guard, h_body]
  intro p hsize hwf f hfuel rest
  cases p with
  | mk nm ty dflt =>
      cases f with
      | zero =>
          refine absurd hfuel ?_
          simp only [encParam, List.length_append, encStr_length]
          omega
      | succ f1 =>
          have hw' := hwf
          simp only [wfParam, Bool.and_eq_true] at hw'
          obtain ⟨⟨hwn, hwt⟩, hwd⟩ := hw'
          have hfu := hfuel
          simp only [encParam, List.length_append, encStr_length] at hfu
          have h1 := readStr_enc nm (wfStr_lt hwn)
          have hty := readOptTy_enc (f1 + 1) ty hwt (by omega)
          have hopt_dflt : ∀ r2, readOptBy (readExpr f1) (encOptExpr dflt ++ r2) = .ok (dflt, r2) := by
            refine readOptExpr_enc (readExpr f1) dflt ?_
            intro e1 he1 r2
            subst he1
            have hw1 : wfExpr e1 = true := by simpa [wfOptExpr] using hwd
            have h2m : sizeOf (some e1 : Option Expr) = 1 + sizeOf e1 := by simp
            have h1m : sizeOf (Param.mk nm ty (some e1)) = 1 + sizeOf nm + sizeOf ty + sizeOf (some e1) := by simp
            have hs1 : sizeOf e1 < n := by omega
            simp only [encOptExpr, List.length_cons] at hfu
            have hf1 : (encExpr e1).length ≤ f1 := by omega
            exact (ih (sizeOf e1) hs1).1 e1 (le_refl _) hw1 f1 hf1 r2
          simp [encParam, readParam, Bind.bind, Dec.bind, readU8, Dec.pure, h1, hty, hopt_dflt]
  intro s hsize hwf f hfuel rest
  cases s with
  | letS nm ty value mu =>
      cases f with
      | zero => exact absurd hfuel (by simp only [encStmt, List.length_cons, List.length_append, List.length_nil]; omega)
      | succ f1 =>
          have hw' := hwf
          simp only [wfStmt, Bool.and_eq_true] at hw'
          obtain ⟨⟨hwn, hwt⟩, hwv⟩ := hw'
          have hfu := hfuel
          simp only [encStmt, List.length_cons, List.length_append, List.length_nil, encStr_length, encU32, natToLe_length,
            encBool] at hfu
          have h1 := readStr_enc nm (wfStr_lt hwn)
          have hty := readOptTy_enc (f1 + 1) ty hwt (by omega)
          have hs_value : sizeOf value < n := by
            have hsp : sizeOf (Stmt.letS nm ty value mu) = 1 + sizeOf nm + sizeOf ty + sizeOf value + sizeOf mu := by simp
            omega
          have hf_value : (encExpr value).length ≤ f1 := by omega
          have h_value : ∀ r2, readExpr f1 (encExpr value ++ r2) = .ok (value, r2) :=
            fun r2 => (ih (sizeOf value) hs_value).1 value (le_refl _) hwv f1 hf_value r2
          have hmut := readBool_enc mu
          simp [encStmt, readStmt, Bind.bind, Dec.bind, readU8, Dec.pure, TAG_STMT_LET, TAG_STMT_EXPR, TAG_STMT_RETURN, TAG_STMT_BREAK, TAG_STMT_CONTINUE, TAG_STMT_WHILE, TAG_STMT_FOR, TAG_STMT_FUNDEF, TAG_STMT_STRUCTDEF, TAG_STMT_ENUMDEF, TAG_STMT_IMPLBLOCK, TAG_STMT_MODDEF, TAG_STMT_IMPORT, TAG_STMT_TYPEALIAS, h1, hty, h_value, hmut]
  | exprS e =>
      cases f with
      | zero => exact absurd hfuel (by simp only [encStmt, List.length_cons, List.length_append, List.length_nil]; omega)
      | succ f1 =>
          have hwe : wfExpr e = true := by simpa [wfStmt] using hwf
          have hfu := hfuel
          simp only [encStmt, List.length_cons, List.length_append, List.length_nil, encStr_length, encU32, natToLe_length,
            encBool] at hfu
          have hs_e : sizeOf e < n := by
            have hsp : sizeOf (Stmt.exprS e) = 1 + sizeOf e := by simp
            omega
          have hf_e : (encExpr e).length ≤ f1 := by omega
          have h_e : ∀ r2, readExpr f1 (encExpr e ++ r2) = .ok (e, r2) :=
            fun r2 => (ih (sizeOf e) hs_e).1 e (le_refl _) hwe f1 hf_e r2
          simp [encStmt, readStmt, Bind.bind, Dec.bind, readU8, Dec.pure, TAG_STMT_LET, TAG_STMT_EXPR, TAG_STMT_RETURN, TAG_STMT_BREAK, TAG_STMT_CONTINUE, TAG_STMT_WHILE, TAG_STMT_FOR, TAG_STMT_FUNDEF, TAG_STMT_STRUCTDEF, TAG_STMT_ENUMDEF, TAG_STMT_IMPLBLOCK, TAG_STMT_MODDEF, TAG_STMT_IMPORT, TAG_STMT_TYPEALIAS, h_e]
  | retS e =>
      cases f with
      | zero => exact absurd hfuel (by simp only [encStmt, List.length_cons, List.length_append, List.length_nil]; omega)
      | succ f1 =>
          have hwe : wfOptExpr e = true := by simpa [wfStmt] using hwf
          have hfu := hfuel
          simp only [encStmt, List.length_cons, List.length_append, List.length_nil, encStr_length, encU32, natToLe_length,
            encBool] at hfu
          have hopt_e : ∀ r2, readOptBy (readExpr f1) (encOptExpr e ++ r2) = .ok (e, r2) := by
            refine readOptExpr_enc (readExpr f1) e ?_
            intro e1 he1 r2
            subst he1
            have hw1 : wfExpr e1 = true := by simpa [wfOptExpr] using hwe
            have h2m : sizeOf (some e1 : Option Expr) = 1 + sizeOf e1 := by simp
            have h1m : sizeOf (Stmt.retS (some e1)) = 1 + sizeOf (some e1) := by simp
            have hs1 : sizeOf e1 < n := by omega
            simp only [encOptExpr, List.length_cons] at hfu
            have hf1 : (encExpr e1).length ≤ f1 := by omega
            exact (ih (sizeOf e1) hs1).1 e1 (le_refl _) hw1 f1 hf1 r2
          simp [encStmt, readStmt, Bind.bind, Dec.bind, readU8, Dec.pure, TAG_STMT_LET, TAG_STMT_EXPR, TAG_STMT_RETURN, TAG_STMT_BREAK, TAG_STMT_CONTINUE, TAG_STMT_WHILE, TAG_STMT_FOR, TAG_STMT_FUNDEF, TAG_STMT_STRUCTDEF, TAG_STMT_ENUMDEF, TAG_STMT_IMPLBLOCK, TAG_STMT_MODDEF, TAG_STMT_IMPORT, TAG_STMT_TYPEALIAS, hopt_e]
  | brk =>
      cases f with
      | zero => exact absurd hfuel (by simp only [encStmt, List.length_cons, List.length_append, List.length_nil]; omega)
      | succ f1 =>
          simp [encStmt, readStmt, Bind.bind, Dec.bind, readU8, Dec.pure, TAG_STMT_LET, TAG_STMT_EXPR, TAG_STMT_RETURN, TAG_STMT_BREAK, TAG_STMT_CONTINUE, TAG_STMT_WHILE, TAG_STMT_FOR, TAG_STMT_FUNDEF, TAG_STMT_STRUCTDEF, TAG_STMT_ENUMDEF, TAG_STMT_IMPLBLOCK, TAG_STMT_MODDEF, TAG_STMT_IMPORT, TAG_STMT_TYPEALIAS]
  | contin =>
      cases f with
      | zero => exact absurd hfuel (by simp only [encStmt, List.length_cons, List.length_append, List.length_nil]; omega)
      | succ f1 =>
          simp [encStmt, readStmt, Bind.bind, Dec.bind, readU8, Dec.pure, TAG_STMT_LET, TAG_STMT_EXPR, TAG_STMT_RETURN, TAG_STMT_BREAK, TAG_STMT_CONTINUE, TAG_STMT_WHILE, TAG_STMT_FOR, TAG_STMT_FUNDEF, TAG_STMT_STRUCTDEF, TAG_STMT_ENUMDEF, TAG_STMT_IMPLBLOCK, TAG_STMT_MODDEF, TAG_STMT_IMPORT, TAG_STMT_TYPEALIAS]
  | whileS cond body =>
      cases f with
      | zero => exact absurd hfuel (by simp only [encStmt, List.length_cons, List.length_append, List.length_nil]; omega)
      | succ f1 =>
          have hw' := hwf
          simp only [wfStmt, Bool.and_eq_true] at hw'
          obtain ⟨⟨hwc, hl0⟩, hwb⟩ := hw'
          have hfu := hfuel
          simp only [encStmt, List.length_cons, List.length_append, List.length_nil, encStr_length, encU32, natToLe_length,
            encBool] at hfu
          have hs_cond : sizeOf cond < n := by
            have hsp : sizeOf (Stmt.whileS cond body) = 1 + sizeOf cond + sizeOf body := by simp
            omega
          have hf_cond : (encExpr cond).length ≤ f1 := by omega
          have h_cond : ∀ r2, readExpr f1 (encExpr cond ++ r2) = .ok (cond, r2) :=
            fun r2 => (ih (sizeOf cond) hs_cond).1 cond (le_refl _) hwc f1 hf_cond r2
          have hfl_body : (encStmtList body).length ≤ f1 := by omega
          have hitems_body : ∀ x ∈ body, ∀ r2, readStmt f1 (encStmt x ++ r2) = .ok (x, r2) := by
            intro x hx r2
            have h1m : sizeOf x < sizeOf body := List.sizeOf_lt_of_mem hx
            have h2m : sizeOf (Stmt.whileS cond body) = 1 + sizeOf cond + sizeOf body := by simp
            have hsx : sizeOf x < n := by omega
            exact (ih (sizeOf x) hsx).2.2.2.2.1 x (le_refl _) (wfStmtList_mem hwb hx) f1
              (le_trans (encStmtList_mem_le hx) hfl_body) r2
          have hvec_body := readVecBy_enc (readStmt f1) encStmt encStmtList rfl
            (fun x l => rfl) body (wfLen_lt hl0) hitems_body
          simp [encStmt, readStmt, Bind.bind, Dec.bind, readU8, Dec.pure, TAG_STMT_LET, TAG_STMT_EXPR, TAG_STMT_RETURN, TAG_STMT_BREAK, TAG_STMT_CONTINUE, TAG_STMT_WHILE, TAG_STMT_FOR, TAG_STMT_FUNDEF, TAG_STMT_STRUCTDEF, TAG_STMT_ENUMDEF, TAG_STMT_IMPLBLOCK, TAG_STMT_MODDEF, TAG_STMT_IMPORT, TAG_STMT_TYPEALIAS, h_cond, hvec_body]
  | forS v iter body =>
      cases f with
      | zero => exact absurd hfuel (by simp only [encStmt, List.length_cons, List.length_append, List.length_nil]; omega)
      | succ f1 =>
          have hw' := hwf
          simp only [wfStmt, Bool.and_eq_true] at hw'
          obtain ⟨⟨⟨hwv, hwi⟩, hl0⟩, hwb⟩ := hw'
          have hfu := hfuel
          simp only [encStmt, List.length_cons, List.length_append, List.length_nil, encStr_length, encU32, natToLe_length,
            encBool] at hfu
          have h1 := readStr_enc v (wfStr_lt hwv)
          have hs_iter : sizeOf iter < n := by
            have hsp : sizeOf (Stmt.forS v iter body) = 1 + sizeOf v + sizeOf iter + sizeOf body := by simp
            omega
          have hf_iter : (encExpr iter).length ≤ f1 := by omega
          have h_iter : ∀ r2, readExpr f1 (encExpr iter ++ r2) = .ok (iter, r2) :=
            fun r2 => (ih (sizeOf iter) hs_iter).1 iter (le_refl _) hwi f1 hf_iter r2
          have hfl_body : (encStmtList body).length ≤ f1 := by omega
          have hitems_body : ∀ x ∈ body, ∀ r2, readStmt f1 (encStmt x ++ r2) = .ok (x, r2) := by
            intro x hx r2
            have h1m : sizeOf x < sizeOf body := List.sizeOf_lt_of_mem hx
            have h2m : sizeOf (Stmt.forS v iter body) = 1 + sizeOf v + sizeOf iter + sizeOf body := by simp
            have hsx : sizeOf x < n := by omega
            exact (ih (sizeOf x) hsx).2.2.2.2.1 x (le_refl _) (wfStmtList_mem hwb hx) f1
              (le_trans (encStmtList_mem_le hx) hfl_body) r2
          have hvec_body := readVecBy_enc (readStmt f1) encStmt encStmtList rfl
            (fun x l => rfl) body (wfLen_lt hl0) hitems_body
          simp [encStmt, readStmt, Bind.bind, Dec.bind, readU8, Dec.pure, TAG_STMT_LET, TAG_STMT_EXPR, TAG_STMT_RETURN, TAG_STMT_BREAK, TAG_STMT_CONTINUE, TAG_STMT_WHILE, TAG_STMT_FOR, TAG_STMT_FUNDEF, TAG_STMT_STRUCTDEF, TAG_STMT_ENUMDEF, TAG_STMT_IMPLBLOCK, TAG_STMT_MODDEF, TAG_STMT_IMPORT, TAG_STMT_TYPEALIAS, h1, h_iter, hvec_body]
  | funDefS fd =>
      cases f with
      | zero => exact absurd hfuel (by simp only [encStmt, List.length_cons, List.length_append, List.length_nil]; omega)
      | succ f1 =>
          have hwfd : wfFunDef fd = true := by simpa [wfStmt] using hwf
          have hfu := hfuel
          simp only [encStmt, List.length_cons, List.length_append, List.length_nil, encStr_length, encU32, natToLe_length,
            encBool] at hfu
          have hsfd : sizeOf fd < n := by
            have hsp : sizeOf (Stmt.funDefS fd) = 1 + sizeOf fd := by simp
            omega
          have hffd : (encFunDef fd).length ≤ f1 := by omega
          have hfd : ∀ r2, readFunDef f1 (encFunDef fd ++ r2) = .ok (fd, r2) :=
            fun r2 => (ih (sizeOf fd) hsfd).2.2.2.2.2.1 fd (le_refl _) hwfd f1 hffd r2
          simp [encStmt, readStmt, Bind.bind, Dec.bind, readU8, Dec.pure, TAG_STMT_LET, TAG_STMT_EXPR, TAG_STMT_RETURN, TAG_STMT_BREAK, TAG_STMT_CONTINUE, TAG_STMT_WHILE, TAG_STMT_FOR, TAG_STMT_FUNDEF, TAG_STMT_STRUCTDEF, TAG_STMT_ENUMDEF, TAG_STMT_IMPLBLOCK, TAG_STMT_MODDEF, TAG_STMT_IMPORT, TAG_STMT_TYPEALIAS, hfd]
  | structDefS d =>
      cases f with
      | zero => exact absurd hfuel (by simp only [encStmt, List.length_cons, List.length_append, List.length_nil]; omega)
      | succ f1 =>
          have hwd : wfStructDef d = true := by simpa [wfStmt] using hwf
          have hfu := hfuel
          simp only [encStmt, List.length_cons, List.length_append, List.length_nil, encStr_length, encU32, natToLe_length,
            encBool] at hfu
          have hty : ∀ fd2 ∈ d.fields, (encTy fd2.ty).length ≤ f1 + 1 := by
            intro fd2 hfd2
            have h1m := encStructFields_mem_le hfd2
            have h2m : (encStructFields d.fields).length ≤ (encStructDef d).length := by
              simp only [encStructDef, List.length_append]; omega
            omega
          have hd := readStructDef_enc (f1 + 1) d hwd hty
          simp [encStmt, readStmt, Bind.bind, Dec.bind, readU8, Dec.pure, TAG_STMT_LET, TAG_STMT_EXPR, TAG_STMT_RETURN, TAG_STMT_BREAK, TAG_STMT_CONTINUE, TAG_STMT_WHILE, TAG_STMT_FOR, TAG_STMT_FUNDEF, TAG_STMT_STRUCTDEF, TAG_STMT_ENUMDEF, TAG_STMT_IMPLBLOCK, TAG_STMT_MODDEF, TAG_STMT_IMPORT, TAG_STMT_TYPEALIAS, hd]
  | enumDefS d =>
      cases f with
      | zero => exact absurd hfuel (by simp only [encStmt, List.length_cons, List.length_append, List.length_nil]; omega)
      | succ f1 =>
          have hwd : wfEnumDef d = true := by simpa [wfStmt] using hwf
          have hfu := hfuel
          simp only [encStmt, List.length_cons, List.length_append, List.length_nil, encStr_length, encU32, natToLe_length,
            encBool] at hfu
          have hty : ∀ v2 ∈ d.variants, ∀ t2 ∈ v2.fields, (encTy t2).length ≤ f1 + 1 := by
            intro v2 hv2 t2 ht2
            have h1m := encTyList_mem_le ht2
            have h2m := encEnumVariants_mem_le hv2
            have h3m : (encEnumVariants d.variants).length ≤ (encEnumDef d).length := by
              simp only [encEnumDef, List.length_append]; omega
            omega
          have hd := readEnumDef_enc (f1 + 1) d hwd hty
          simp [encStmt, readStmt, Bind.bind, Dec.bind, readU8, Dec.pure, TAG_STMT_LET, TAG_STMT_EXPR, TAG_STMT_RETURN, TAG_STMT_BREAK, TAG_STMT_CONTINUE, TAG_STMT_WHILE, TAG_STMT_FOR, TAG_STMT_FUNDEF, TAG_STMT_STRUCTDEF, TAG_STMT_ENUMDEF, TAG_STMT_IMPLBLOCK, TAG_STMT_MODDEF, TAG_STMT_IMPORT, TAG_STMT_TYPEALIAS, hd]
  | implBlockS b =>
      cases f with
      | zero => exact absurd hfuel (by simp only [encStmt, List.length_cons, List.length_append, List.length_nil]; omega)
      | succ f1 =>
          have hwb : wfImplBlock b = true := by simpa [wfStmt] using hwf
          have hfu := hfuel
          simp only [encStmt, List.length_cons, List.length_append, List.length_nil, encStr_length, encU32, natToLe_length,
            encBool] at hfu
          have hsb : sizeOf b < n := by
            have hsp : sizeOf (Stmt.implBlockS b) = 1 + sizeOf b := by simp
            omega
          have hfb : (encImplBlock b).length ≤ f1 := by omega
          have hb : ∀ r2, readImplBlock f1 (encImplBlock b ++ r2) = .ok (b, r2) :=
            fun r2 => (ih (sizeOf b) hsb).2.2.2.2.2.2 b (le_refl _) hwb f1 hfb r2
          simp [encStmt, readStmt, Bind.bind, Dec.bind, readU8, Dec.pure, TAG_STMT_LET, TAG_STMT_EXPR, TAG_STMT_RETURN, TAG_STMT_BREAK, TAG_STMT_CONTINUE, TAG_STMT_WHILE, TAG_STMT_FOR, TAG_STMT_FUNDEF, TAG_STMT_STRUCTDEF, TAG_STMT_ENUMDEF, TAG_STMT_IMPLBLOCK, TAG_STMT_MODDEF, TAG_STMT_IMPORT, TAG_STMT_TYPEALIAS, hb]
  | modDef nm body =>
      cases f with
      | zero => exact absurd hfuel (by simp only [encStmt, List.length_cons, List.length_append, List.length_nil]; omega)
      | succ f1 =>
          have hw' := hwf
          simp only [wfStmt, Bool.and_eq_true] at hw'
          obtain ⟨⟨hwn, hl0⟩, hwb⟩ := hw'
          have hfu := hfuel
          simp only [encStmt, List.length_cons, List.length_append, List.length_nil, encStr_length, encU32, natToLe_length,
            encBool] at hfu
          have h1 := readStr_enc nm (wfStr_lt hwn)
          have hfl_body : (encStmtList body).length ≤ f1 := by omega
          have hitems_body : ∀ x ∈ body, ∀ r2, readStmt f1 (encStmt x ++ r2) = .ok (x, r2) := by
            intro x hx r2
            have h1m : sizeOf x < sizeOf body := List.sizeOf_lt_of_mem hx
            have h2m : sizeOf (Stmt.modDef nm body) = 1 + sizeOf nm + sizeOf body := by simp
            have hsx : sizeOf x < n := by omega
            exact (ih (sizeOf x) hsx).2.2.2.2.1 x (le_refl _) (wfStmtList_mem hwb hx) f1
              (le_trans (encStmtList_mem_le hx) hfl_body) r2
          have hvec_body := readVecBy_enc (readStmt f1) encStmt encStmtList rfl
            (fun x l => rfl) body (wfLen_lt hl0) hitems_body
          simp [encStmt, readStmt, Bind.bind, Dec.bind, readU8, Dec.pure, TAG_STMT_LET, TAG_STMT_EXPR, TAG_STMT_RETURN, TAG_STMT_BREAK, TAG_STMT_CONTINUE, TAG_STMT_WHILE, TAG_STMT_FOR, TAG_STMT_FUNDEF, TAG_STMT_STRUCTDEF, TAG_STMT_ENUMDEF, TAG_STMT_IMPLBLOCK, TAG_STMT_MODDEF, TAG_STMT_IMPORT, TAG_STMT_TYPEALIAS, h1, hvec_body]
  | importS path =>
      cases f with
      | zero => exact absurd hfuel (by simp only [encStmt, List.length_cons, List.length_append, List.length_nil]; omega)
      | succ f1 =>
          have hwp : wfStrVec path = true := by simpa [wfStmt] using hwf
          have hv := readStrVec_enc path hwp
          simp [encStmt, readStmt, Bind.bind, Dec.bind, readU8, Dec.pure, TAG_STMT_LET, TAG_STMT_EXPR, TAG_STMT_RETURN, TAG_STMT_BREAK, TAG_STMT_CONTINUE, TAG_STMT_WHILE, TAG_STMT_FOR, TAG_STMT_FUNDEF, TAG_STMT_STRUCTDEF, TAG_STMT_ENUMDEF, TAG_STMT_IMPLBLOCK, TAG_STMT_MODDEF, TAG_STMT_IMPORT, TAG_STMT_TYPEALIAS, hv]
  | typeAlias nm gs t =>
      cases f with
      | zero => exact absurd hfuel (by simp only [encStmt, List.length_cons, List.length_append, List.length_nil]; omega)
      | succ f1 =>
          have hw' := hwf
          simp only [wfStmt, Bool.and_eq_true] at hw'
          obtain ⟨⟨hwn, hwg⟩, hwt⟩ := hw'
          have hfu := hfuel
          simp only [encStmt, List.length_cons, List.length_append, List.length_nil, encStr_length, encU32, natToLe_length,
            encBool] at hfu
          have h1 := readStr_enc nm (wfStr_lt hwn)
          have h2 := readStrVec_enc gs hwg
          have hty : ∀ r2, readTy (f1 + 1) (encTy t ++ r2) = .ok (t, r2) :=
            fun r2 => readTy_enc (sizeOf t) t (le_refl _) hwt (f1 + 1) (by omega) r2
          simp [encStmt, readStmt, Bind.bind, Dec.bind, readU8, Dec.pure, TAG_STMT_LET, TAG_STMT_EXPR, TAG_STMT_RETURN, TAG_STMT_BREAK, TAG_STMT_CONTINUE, TAG_STMT_WHILE, TAG_STMT_FOR, TAG_STMT_FUNDEF, TAG_STMT_STRUCTDEF, TAG_STMT_ENUMDEF, TAG_STMT_IMPLBLOCK, TAG_STMT_MODDEF, TAG_STMT_IMPORT, TAG_STMT_TYPEALIAS, h1, h2, hty]
  intro fd hsize hwf f hfuel rest
  cases fd with
  | mk nm gens params rt body pub =>
      cases f with
      | zero =>
          refine absurd hfuel ?_
          simp only [encFunDef, List.length_append, encStr_length]
          omega
      | succ f1 =>
          have hw' := hwf
          simp only [wfFunDef, Bool.and_eq_true] at hw'
          obtain ⟨⟨⟨⟨⟨⟨hwn, hwg⟩, hlp⟩, hwp⟩, hwrt⟩, hlb⟩, hwb⟩ := hw'
          have hfu := hfuel
          simp only [encFunDef, List.length_cons, List.length_append, List.length_nil, encStr_length, encU32, natToLe_length,
            encBool] at hfu
          have h1 := readStr_enc nm (wfStr_lt hwn)
          have h2 := readStrVec_enc gens hwg
          have hfl_params : (encParamList params).length ≤ f1 := by omega
          have hitems_params : ∀ x ∈ params, ∀ r2, readParam f1 (encParam x ++ r2) = .ok (x, r2) := by
            intro x hx r2
            have h1m : sizeOf x < sizeOf params := List.sizeOf_lt_of_mem hx
            have h2m : sizeOf (FunDef.mk nm gens params rt body pub) = 1 + sizeOf nm + sizeOf gens + sizeOf params + sizeOf rt + sizeOf body + sizeOf pub := by simp
            have hsx : sizeOf x < n := by omega
            exact (ih (sizeOf x) hsx).2.2.2.1 x (le_refl _) (wfParamList_mem hwp hx) f1
              (le_trans (encParamList_mem_le hx) hfl_params) r2
          have hvec_params := readVecBy_enc (readParam f1) encParam encParamList rfl
            (fun x l => rfl) params (wfLen_lt hlp) hitems_params
          have hrt := readOptTy_enc (f1 + 1) rt hwrt (by omega)
          have hfl_body : (encStmtList body).length ≤ f1 := by omega
          have hitems_body : ∀ x ∈ body, ∀ r2, readStmt f1 (encStmt x ++ r2) = .ok (x, r2) := by
            intro x hx r2
            have h1m : sizeOf x < sizeOf body := List.sizeOf_lt_of_mem hx
            have h2m : sizeOf (FunDef.mk nm gens params rt body pub) = 1 + sizeOf nm + sizeOf gens + sizeOf params + sizeOf rt + sizeOf body + sizeOf pub := by simp
            have hsx : sizeOf x < n := by omega
            exact (ih (sizeOf x) hsx).2.2.2.2.1 x (le_refl _) (wfStmtList_mem hwb hx) f1
              (le_trans (encStmtList_mem_le hx) hfl_body) r2
          have hvec_body := readVecBy_enc (readStmt f1) encStmt encStmtList rfl
            (fun x l => rfl) body (wfLen_lt hlb) hitems_body
          have hpub := readBool_enc pub
          simp [encFunDef, readFunDef, Bind.bind, Dec.bind, readU8, Dec.pure, h1, h2, hvec_params, hrt, hvec_body, hpub]
  intro ib hsize hwf f hfuel rest
  cases ib with
  | mk tgt gens methods =>
      cases f with
      | zero =>
          refine absurd hfuel ?_
          simp only [encImplBlock, List.length_append, encStr_length]
          omega
      | succ f1 =>
          have hw' := hwf
          simp only [wfImplBlock, Bool.and_eq_true] at hw'
          obtain ⟨⟨⟨hwt, hwg⟩, hlm⟩, hwm⟩ := hw'
          have hfu := hfuel
          simp only [encImplBlock, List.length_cons, List.length_append, List.length_nil, encStr_length, encU32, natToLe_length,
            encBool] at hfu
          have h1 := readStr_enc tgt (wfStr_lt hwt)
          have h2 := readStrVec_enc gens hwg
          have hfl_methods : (encFunDefList methods).length ≤ f1 := by omega
          have hitems_methods : ∀ x ∈ methods, ∀ r2, readFunDef f1 (encFunDef x ++ r2) = .ok (x, r2) := by
            intro x hx r2
            have h1m : sizeOf x < sizeOf methods := List.sizeOf_lt_of_mem hx
            have h2m : sizeOf (ImplBlock.mk tgt gens methods) = 1 + sizeOf tgt + sizeOf gens + sizeOf methods := by simp
            have hsx : sizeOf x < n := by omega
            exact (ih (sizeOf x) hsx).2.2.2.2.2.1 x (le_refl _) (wfFunDefList_mem hwm hx) f1
              (le_trans (encFunDefList_mem_le hx) hfl_methods) r2
          have hvec_methods := readVecBy_enc (readFunDef f1) encFunDef encFunDefList rfl
            (fun x l => rfl) methods (wfLen_lt hlm) hitems_methods
          simp [encImplBlock, readImplBlock, Bind.bind, Dec.bind, readU8, Dec.pure, h1, h2, hvec_methods]



/-- Specialization of the round-trip induction to a single statement. -/
theorem readStmt_enc (s : Stmt) (hwf : wfStmt s = true) (f : Nat)
    (hf : (encStmt s).length ≤ f) :
    ∀ rest, readStmt f (encStmt s ++ rest) = .ok (s, rest) :=
  fun rest => (decRoundAux (sizeOf s)).2.2.2.2.1 s (le_refl _) hwf f hf rest

/-- Specialization of the round-trip induction to a single expression. -/
theorem readExpr_enc (e : Expr) (hwf : wfExpr e = true) (f : Nat)
    (hf : (encExpr e).length ≤ f) :
    ∀ rest, readExpr f (encExpr e ++ rest) = .ok (e, rest) :=
  fun rest => (decRoundAux (sizeOf e)).1 e (le_refl _) hwf f hf rest

/-- `bytecode::decode` inverts `bytecode::encode` on every well-formed
program (no `u32` count or length field truncates; automatic for data
produced from in-memory Rust values), returning the stored fingerprint
`fnv1a source` unchanged. -/
theorem decode_encode (stmts : List Stmt) (src : ZStr)
    (hwf : wfStmtList stmts = true) (hlen : stmts.length < 2 ^ 32) :
    decode (encode stmts src) = .ok (stmts, fnv1a src) := by
  have h1 : encode stmts src = natToLe 4 MAGIC ++ (natToLe 2 VERSION ++
      (natToLe 8 (fnv1a src) ++ (natToLe 4 stmts.length ++ encStmtList stmts))) := by
    simp [encode, List.append_assoc]
  have e6 : encode stmts src = (natToLe 4 MAGIC ++ natToLe 2 VERSION) ++
      (natToLe 8 (fnv1a src) ++ (natToLe 4 stmts.length ++ encStmtList stmts)) := by
    simp [encode, List.append_assoc]
  have e14 : encode stmts src = ((natToLe 4 MAGIC ++ natToLe 2 VERSION) ++
      natToLe 8 (fnv1a src)) ++ (natToLe 4 stmts.length ++ encStmtList stmts) := by
    simp [encode, List.append_assoc]
  have e18 : encode stmts src = (((natToLe 4 MAGIC ++ natToLe 2 VERSION) ++
      natToLe 8 (fnv1a src)) ++ natToLe 4 stmts.length) ++ encStmtList stmts := by
    simp [encode, List.append_assoc]
  have htake4 : (encode stmts src).take 4 = natToLe 4 MAGIC := by
    rw [h1]; exact List.take_left' (natToLe_length _ _)
  have hdrop4 : (encode stmts src).drop 4 = natToLe 2 VERSION ++
      (natToLe 8 (fnv1a src) ++ (natToLe 4 stmts.length ++ encStmtList stmts)) := by
    rw [h1]; exact List.drop_left' (natToLe_length _ _)
  have hver : ((encode stmts src).drop 4).take 2 = natToLe 2 VERSION := by
    rw [hdrop4]; exact List.take_left' (natToLe_length _ _)
  have hdrop6 : (encode stmts src).drop 6 = natToLe 8 (fnv1a src) ++
      (natToLe 4 stmts.length ++ encStmtList stmts) := by
    rw [e6]
    exact List.drop_left' (by simp [List.length_append, natToLe_length])
  have hhash : ((encode stmts src).drop 6).take 8 = natToLe 8 (fnv1a src) := by
    rw [hdrop6]; exact List.take_left' (natToLe_length _ _)
  have hdrop14 : (encode stmts src).drop 14 =
      natToLe 4 stmts.length ++ encStmtList stmts := by
    rw [e14]
    exact List.drop_left' (by simp [List.length_append, natToLe_length])
  have hcnt : ((encode stmts src).drop 14).take 4 = natToLe 4 stmts.length := by
    rw [hdrop14]; exact List.take_left' (natToLe_length _ _)
  have hdrop18 : (encode stmts src).drop 18 = encStmtList stmts := by
    rw [e18]
    exact List.drop_left' (by simp [List.length_append, natToLe_length])
  have hlen18 : ¬ ((encode stmts src).length < 18) := by
    simp only [encode, List.length_append, natToLe_length]
    omega
  have hm : leToNat (natToLe 4 MAGIC) = MAGIC := by decide
  have hv : leToNat (natToLe 2 VERSION) = VERSION := by decide
  have hh : leToNat (natToLe 8 (fnv1a src)) = fnv1a src := by
    rw [leToNat_natToLe]
    have h256 : (256 : Nat) ^ 8 = 2 ^ 64 := by norm_num
    rw [h256]
    exact Nat.mod_eq_of_lt (fnv1a_lt src)
  have hc : leToNat (natToLe 4 stmts.length) = stmts.length := by
    rw [leToNat_natToLe]
    have h256 : (256 : Nat) ^ 4 = 2 ^ 32 := by norm_num
    rw [h256]
    exact Nat.mod_eq_of_lt hlen
  have hitems : ∀ x ∈ stmts, ∀ r2,
      readStmt ((encStmtList stmts).length + 1) (encStmt x ++ r2) = .ok (x, r2) := by
    intro x hx r2
    exact readStmt_enc x (wfStmtList_mem hwf hx) _
      (le_trans (encStmtList_mem_le hx) (Nat.le_succ _)) r2
  have hrv := readVecItems_enc (readStmt ((encStmtList stmts).length + 1)) encStmt
    encStmtList rfl (fun x l => rfl) stmts hitems []
  have hrv' : readVecItems (readStmt ((encStmtList stmts).length + 1)) stmts.length
      (encStmtList stmts) = .ok (stmts, []) := by
    simpa using hrv
  simp only [decode]
  rw [if_neg hlen18]
  simp [htake4, hm, hver, hv, hhash, hh, hcnt, hc, hdrop18, hrv']

theorem claim_C5_bundler_idempotence (host P P2 : List Nat)
    (hP : P.length < 2 ^ 64) :
    ((bundleBytes host P).drop ((bundleBytes host P).length - 16)
        = SENTINEL ++ natToLe 8 P.length)
    ∧ ((bundleBytes host P).take ((bundleBytes host P).length - 16)
        = stripPayload host ++ P)
    ∧ bundleBytes (bundleBytes host P) P2 = bundleBytes host P2 := by
  have hLlen : (natToLe 8 P.length).length = 8 := natToLe_length 8 P.length
  have hdata : bundleBytes host P
      = (stripPayload host ++ P) ++ (SENTINEL ++ natToLe 8 P.length) := by
    unfold bundleBytes
    simp [List.append_assoc]
  have hlen16 : (bundleBytes host P).length - 16 = (stripPayload host ++ P).length := by
    rw [hdata]
    simp only [List.length_append, hLlen, sentinel_length]
    omega
  refine ⟨?_, ?_, ?_⟩
  · rw [hlen16, hdata, List.drop_left]
  · rw [hlen16, hdata, List.take_left]
  · show stripPayload (bundleBytes host P) ++ P2 ++ SENTINEL ++ natToLe 8 P2.length
        = bundleBytes host P2
    rw [stripPayload_bundleBytes host P hP]
    rfl

/-- Claim C2 (settles it against the code): decoding the encoding of any
well-formed program returns the original AST together with the hash the
source computes (shown universally, and on the concrete program
`[let x = 7; x + 1]` with source `"a"`) — but that hash is not the FNV-1a
64-bit hash: the source multiplies by `0x100000000001b3` where FNV-1a 64
is defined with the prime `0x100000001b3` (the code's own doc comment says
"FNV-1a 64-bit hash").  `fnv1aSpec` is the spec-faithful reference hash. -/
theorem claim_C2_roundtrip_but_hash_not_fnv1a :
    (∀ (stmts : List Stmt) (src : ZStr), wfStmtList stmts = true →
        stmts.length < 2 ^ 32 → decode (encode stmts src) = .ok (stmts, fnv1a src))
    ∧ decode (encode
        [Stmt.letS [120] none (Expr.int 7) false,
         Stmt.exprS (Expr.binOp (Expr.var [120]) BinOp.add (Expr.int 1))] [0x61])
      = .ok ([Stmt.letS [120] none (Expr.int 7) false,
              Stmt.exprS (Expr.binOp (Expr.var [120]) BinOp.add (Expr.int 1))],
             fnv1a [0x61])
    ∧ fnv1a [0x61] = 13943311900772265100
    ∧ fnv1aSpec [0x61] = 0xaf63dc4c8601ec8c
    ∧ fnv1a [0x61] ≠ fnv1aSpec [0x61] :=
  ⟨decode_encode, rfl, by decide, by decide, by decide⟩

/-- Witness: the universal round-trip conjunct of C2 applied to the
concrete one-statement program `1;` with source byte `"a"`. -/
theorem claim_C2_roundtrip_but_hash_not_fnv1a_witness :
    decode (encode [Stmt.exprS (Expr.int 1)] [0x61])
      = .ok ([Stmt.exprS (Expr.int 1)], fnv1a [0x61]) :=
  claim_C2_roundtrip_but_hash_not_fnv1a.1 [Stmt.exprS (Expr.int 1)] [0x61]
    (by decide) (by decide)

/-- Claim C8: in every tag space (expression, statement, type, pattern,
binary operator, unary operator, string part), a tag byte outside the
assigned set makes the decoder fail with an error naming that tag; and a
whole payload whose statement tag is unassigned decodes to that error. -/
theorem claim_C8_unknown_tag_rejected :
    (∀ f t rest, t ∉ exprTagList →
        readExpr (f + 1) (t :: rest) = .error (.unknownTag "expr" t))
    ∧ (∀ f t rest, t ∉ stmtTagList →
        readStmt (f + 1) (t :: rest) = .error (.unknownTag "stmt" t))
    ∧ (∀ f t rest, t ∉ typeTagList →
        readTy (f + 1) (t :: rest) = .error (.unknownTag "type" t))
    ∧ (∀ f t rest, t ∉ patternTagList →
        readPattern (f + 1) (t :: rest) = .error (.unknownTag "pattern" t))
    ∧ (∀ t rest, t ∉ binopTagList →
        readBinOp (t :: rest) = .error (.unknownTag "binop" t))
    ∧ (∀ t rest, t ∉ unaryTagList →
        readUnaryOp (t :: rest) = .error (.unknownTag "unaryop" t))
    ∧ (∀ f t rest, t ∉ strPartTagList →
        readStringPart (f + 1) (t :: rest) = .error (.unknownTag "string part" t))
    ∧ decode (natToLe 4 MAGIC ++ natToLe 2 VERSION ++ natToLe 8 0 ++
          natToLe 4 1 ++ [0x00])
        = .error (.body (.unknownTag "stmt" 0)) :=
  ⟨fun f t rest h => readExpr_unknownTag f t rest h,
   fun f t rest h => readStmt_unknownTag f t rest h,
   fun f t rest h => readTy_unknownTag f t rest h,
   fun f t rest h => readPattern_unknownTag f t rest h,
   fun t rest h => readBinOp_unknownTag t rest h,
   fun t rest h => readUnaryOp_unknownTag t rest h,
   fun f t rest h => readStringPart_unknownTag f t rest h,
   rfl⟩

/-- Witness for C8: each reader rejects a concrete unassigned tag. -/
theorem claim_C8_unknown_tag_rejected_witness :
    readExpr 1 [0x20] = .error (.unknownTag "expr" 0x20)
    ∧ readStmt 1 [0x00] = .error (.unknownTag "stmt" 0x00)
    ∧ readTy 1 [0x00] = .error (.unknownTag "type" 0x00)
    ∧ readPattern 1 [0x00] = .error (.unknownTag "pattern" 0x00)
    ∧ readBinOp [0x00] = .error (.unknownTag "binop" 0x00)
    ∧ readUnaryOp [0x03] = .error (.unknownTag "unaryop" 0x03)
    ∧ readStringPart 1 [0x00] = .error (.unknownTag "string part" 0x00) :=
  ⟨claim_C8_unknown_tag_rejected.1 0 0x20 [] (by decide),
   claim_C8_unknown_tag_rejected.2.1 0 0x00 [] (by decide),
   claim_C8_unknown_tag_rejected.2.2.1 0 0x00 [] (by decide),
   claim_C8_unknown_tag_rejected.2.2.2.1 0 0x00 [] (by decide),
   claim_C8_unknown_tag_rejected.2.2.2.2.1 0x00 [] (by decide),
   claim_C8_unknown_tag_rejected.2.2.2.2.2.1 0x03 [] (by decide),
   claim_C8_unknown_tag_rejected.2.2.2.2.2.2.1 0 0x00 [] (by decide)⟩

/-- Witness for C5 at concrete bytes. -/
theorem claim_C5_bundler_idempotence_witness :
    ([9, 9, 9] : List Nat).length < 2 ^ 64
    ∧ (((bundleBytes [1, 2, 3] [9, 9, 9]).drop
          ((bundleBytes [1, 2, 3] [9, 9, 9]).length - 16)
            = SENTINEL ++ natToLe 8 ([9, 9, 9] : List Nat).length)
        ∧ ((bundleBytes [1, 2, 3] [9, 9, 9]).take
            ((bundleBytes [1, 2, 3] [9, 9, 9]).length - 16)
              = stripPayload [1, 2, 3] ++ [9, 9, 9])
        ∧ bundleBytes (bundleBytes [1, 2, 3] [9, 9, 9]) [7]
            = bundleBytes [1, 2, 3] [7]) :=
  ⟨by decide, claim_C5_bundler_idempotence [1, 2, 3] [9, 9, 9] [7] (by decide)⟩

/-- When some node on the chain binds the name, `Env::set` mutates the
nearest such cell in place — the environment nodes are untouched, so no
binding is created — and reports `true`. -/
theorem envSet_found (f : Nat) (st : St) (addr : Nat) (name : ZStr) (v : Value)
    (cell : Nat) (h : chainLookup f st addr name = some cell) :
    envSet f addr name v st = ({ st with cells := st.cells.set cell v }, .ok true) := by
  induction f generalizing addr with
  | zero => simp [chainLookup] at h
  | succ f ih =>
    match hnode : st.envs[addr]? with
    | none => simp [chainLookup, hnode] at h
    | some node =>
      match hget : alGet node.vars name with
      | some c2 =>
        simp [chainLookup, hnode, hget] at h
        subst h
        simp [envSet, Bind.bind, M.bind, readEnv, hnode, hget, writeCell, M.pure]
      | none =>
        match hpar : node.parent with
        | some p =>
          have h2 : chainLookup f st p name = some cell := by
            simpa [chainLookup, hnode, hget, hpar] using h
          simp only [envSet, Bind.bind, M.bind, readEnv, hnode, hget, hpar]
          exact ih p h2
        | none => simp [chainLookup, hnode, hget, hpar] at h

/-- `Env::set` reports `true` exactly when some node on the chain binds
the name; on `false` the state is untouched. -/
theorem envSet_charact (f : Nat) (st : St) (addr : Nat) (name : ZStr) (v : Value)
    (st2 : St) (b : Bool) (hrun : envSet f addr name v st = (st2, .ok b)) :
    (b = true ↔ ∃ cell, chainLookup f st addr name = some cell)
    ∧ (b = false → st2 = st ∧ chainLookup f st addr name = none) := by
  induction f generalizing addr with
  | zero => simp [envSet, mOof] at hrun
  | succ f ih =>
    match hnode : st.envs[addr]? with
    | none =>
      simp [envSet, Bind.bind, M.bind, readEnv, hnode] at hrun
    | some node =>
      match hget : alGet node.vars name with
      | some c2 =>
        simp [envSet, Bind.bind, M.bind, readEnv, hnode, hget, writeCell, M.pure] at hrun
        simp [chainLookup, hnode, hget, hrun.2]
      | none =>
        match hpar : node.parent with
        | some p =>
          simp only [envSet, Bind.bind, M.bind, readEnv, hnode, hget, hpar] at hrun
          have := ih p hrun
          simpa [chainLookup, hnode, hget, hpar] using this
        | none =>
          simp [envSet, Bind.bind, M.bind, readEnv, hnode, hget, hpar, M.pure] at hrun
          obtain ⟨hst, hb⟩ := hrun
          subst hst
          subst hb
          simp [chainLookup, hnode, hget, hpar]

/-- Claim C1: the `?` operator unwraps `Ok(x)`/`Some(x)` to `x`, turns
`Err(e)` into PropagateErr(e), turns `None`/`Nil` into
PropagateErr(String("None")), and forwards any other value unchanged;
and a user-defined call frame converts a `Return(v)` escaping the body
into the return value `v` and a `PropagateErr(e)` into the return value
`Err(e)`. -/
theorem claim_C1_question_operator_and_call_frame :
    (∀ f e env st st1 x, evalExpr f e env st = (st1, .ok (.result (.inl x))) →
        evalExpr (f + 1) (.question e) env st = (st1, .ok x))
    ∧ (∀ f e env st st1 er, evalExpr f e env st = (st1, .ok (.result (.inr er))) →
        evalExpr (f + 1) (.question e) env st = (st1, .sig (.propagateErr er)))
    ∧ (∀ f e env st st1 x, evalExpr f e env st = (st1, .ok (.option (some x))) →
        evalExpr (f + 1) (.question e) env st = (st1, .ok x))
    ∧ (∀ f e env st st1, evalExpr f e env st = (st1, .ok (.option none)) →
        evalExpr (f + 1) (.question e) env st
          = (st1, .sig (.propagateErr (.str (ascii "None")))))
    ∧ (∀ f e env st st1, evalExpr f e env st = (st1, .ok .nil) →
        evalExpr (f + 1) (.question e) env st
          = (st1, .sig (.propagateErr (.str (ascii "None")))))
    ∧ (∀ f e env st st1 v, evalExpr f e env st = (st1, .ok v) →
        questionOther v = true →
        evalExpr (f + 1) (.question e) env st = (st1, .ok v))
    ∧ (∀ f nm params body cenv args env st stB stC v,
        bindParams f params args env st.envs.length
            { st with envs := st.envs ++ [⟨[], some cenv⟩] } = (stB, .ok ()) →
        execBlock f body st.envs.length stB = (stC, .sig (.ret v)) →
        callValue (f + 1) (.func (.userDefined nm params body cenv)) args env st
          = (stC, .ok v))
    ∧ (∀ f nm params body cenv args env st stB stC e2,
        bindParams f params args env st.envs.length
            { st with envs := st.envs ++ [⟨[], some cenv⟩] } = (stB, .ok ()) →
        execBlock f body st.envs.length stB = (stC, .sig (.propagateErr e2)) →
        callValue (f + 1) (.func (.userDefined nm params body cenv)) args env st
          = (stC, .ok (.result (.inr e2)))) := by
  refine ⟨?_, ?_, ?_, ?_, ?_, ?_, ?_, ?_⟩
  · intro f e env st st1 x h
    simp [evalExpr, Bind.bind, M.bind, h, M.pure]
  · intro f e env st st1 er h
    simp [evalExpr, Bind.bind, M.bind, h, mSig]
  · intro f e env st st1 x h
    simp [evalExpr, Bind.bind, M.bind, h, M.pure]
  · intro f e env st st1 h
    simp [evalExpr, Bind.bind, M.bind, h, mSig]
  · intro f e env st st1 h
    simp [evalExpr, Bind.bind, M.bind, h, mSig]
  · intro f e env st st1 v h hother
    cases v <;> simp [questionOther] at hother <;>
      simp [evalExpr, Bind.bind, M.bind, h, M.pure]
  · intro f nm params body cenv args env st stB stC v hbind hbody
    simp [callValue, Bind.bind, M.bind, allocEnv, mTry, hbind, hbody, M.pure]
  · intro f nm params body cenv args env st stB stC e2 hbind hbody
    simp [callValue, Bind.bind, M.bind, allocEnv, mTry, hbind, hbody, M.pure]

/-- Witness for C1 at concrete inputs: `Ok(10)? = 10`, and a body that
returns 5 makes the call yield 5. -/
theorem claim_C1_question_operator_and_call_frame_witness :
    evalExpr 3 (.question (.okE (.int 10))) 0 initState = (initState, .ok (.int 10))
    ∧ callValue 5 (.func (.userDefined none [] [.retS (some (.int 5))] 0)) [] 0 initState
        = ({ initState with envs := initState.envs ++ [⟨[], some 0⟩] }, .ok (.int 5)) :=
  ⟨claim_C1_question_operator_and_call_frame.1 2 (.okE (.int 10)) 0 initState
      initState (.int 10) rfl,
   claim_C1_question_operator_and_call_frame.2.2.2.2.2.2.1 4 none []
      [.retS (some (.int 5))] 0 [] 0 initState
      { initState with envs := initState.envs ++ [⟨[], some 0⟩] }
      { initState with envs := initState.envs ++ [⟨[], some 0⟩] } (.int 5) rfl rfl⟩

/-- Claim C10: a user-defined call frame lets `Break`, `Continue` and
`Error` pass through unchanged (it catches only `Return` and
`PropagateErr`); a `while` loop catches `Break` (loop yields `Nil`) and
`Continue` (loop resumes); only a `Break`/`Continue` that reaches the top
level is reported as "break outside loop"/"continue outside loop"; and
the concrete program `fun f() { break }  while true { f() }` runs to
successful completion while a top-level `break` alone is the
outside-loop error. -/
theorem claim_C10_break_continue_error_propagation :
    (∀ f nm params body cenv args env st stB stC s,
        bindParams f params args env st.envs.length
            { st with envs := st.envs ++ [⟨[], some cenv⟩] } = (stB, .ok ()) →
        execBlock f body st.envs.length stB = (stC, .sig s) →
        (s = .brk ∨ s = .contin ∨ (∃ m, s = .error m)) →
        callValue (f + 1) (.func (.userDefined nm params body cenv)) args env st
          = (stC, .sig s))
    ∧ (∀ f cond body env st st1 cv,
        evalExpr f cond env st = (st1, .ok cv) →
        isTruthy cv = true →
        ∀ st2, execBlock f body st1.envs.length
            { st1 with envs := st1.envs ++ [⟨[], some env⟩] } = (st2, .sig .brk) →
        whileLoop (f + 1) cond body env st = (st2, .ok .nil))
    ∧ (∀ f cond body env st st1 cv,
        evalExpr f cond env st = (st1, .ok cv) →
        isTruthy cv = true →
        ∀ st2, execBlock f body st1.envs.length
            { st1 with envs := st1.envs ++ [⟨[], some env⟩] } = (st2, .sig .contin) →
        whileLoop (f + 1) cond body env st = whileLoop f cond body env st2)
    ∧ topOutcome (.sig .brk) = .breakOutsideLoop
    ∧ topOutcome (.sig .contin) = .continueOutsideLoop
    ∧ (∀ v, topOutcome (.ok v) = .success)
    ∧ (∀ v, topOutcome (.sig (.ret v)) = .success)
    ∧ topOutcome (runProgram 20 breakThroughCallProg).2 = .success
    ∧ topOutcome (runProgram 10 [Stmt.brk]).2 = .breakOutsideLoop
    ∧ topOutcome (runProgram 10 [Stmt.contin]).2 = .continueOutsideLoop := by
  refine ⟨?_, ?_, ?_, rfl, rfl, fun v => rfl, fun v => rfl, rfl, rfl, rfl⟩
  · intro f nm params body cenv args env st stB stC s hbind hbody hs
    simp [callValue, Bind.bind, M.bind, allocEnv, mTry, hbind, hbody, M.pure, mSig]
    rcases hs with h | h | ⟨m, h⟩ <;> subst h <;> rfl
  · intro f cond body env st st1 cv hcond htruthy st2 hbody
    simp [whileLoop, Bind.bind, M.bind, hcond, htruthy, allocEnv, mTry, hbody, M.pure]
  · intro f cond body env st st1 cv hcond htruthy st2 hbody
    simp [whileLoop, Bind.bind, M.bind, hcond, htruthy, allocEnv, mTry, hbody, M.pure]

/-- Witness for C10: a body that breaks makes the frame pass `Break`
through, and a `while true { break }` yields `Nil`. -/
theorem claim_C10_break_continue_error_propagation_witness :
    callValue 5 (.func (.userDefined none [] [Stmt.brk] 0)) [] 0 initState
      = ({ initState with envs := initState.envs ++ [⟨[], some 0⟩] }, .sig .brk)
    ∧ whileLoop 5 (.bool true) [Stmt.brk] 0 initState
      = ({ initState with envs := initState.envs ++ [⟨[], some 0⟩] }, .ok .nil) :=
  ⟨claim_C10_break_continue_error_propagation.1 4 none [] [Stmt.brk] 0 [] 0 initState
      { initState with envs := initState.envs ++ [⟨[], some 0⟩] }
      { initState with envs := initState.envs ++ [⟨[], some 0⟩] } .brk rfl rfl
      (Or.inl rfl),
   claim_C10_break_continue_error_propagation.2.1 4 (.bool true) [Stmt.brk] 0 initState
      initState (.bool true) rfl rfl
      { initState with envs := initState.envs ++ [⟨[], some 0⟩] } rfl⟩

/-- Claim C3 (code bug): `/` with an `Int 0` or zero-float divisor does
raise Error("Division by zero"), but `%` has no zero-divisor guard: an
`Int % Int(0)` reaches the raw i64 remainder and panics (and a float
modulus by zero would produce NaN) instead of raising the error the spec
requires. -/
theorem claim_C3_division_by_zero_guard :
    (∀ f st l, evalBinop f l .div (.int 0) st
        = (st, .sig (.error (ascii "Division by zero"))))
    ∧ (∀ f st l b, f64IsZero b = true →
        evalBinop f l .div (.float b) st
          = (st, .sig (.error (ascii "Division by zero"))))
    ∧ (∀ f st a, evalBinop f (.int a) .mod (.int 0) st
        = (st, .pnc "attempt to calculate the remainder with a divisor of zero"))
    ∧ evalBinop 5 (.int 5) .mod (.int 0) initState
        = (initState, .pnc "attempt to calculate the remainder with a divisor of zero") := by
  refine ⟨?_, ?_, ?_, rfl⟩
  · intro f st l
    simp [evalBinop, mErr, mSig]
  · intro f st l b hz
    simp [evalBinop, hz, mErr, mSig]
  · intro f st a
    simp [evalBinop, numericOp, i64Rem, mPnc, M.pure]

/-- Witness for C3 at concrete inputs (including the `0.0` float
divisor, whose bit pattern is 0). -/
theorem claim_C3_division_by_zero_guard_witness :
    evalBinop 5 (.int 7) .div (.int 0) initState
      = (initState, .sig (.error (ascii "Division by zero")))
    ∧ f64IsZero 0 = true
    ∧ evalBinop 5 (.int 7) .div (.float 0) initState
      = (initState, .sig (.error (ascii "Division by zero")))
    ∧ evalBinop 5 (.int 7) .mod (.int 0) initState
      = (initState, .pnc "attempt to calculate the remainder with a divisor of zero") :=
  ⟨claim_C3_division_by_zero_guard.1 5 initState (.int 7),
   by decide,
   claim_C3_division_by_zero_guard.2.1 5 initState (.int 7) 0 (by decide),
   claim_C3_division_by_zero_guard.2.2.1 5 initState 7⟩

/-- Claim C4 (code bug): `Pattern::Or` passes the same environment to
both alternatives, so the binding `x := 5` made by the failed first
alternative of `(x, 1) | (_, y)` against `(5, 2)` stays visible: the arm
body `x` evaluates to `5` instead of raising
Error("Undefined variable 'x'"), and after the match both `x` and `y`
are bound in the match environment. -/
theorem claim_C4_or_pattern_binding_leak :
    (evalExpr 10 leakExpr 0 initState).2 = .ok (.int 5)
    ∧ (matchPattern
         (.orP (.tupleP [.ident (ascii "x"), .intP 1])
               (.tupleP [.wildcard, .ident (ascii "y")]))
         (.tuple [.int 5, .int 2]) 1
         { initState with envs := initState.envs ++ [⟨[], some 0⟩] }).2 = .ok true
    ∧ ((matchPattern
         (.orP (.tupleP [.ident (ascii "x"), .intP 1])
               (.tupleP [.wildcard, .ident (ascii "y")]))
         (.tuple [.int 5, .int 2]) 1
         { initState with envs := initState.envs ++ [⟨[], some 0⟩] }).1.envs[1]?.map
           (fun node => node.vars.map (·.1)))
        = some [ascii "x", ascii "y"]
    ∧ (envGet 5 1 (ascii "x")
         (matchPattern
           (.orP (.tupleP [.ident (ascii "x"), .intP 1])
                 (.tupleP [.wildcard, .ident (ascii "y")]))
           (.tuple [.int 5, .int 2]) 1
           { initState with envs := initState.envs ++ [⟨[], some 0⟩] }).1).2
        = .ok (some (.int 5)) :=
  ⟨rfl, rfl, rfl, rfl⟩

/-- Equality under `==` is `false` whenever either side is a `List`,
`Map`, `Struct`, `Enum`, `Function` or `Ref` value: no arm of the
`PartialEq` match covers them. -/
theorem valueEq_container_false (v w : Value)
    (h : containerLike v = true ∨ containerLike w = true) :
    valueEq v w = false := by
  rcases h with h | h
  · cases v <;> simp [containerLike] at h <;> rfl
  · cases w <;> simp [containerLike] at h <;>
      cases v <;> (try rfl) <;> (rename_i o; cases o <;> rfl)

/-- Claim C9: `==` reports `false` for every pair of operands when either
operand is a `List`, `Map`, `Struct`, `Ref`, `Function` or `Enum` value —
including a value compared against itself — and therefore the list
`contains` built-in can never report `true` for such an element. -/
theorem claim_C9_container_equality_always_false :
    (∀ v w, containerLike v = true ∨ containerLike w = true →
        valueEq v w = false)
    ∧ (∀ v, containerLike v = true → valueEq v v = false)
    ∧ (∀ xs item, containerLike item = true → listContains xs item = false) := by
  refine ⟨valueEq_container_false, ?_, ?_⟩
  · intro v h
    exact valueEq_container_false v v (Or.inl h)
  · intro xs item h
    induction xs with
    | nil => simp [listContains]
    | cons a as_ ih =>
        simp [listContains] at ih ⊢
        exact ⟨valueEq_container_false a item (Or.inr h), ih⟩

/-- Witness for C9: two structurally identical zero-field enum values
compare unequal, a shared list handle is not `==` to itself, and
`contains` misses an element that is a list handle. -/
theorem claim_C9_container_equality_always_false_witness :
    valueEq (.enum (ascii "E") (ascii "V") []) (.enum (ascii "E") (ascii "V") []) = false
    ∧ valueEq (.list 0) (.list 0) = false
    ∧ listContains [.list 0] (.list 0) = false :=
  ⟨claim_C9_container_equality_always_false.1
      (.enum (ascii "E") (ascii "V") []) (.enum (ascii "E") (ascii "V") []) (Or.inl rfl),
   claim_C9_container_equality_always_false.2.1 (.list 0) rfl,
   claim_C9_container_equality_always_false.2.2 [.list 0] (.list 0) rfl⟩

/-- The `Int` arm of truthiness in closed form: only `Int(0)` is falsy. -/
theorem isTruthy_int (n : Int) : isTruthy (.int n) = decide (n ≠ 0) := by
  unfold isTruthy
  split <;> simp_all

/-- Claim C6: a value is falsy exactly when it is `Bool(false)`, `Nil`,
`Option::None`, `Int(0)`, or the empty `String` (everything else,
including empty lists and maps, is truthy), and an
`if v { A } else { B }` expression takes the `B` branch exactly on a
falsy condition value. -/
theorem claim_C6_truthiness :
    (∀ v, isTruthy v = false ↔
        (v = .bool false ∨ v = .nil ∨ v = .option none ∨ v = .int 0 ∨ v = .str []))
    ∧ (∀ f c A B env st stc vc,
        evalExpr (f + 1) c env st = (stc, .ok vc) →
        evalExpr (f + 2) (.ifE c A [] (some B)) env st
          = if isTruthy vc then evalExpr (f + 1) A env stc
            else evalExpr f B env stc) := by
  constructor
  · intro v
    cases v with
    | bool b => cases b <;> simp [isTruthy]
    | int n => simp [isTruthy_int]
    | str s => cases s <;> simp [isTruthy, List.isEmpty]
    | option o => cases o <;> simp [isTruthy]
    | _ => simp [isTruthy]
  · intro f c A B env st stc vc hcond
    show (M.bind (evalExpr (f + 1) c env)
        (fun cv => if isTruthy cv then evalExpr (f + 1) A env
                   else evalElifs (f + 1) [] (some B) env)) st = _
    simp only [M.bind, hcond]
    by_cases hT : isTruthy vc <;> simp [hT, evalElifs]

/-- Witness for C6: `if nil { 1 } else { 2 }` takes the else branch. -/
theorem claim_C6_truthiness_witness :
    evalExpr 3 (.ifE .nilE (.int 1) [] (some (.int 2))) 0 initState
      = if isTruthy .nil then evalExpr 2 (.int 1) 0 initState
        else evalExpr 1 (.int 2) 0 initState :=
  claim_C6_truthiness.2 1 .nilE (.int 1) (.int 2) 0 initState initState .nil rfl

/-- Claim C7: assignment to a bare identifier mutates the nearest
existing binding on the chain toward the root without creating a new
one; `Env::set` reports not-found exactly when no node on the chain binds
the name; and in that case the `Assign` evaluation defines the name in
the current scope. -/
theorem claim_C7_env_set_and_assign :
    (∀ f st addr name v cell, chainLookup f st addr name = some cell →
        envSet f addr name v st = ({ st with cells := st.cells.set cell v }, .ok true))
    ∧ (∀ f st addr name v st2 b, envSet f addr name v st = (st2, .ok b) →
        (b = true ↔ ∃ cell, chainLookup f st addr name = some cell)
        ∧ (b = false → st2 = st ∧ chainLookup f st addr name = none))
    ∧ (∀ f name rhs env st st1 v st2,
        evalExpr (f + 1) rhs env st = (st1, .ok v) →
        (envSet (f + 1) env name v st1 = (st2, .ok true) →
          evalExpr (f + 2) (.assign (.var name) rhs) env st = (st2, .ok .nil))
        ∧ (∀ st3, envSet (f + 1) env name v st1 = (st2, .ok false) →
            envDefine env name v st2 = (st3, .ok ()) →
            evalExpr (f + 2) (.assign (.var name) rhs) env st = (st3, .ok .nil))) := by
  refine ⟨envSet_found, envSet_charact, ?_⟩
  intro f name rhs env st st1 v st2 hrhs
  constructor
  · intro hset
    show (M.bind (evalExpr (f + 1) rhs env)
        (fun v2 => M.bind (envSet (f + 1) env name v2)
          (fun okSet => if okSet then M.pure Value.nil
            else M.bind (envDefine env name v2) (fun _ => M.pure Value.nil)))) st = _
    simp only [M.bind, hrhs, hset]
    simp [M.pure]
  · intro st3 hset hdef
    show (M.bind (evalExpr (f + 1) rhs env)
        (fun v2 => M.bind (envSet (f + 1) env name v2)
          (fun okSet => if okSet then M.pure Value.nil
            else M.bind (envDefine env name v2) (fun _ => M.pure Value.nil)))) st = _
    simp only [M.bind, hrhs, hset, hdef]
    simp [Bind.bind, M.bind, hdef, M.pure]

/-- Witness for C7 on `stChain`: setting `x` from the child mutates the
root's cell and creates no binding; setting an unbound `z` reports
not-found and leaves the state untouched; and assignment to `x`
evaluates via the mutation path. -/
theorem claim_C7_env_set_and_assign_witness :
    envSet 5 1 (ascii "x") (.int 9) stChain
      = ({ stChain with cells := stChain.cells.set 0 (.int 9) }, .ok true)
    ∧ ((false = true ↔ ∃ cell, chainLookup 5 stChain 1 (ascii "z") = some cell)
        ∧ (false = false → stChain = stChain
            ∧ chainLookup 5 stChain 1 (ascii "z") = none))
    ∧ evalExpr 3 (.assign (.var (ascii "x")) (.int 9)) 1 stChain
      = ({ stChain with cells := stChain.cells.set 0 (.int 9) }, .ok .nil) :=
  ⟨claim_C7_env_set_and_assign.1 5 stChain 1 (ascii "x") (.int 9) 0 rfl,
   claim_C7_env_set_and_assign.2.1 5 stChain 1 (ascii "z") (.int 9) stChain false rfl,
   (claim_C7_env_set_and_assign.2.2 1 (ascii "x") (.int 9) 1 stChain stChain (.int 9)
      ({ stChain with cells := stChain.cells.set 0 (.int 9) }) rfl).1 rfl⟩

set_option maxRecDepth 100000 in
/-- The codec round-trips `kitchenSinkProg` exactly, returning the
source's stored fingerprint. -/
theorem decode_encode_kitchenSink :
    decode (encode kitchenSinkProg (ascii "source"))
      = .ok (kitchenSinkProg, fnv1a (ascii "source")) := rfl

end Zephyr
